import Mathlib

/-!
# The authentication middleware of the weather service

A model of `weather-service/auth.go`: the token codec (`validateTokenFormat`,
`generateTokenSignature`), the session registry (`registerExtensionHandler`,
`updateSessionActivity`, `cleanupInactiveSessions`), the sliding-window rate limiter
(`checkRateLimit`) and the middleware that composes them (`authMiddleware`).

Further models: of `weather-service/main.go` the CORS middleware (`enableCORS`) and the combined
weather response with its synthetic forecast (`weatherHandler`, `createSyntheticHourlyData`,
`createSyntheticDailyData`), and of the image pipeline the naming of the output files
(`optimizeImage`) with the two functions of the manifest generator that take a name apart
(`extractBaseNameFromPath`, `parseSizeAndFormat`).

Conventions of the model.

* A Go `string` is a list of bytes. Instants are integers (nanoseconds), `time.Now().Unix()` is an
  `int64` number of seconds, and the age check of a token is computed in `int64` with
  wrap-around, as the code computes it.
* Every reading of the clock is an argument of the function that takes it.
* The process-wide maps are association lists, `GoMap.WellFormed` when no key is repeated;
  requests are handled one at a time.
* The body of a registration request is given to the handler as `json.NewDecoder` decodes it.
* A handler returns the maps afterwards together with the list of its effects: security events,
  calls of `http.Error` and calls of the wrapped handler.
* `strings.Split`, `base64.StdEncoding`, `%x` and `sha256.Sum256` are defined here and can be
  evaluated. The two functions of `encoding/json` are a parameter (`JsonCodec`) of everything that
  uses them; `flatJson` is an executable fragment for concrete runs.
-/

/-! # Byte strings -/

/-- A byte. -/
abbrev Byte := Fin 256

/-- A Go `string`: an immutable sequence of bytes. -/
abbrev GoString := List Byte

/-- The byte with value `n % 256`. -/
def byteOf (n : Nat) : Byte := ⟨n % 256, Nat.mod_lt n (by decide)⟩

/-- The byte string of an ASCII literal. -/
def gs (s : String) : GoString := s.toList.map (fun c => byteOf c.toNat)

/-- The byte `'.'`. -/
def dot : Byte := 46

/-- The function `strings.Split(s, ".")`: the pieces of `s` between the dots; always at least
one piece. -/
def splitDot : GoString → List GoString
  | [] => [[]]
  | c :: cs =>
    if c = dot then [] :: splitDot cs
    else
      match splitDot cs with
      | [] => [[c]]
      | p :: ps => (c :: p) :: ps

/-! # encoding/base64, StdEncoding -/

/-- The alphabet of `base64.StdEncoding`. -/
def encodeStd : GoString := gs "ABCDEFGHIJKLMNOPQRSTUVWXYZabcdefghijklmnopqrstuvwxyz0123456789+/"

/-- The padding character `'='`. -/
def padChar : Byte := 61

/-- The alphabet character of a six-bit value. -/
def b64Char (v : Nat) : Byte := encodeStd.getD v 0

/-- The decode map of `base64.StdEncoding`: the six-bit value of an alphabet character. -/
def b64Val (c : Byte) : Option Nat :=
  let n := c.val
  if 65 ≤ n ∧ n ≤ 90 then some (n - 65)
  else if 97 ≤ n ∧ n ≤ 122 then some (n - 97 + 26)
  else if 48 ≤ n ∧ n ≤ 57 then some (n - 48 + 52)
  else if n = 43 then some 62
  else if n = 47 then some 63
  else none

/-- The function `base64.StdEncoding.EncodeToString`. -/
def base64Encode : GoString → GoString
  | a :: b :: c :: rest =>
    b64Char (a.val / 4) :: b64Char (a.val % 4 * 16 + b.val / 16) ::
      b64Char (b.val % 16 * 4 + c.val / 64) :: b64Char (c.val % 64) :: base64Encode rest
  | [a, b] =>
    [b64Char (a.val / 4), b64Char (a.val % 4 * 16 + b.val / 16), b64Char (b.val % 16 * 4), padChar]
  | [a] => [b64Char (a.val / 4), b64Char (a.val % 4 * 16), padChar, padChar]
  | [] => []

/-- The quanta of `Encoding.Decode` on input without line breaks: four alphabet characters
give three bytes; a final quantum may end in `=` (two bytes) or `==` (one byte), and nothing may
follow the padding; input that ends inside a quantum is corrupt. The trailing bits of a padded
quantum are not checked (the encoding is not strict). -/
def decodeQuanta : GoString → Option GoString
  | [] => some []
  | [c0, c1, p0, p1] =>
    match b64Val c0, b64Val c1, b64Val p0, b64Val p1 with
    | some v0, some v1, some v2, some v3 =>
      some [byteOf (v0 * 4 + v1 / 16), byteOf (v1 % 16 * 16 + v2 / 4), byteOf (v2 % 4 * 64 + v3)]
    | some v0, some v1, some v2, none =>
      if p1 = padChar then some [byteOf (v0 * 4 + v1 / 16), byteOf (v1 % 16 * 16 + v2 / 4)]
      else none
    | some v0, some v1, none, _ =>
      if p0 = padChar ∧ p1 = padChar then some [byteOf (v0 * 4 + v1 / 16)] else none
    | _, _, _, _ => none
  | c0 :: c1 :: c2 :: c3 :: rest =>
    match b64Val c0, b64Val c1, b64Val c2, b64Val c3 with
    | some v0, some v1, some v2, some v3 =>
      (decodeQuanta rest).map
        (fun out => byteOf (v0 * 4 + v1 / 16) :: byteOf (v1 % 16 * 16 + v2 / 4) ::
          byteOf (v2 % 4 * 64 + v3) :: out)
    | _, _, _, _ => none
  | _ => none

/-- The function `base64.StdEncoding.DecodeString`: carriage returns and line feeds are skipped
wherever they stand, the rest is decoded quantum by quantum; `none` stands for a
`CorruptInputError`. -/
def base64Decode (s : GoString) : Option GoString :=
  decodeQuanta (s.filter (fun c => c ≠ 10 ∧ c ≠ 13))

/-! # encoding/hex as used by `%x` -/

/-- Lower-case hexadecimal digit of a value below 16. -/
def hexDigit (v : Nat) : Byte := if v < 10 then byteOf (48 + v) else byteOf (87 + v)

/-- The formatting of a byte array by `fmt.Sprintf("%x", ...)`: two lower-case hexadecimal digits
per byte. -/
def hexEncode : GoString → GoString
  | [] => []
  | b :: bs => hexDigit (b.val / 16) :: hexDigit (b.val % 16) :: hexEncode bs


/-! # crypto/sha256 -/

/-- The round constants of SHA-256. -/
def sha256K : List Nat :=
  [0x428a2f98, 0x71374491, 0xb5c0fbcf, 0xe9b5dba5, 0x3956c25b, 0x59f111f1, 0x923f82a4, 0xab1c5ed5,
   0xd807aa98, 0x12835b01, 0x243185be, 0x550c7dc3, 0x72be5d74, 0x80deb1fe, 0x9bdc06a7, 0xc19bf174,
   0xe49b69c1, 0xefbe4786, 0x0fc19dc6, 0x240ca1cc, 0x2de92c6f, 0x4a7484aa, 0x5cb0a9dc, 0x76f988da,
   0x983e5152, 0xa831c66d, 0xb00327c8, 0xbf597fc7, 0xc6e00bf3, 0xd5a79147, 0x06ca6351, 0x14292967,
   0x27b70a85, 0x2e1b2138, 0x4d2c6dfc, 0x53380d13, 0x650a7354, 0x766a0abb, 0x81c2c92e, 0x92722c85,
   0xa2bfe8a1, 0xa81a664b, 0xc24b8b70, 0xc76c51a3, 0xd192e819, 0xd6990624, 0xf40e3585, 0x106aa070,
   0x19a4c116, 0x1e376c08, 0x2748774c, 0x34b0bcb5, 0x391c0cb3, 0x4ed8aa4a, 0x5b9cca4f, 0x682e6ff3,
   0x748f82ee, 0x78a5636f, 0x84c87814, 0x8cc70208, 0x90befffa, 0xa4506ceb, 0xbef9a3f7, 0xc67178f2]

/-- The initial hash value of SHA-256. -/
def sha256Init : List Nat :=
  [0x6a09e667, 0xbb67ae85, 0x3c6ef372, 0xa54ff53a, 0x510e527f, 0x9b05688c, 0x1f83d9ab, 0x5be0cd19]

/-- Rotation to the right of a 32-bit word. -/
def rotr32 (x n : Nat) : Nat := x / 2 ^ n + x % 2 ^ n * 2 ^ (32 - n)

/-- Addition of 32-bit words. -/
def add32 (x y : Nat) : Nat := (x + y) % 4294967296

/-- The function sigma-0 of the message schedule. -/
def smallSigma0 (x : Nat) : Nat := Nat.xor (Nat.xor (rotr32 x 7) (rotr32 x 18)) (x / 2 ^ 3)
/-- The function sigma-1 of the message schedule. -/
def smallSigma1 (x : Nat) : Nat := Nat.xor (Nat.xor (rotr32 x 17) (rotr32 x 19)) (x / 2 ^ 10)
/-- The function Sigma-0 of the compression function. -/
def bigSigma0 (x : Nat) : Nat := Nat.xor (Nat.xor (rotr32 x 2) (rotr32 x 13)) (rotr32 x 22)
/-- The function Sigma-1 of the compression function. -/
def bigSigma1 (x : Nat) : Nat := Nat.xor (Nat.xor (rotr32 x 6) (rotr32 x 11)) (rotr32 x 25)
/-- The choice function of SHA-256. -/
def ch32 (e f g : Nat) : Nat := Nat.xor (Nat.land e f) (Nat.land (Nat.xor e 4294967295) g)
/-- The majority function of SHA-256. -/
def maj32 (a b c : Nat) : Nat := Nat.xor (Nat.xor (Nat.land a b) (Nat.land a c)) (Nat.land b c)

/-- The big-endian 32-bit words of a byte sequence. -/
def beWords : GoString → List Nat
  | a :: b :: c :: d :: rest =>
    (a.val * 16777216 + b.val * 65536 + c.val * 256 + d.val) :: beWords rest
  | _ => []

/-- The four big-endian bytes of a 32-bit word. -/
def wordBytes (w : Nat) : GoString :=
  [byteOf (w / 16777216), byteOf (w / 65536), byteOf (w / 256), byteOf w]

/-- The message schedule, newest word first: `n` more words are added to `ws`. -/
def schedule : Nat → List Nat → List Nat
  | 0, ws => ws
  | n + 1, ws =>
    schedule n
      (add32 (add32 (smallSigma1 (ws.getD 1 0)) (ws.getD 6 0))
        (add32 (smallSigma0 (ws.getD 14 0)) (ws.getD 15 0)) :: ws)

/-- One round of the compression function on the working variables `a` to `h`. -/
def sha256Round (v : List Nat) (kw : Nat × Nat) : List Nat :=
  match v with
  | [a, b, c, d, e, f, g, h] =>
    let t1 := add32 (add32 (add32 h (bigSigma1 e)) (add32 (ch32 e f g) kw.1)) kw.2
    let t2 := add32 (bigSigma0 a) (maj32 a b c)
    [add32 t1 t2, a, b, c, add32 d t1, e, f, g]
  | _ => v

/-- The compression of one 64-byte block into the hash value `hv`. -/
def sha256Block (hv : List Nat) (block : GoString) : List Nat :=
  let w := (schedule 48 (beWords block).reverse).reverse
  let v := (sha256K.zip w).foldl sha256Round hv
  List.zipWith add32 hv v

/-- The padding of a message of `n` bytes: a one bit, zeros up to 56 modulo 64, and the bit
length as a 64-bit big-endian number. -/
def sha256Pad (n : Nat) : GoString :=
  let bits := n * 8 % 18446744073709551616
  (128 : Byte) :: List.replicate ((119 - n % 64) % 64) (0 : Byte) ++
    (wordBytes (bits / 4294967296) ++ wordBytes (bits % 4294967296))

/-- The hash value after the first `n` 64-byte blocks of `msg`. -/
def sha256Blocks : Nat → List Nat → GoString → List Nat
  | 0, hv, _ => hv
  | n + 1, hv, msg => sha256Blocks n (sha256Block hv (msg.take 64)) (msg.drop 64)

/-- The function `sha256.Sum256`: the 32-byte SHA-256 digest. -/
def sha256Sum (data : GoString) : GoString :=
  let msg := data ++ sha256Pad data.length
  (sha256Blocks (msg.length / 64) sha256Init msg).flatMap wordBytes



/-! # The token codec of auth.go -/

/-- The payload of a bearer token (`TokenPayload`). -/
structure TokenPayload where
  ExtensionID : GoString
  Fingerprint : GoString
  Timestamp : Int
  Nonce : GoString
  deriving DecidableEq

/-- The two functions of `encoding/json` that the token codec relies on, at the type
`TokenPayload`; `none` stands for a non-nil error of `json.Unmarshal`. -/
structure JsonCodec where
  Unmarshal : GoString → Option TokenPayload
  Marshal : TokenPayload → GoString

/-- The constant `TOKEN_EXPIRY_HOURS`. -/
def TOKEN_EXPIRY_HOURS : Int := 24
/-- The constant `MAX_REQUEST_PER_MIN`. -/
def MAX_REQUEST_PER_MIN : Nat := 120
/-- The constant `MAX_EXTENSIONS`. -/
def MAX_EXTENSIONS : Nat := 10000

/-- The value of a signed 64-bit integer expression whose exact result is `x`
(two's complement wrap-around). -/
def wrap64 (x : Int) : Int := (x + 9223372036854775808) % 18446744073709551616 - 9223372036854775808

/-- The values of type `int64`. -/
def isInt64 (x : Int) : Prop := -9223372036854775808 ≤ x ∧ x ≤ 9223372036854775807

instance (x : Int) : Decidable (isInt64 x) := by unfold isInt64; infer_instance

/-- The function `generateTokenSignature`: the lower-case hexadecimal SHA-256 of
`tokenData + fingerprint`. -/
def generateTokenSignature (tokenData fingerprint : GoString) : GoString :=
  let data := tokenData ++ fingerprint
  let hash := sha256Sum data
  hexEncode hash

/-- The function `validateTokenFormat`, with `now` the reading of `time.Now().Unix()`. -/
def validateTokenFormat (J : JsonCodec) (now : Int) (token extensionID fingerprint : GoString) :
    Bool :=
  match splitDot token with
  | [part0, part1] =>
    match base64Decode part0 with
    | none => false
    | some payloadBytes =>
      match J.Unmarshal payloadBytes with
      | none => false
      | some payload =>
        if payload.ExtensionID ≠ extensionID then false
        else if wrap64 (now - payload.Timestamp) > TOKEN_EXPIRY_HOURS * 3600 then false
        else if fingerprint ≠ [] ∧ payload.Fingerprint ≠ fingerprint then false
        else
          let expectedSig := generateTokenSignature part0 fingerprint
          decide (part1 = expectedSig.take 32)
  | _ => false

/-- The token of `generateTestToken`, with the payload text produced by `json.Marshal`:
`base64(json(payload)) + "." + signature[:32]`. -/
def generateToken (J : JsonCodec) (payload : TokenPayload) (fingerprint : GoString) : GoString :=
  let tokenData := base64Encode (J.Marshal payload)
  let signature := generateTokenSignature tokenData fingerprint
  tokenData ++ dot :: signature.take 32

/-! # An executable fragment of encoding/json -/

/-- JSON white space. -/
def skipWs : GoString → GoString
  | [] => []
  | c :: cs => if c = 32 ∨ c = 9 ∨ c = 10 ∨ c = 13 then skipWs cs else c :: cs

/-- The value of a hexadecimal digit. -/
def hexVal (c : Byte) : Option Nat :=
  let n := c.val
  if 48 ≤ n ∧ n ≤ 57 then some (n - 48)
  else if 97 ≤ n ∧ n ≤ 102 then some (n - 87)
  else if 65 ≤ n ∧ n ≤ 70 then some (n - 55)
  else none

/-- The UTF-8 encoding of a code point below `0x10000`. -/
def utf8Encode (r : Nat) : GoString :=
  if r < 128 then [byteOf r]
  else if r < 2048 then [byteOf (192 + r / 64), byteOf (128 + r % 64)]
  else [byteOf (224 + r / 4096), byteOf (128 + r / 64 % 64), byteOf (128 + r % 64)]

/-- The rest of a JSON string after its opening quote: the decoded text and the input after
the closing quote. Escapes of surrogate code points are outside the fragment. -/
def jsonStringBody : GoString → Option (GoString × GoString)
  | [] => none
  | 34 :: rest => some ([], rest)
  | 92 :: 117 :: h0 :: h1 :: h2 :: h3 :: rest =>
    match hexVal h0, hexVal h1, hexVal h2, hexVal h3 with
    | some v0, some v1, some v2, some v3 =>
      let r := v0 * 4096 + v1 * 256 + v2 * 16 + v3
      if 55296 ≤ r ∧ r < 57344 then none
      else (jsonStringBody rest).map (fun x => (utf8Encode r ++ x.1, x.2))
    | _, _, _, _ => none
  | 92 :: e :: rest =>
    let out : Option Byte :=
      if e = 34 then some 34 else if e = 92 then some 92 else if e = 47 then some 47
      else if e = 98 then some 8 else if e = 102 then some 12 else if e = 110 then some 10
      else if e = 114 then some 13 else if e = 116 then some 9 else none
    match out with
    | some b => (jsonStringBody rest).map (fun x => (b :: x.1, x.2))
    | none => none
  | c :: rest =>
    if c.val < 32 ∨ c = 92 then none
    else (jsonStringBody rest).map (fun x => (c :: x.1, x.2))

/-- The leading decimal digits of the input, as a number, with their count and the rest. -/
def jsonDigits : GoString → Nat → Nat → Nat × Nat × GoString
  | [], acc, n => (acc, n, [])
  | c :: cs, acc, n =>
    if 48 ≤ c.val ∧ c.val ≤ 57 then jsonDigits cs (acc * 10 + (c.val - 48)) (n + 1)
    else (acc, n, c :: cs)

/-- A scalar JSON value. -/
inductive JsonScalar where
  | str (s : GoString)
  | int (v : Int)
  | real
  | bool
  | null
  deriving DecidableEq

/-- The digits of a JSON number after the optional sign: no leading zero before further digits;
a fraction or an exponent makes the number `real`. -/
def jsonNumber (neg : Bool) (s : GoString) : Option (JsonScalar × GoString) :=
  match jsonDigits s 0 0 with
  | (_, 0, _) => none
  | (v, n, rest) =>
    if n > 1 ∧ s.head? = some 48 then none
    else
      let frac : Option (Bool × GoString) :=
        match rest with
        | 46 :: r1 =>
          match jsonDigits r1 0 0 with
          | (_, 0, _) => none
          | (_, _, r2) => some (true, r2)
        | _ => some (false, rest)
      match frac with
      | none => none
      | some (isFrac, r2) =>
        let afterExp : Option (Bool × GoString) :=
          match r2 with
          | e :: r3 =>
            if e = 101 ∨ e = 69 then
              let r4 := match r3 with
                | sgn :: r5 => if sgn = 43 ∨ sgn = 45 then r5 else r3
                | [] => r3
              match jsonDigits r4 0 0 with
              | (_, 0, _) => none
              | (_, _, r6) => some (true, r6)
            else some (false, r2)
          | [] => some (false, r2)
        match afterExp with
        | none => none
        | some (isExp, r7) =>
          if isFrac ∨ isExp then some (JsonScalar.real, r7)
          else some (JsonScalar.int (if neg then -(v : Int) else (v : Int)), r7)

/-- A scalar JSON value at the head of the input; arrays and objects as member values are
outside the fragment. -/
def jsonScalar : GoString → Option (JsonScalar × GoString)
  | 34 :: rest => (jsonStringBody rest).map (fun x => (JsonScalar.str x.1, x.2))
  | 116 :: 114 :: 117 :: 101 :: rest => some (JsonScalar.bool, rest)
  | 102 :: 97 :: 108 :: 115 :: 101 :: rest => some (JsonScalar.bool, rest)
  | 110 :: 117 :: 108 :: 108 :: rest => some (JsonScalar.null, rest)
  | 45 :: rest => jsonNumber true rest
  | s => jsonNumber false s

/-- ASCII lower case. -/
def asciiLower (c : Byte) : Byte := if 65 ≤ c.val ∧ c.val ≤ 90 then byteOf (c.val + 32) else c

/-- The effect of one object member on the payload: the key selects the field by its `json`
tag, compared after ASCII case folding; `null` leaves the field alone; a value of the wrong kind,
or an integer outside `int64`, is an error; members with other keys are skipped. -/
def jsonAssign (p : TokenPayload) (key : GoString) (v : JsonScalar) : Option TokenPayload :=
  let k := key.map asciiLower
  if v = JsonScalar.null then some p
  else if k = gs "ext" then
    match v with
    | JsonScalar.str s => some { p with ExtensionID := s }
    | _ => none
  else if k = gs "fp" then
    match v with
    | JsonScalar.str s => some { p with Fingerprint := s }
    | _ => none
  else if k = gs "ts" then
    match v with
    | JsonScalar.int i =>
      if -9223372036854775808 ≤ i ∧ i ≤ 9223372036854775807 then some { p with Timestamp := i }
      else none
    | _ => none
  else if k = gs "nonce" then
    match v with
    | JsonScalar.str s => some { p with Nonce := s }
    | _ => none
  else some p

/-- The members of an object, from the first key to the closing brace. -/
def jsonMembers : Nat → GoString → TokenPayload → Option (TokenPayload × GoString)
  | 0, _, _ => none
  | fuel + 1, s, p =>
    match s with
    | 34 :: s1 =>
      match jsonStringBody s1 with
      | none => none
      | some (key, s2) =>
        match skipWs s2 with
        | 58 :: s3 =>
          match jsonScalar (skipWs s3) with
          | none => none
          | some (v, s4) =>
            match jsonAssign p key v with
            | none => none
            | some q =>
              match skipWs s4 with
              | 44 :: s5 => jsonMembers fuel (skipWs s5) q
              | 125 :: s5 => some (q, s5)
              | _ => none
        | _ => none
    | _ => none

/-- The zero value of `TokenPayload`. -/
def TokenPayload.zero : TokenPayload := ⟨[], [], 0, []⟩

/-- An executable model of `json.Unmarshal(data, &payload)` on a fragment of JSON: one object
whose members are scalars (strings of valid UTF-8 without surrogate escapes, numbers, `true`,
`false`, `null`), or the text `null`. On this fragment it gives the payload that encoding/json
gives, and `none` where encoding/json reports an error; input outside the fragment gives
`none`. -/
def unmarshalFlat (data : GoString) : Option TokenPayload :=
  let finish (r : Option (TokenPayload × GoString)) : Option TokenPayload :=
    match r with
    | some (p, rest) => if skipWs rest = [] then some p else none
    | none => none
  match skipWs data with
  | 110 :: 117 :: 108 :: 108 :: rest => finish (some (TokenPayload.zero, rest))
  | 123 :: s1 =>
    match skipWs s1 with
    | 125 :: s2 => finish (some (TokenPayload.zero, s2))
    | s2 => finish (jsonMembers data.length s2 TokenPayload.zero)
  | _ => none

/-- The decimal digits of a natural number, most significant first, with `fuel` bounding the
number of digits. -/
def decDigits : Nat → Nat → GoString → GoString
  | 0, _, acc => acc
  | fuel + 1, n, acc =>
    if n < 10 then byteOf (48 + n) :: acc else decDigits fuel (n / 10) (byteOf (48 + n % 10) :: acc)

/-- The decimal text of an integer (`strconv.AppendInt(_, i, 10)`). -/
def formatInt (i : Int) : GoString :=
  if i < 0 then 45 :: decDigits 20 i.natAbs [] else decDigits 20 i.natAbs []

/-- A JSON string literal as `json.Marshal` writes it for ASCII text: quote and backslash
are escaped with a backslash, line feed, carriage return and tab have their short escapes, the
other control characters and `<`, `>`, `&` are written `\u00XX`, every other byte is copied. -/
def marshalString (s : GoString) : GoString :=
  let esc (c : Byte) : GoString :=
    if c = 34 then [92, 34] else if c = 92 then [92, 92]
    else if c = 10 then [92, 110] else if c = 13 then [92, 114] else if c = 9 then [92, 116]
    else if c.val < 32 ∨ c = 60 ∨ c = 62 ∨ c = 38 then
      [92, 117, 48, 48, hexDigit (c.val / 16), hexDigit (c.val % 16)]
    else [c]
  34 :: s.flatMap esc ++ [34]

/-- An executable model of `json.Marshal` at the type `TokenPayload`, for ASCII strings. -/
def marshalFlat (p : TokenPayload) : GoString :=
  gs "\x7b\"ext\":" ++ marshalString p.ExtensionID ++ gs ",\"fp\":" ++ marshalString p.Fingerprint ++
    gs ",\"ts\":" ++ formatInt p.Timestamp ++ gs ",\"nonce\":" ++ marshalString p.Nonce ++ gs "\x7d"

/-- The executable fragment of encoding/json. -/
def flatJson : JsonCodec := ⟨unmarshalFlat, marshalFlat⟩



/-! # Sessions, the rate limiter and the authentication middleware of auth.go -/

/-- A Go map with string keys, as an association list; the first entry of a key is the one
that counts. -/
abbrev GoMap (α : Type) := List (GoString × α)

/-- The value stored under `k`, if any (`m[k]`). -/
def GoMap.get {α : Type} : GoMap α → GoString → Option α
  | [], _ => none
  | (k', v) :: rest, k => if k' = k then some v else GoMap.get rest k

/-- The map after `m[k] = v`. -/
def GoMap.set {α : Type} : GoMap α → GoString → α → GoMap α
  | [], k, v => [(k, v)]
  | (k', v') :: rest, k, v => if k' = k then (k, v) :: rest else (k', v') :: GoMap.set rest k v

/-- The map after `delete(m, k)`. -/
def GoMap.delete {α : Type} : GoMap α → GoString → GoMap α
  | [], _ => []
  | (k', v') :: rest, k => if k' = k then GoMap.delete rest k else (k', v') :: GoMap.delete rest k

/-- The duration `time.Minute`, in nanoseconds. Instants (`time.Time`) are integers: the
nanoseconds on the clock of the process. -/
def Minute : Int := 60000000000

/-- The identity of a calling extension (`ExtensionIdentity`). -/
structure ExtensionIdentity where
  ExtensionID : GoString
  ExtensionVersion : GoString
  InstallTime : Int
  Fingerprint : GoString
  UserAgent : GoString
  Timezone : GoString
  deriving DecidableEq

/-- The session of a registered extension (`ExtensionSession`). -/
structure ExtensionSession where
  Identity : ExtensionIdentity
  Token : GoString
  RegisterTime : Int
  LastActivity : Int
  RequestCount : Int
  IsActive : Bool
  deriving DecidableEq

/-- The two process-wide maps: `extensionRegistry.sessions` and `rateLimiter.requests`. -/
structure Server where
  sessions : GoMap ExtensionSession
  requests : GoMap (List Int)
  deriving DecidableEq

/-- The part of an `http.Request` that the middleware looks at. Header names stand for their
canonical form; a name with several values has several entries, the first one first. -/
structure Request where
  Path : GoString
  Method : GoString
  Header : List (GoString × GoString)
  deriving DecidableEq

/-- The call `r.Header.Get(key)`: the first value of the header, or the empty string. -/
def headerGet : List (GoString × GoString) → GoString → GoString
  | [], _ => []
  | (k, v) :: rest, key => if k = key then v else headerGet rest key

/-- The call `r.Header.Set(key, value)`: the header has exactly the one value afterwards. -/
def headerSet (h : List (GoString × GoString)) (key value : GoString) :
    List (GoString × GoString) :=
  h.filter (fun e => e.1 ≠ key) ++ [(key, value)]

/-- The request after `r.Header.Set(key, value)`. -/
def Request.setHeader (r : Request) (key value : GoString) : Request :=
  { r with Header := headerSet r.Header key value }

/-- A value in the data of a security event. -/
inductive LogValue where
  | str (s : GoString)
  | int (i : Int)
  | bool (b : Bool)
  deriving DecidableEq

/-- What a handler does to the outside, in the order in which it happens:
a call of `logSecurityEvent` (with the data as the caller passes it), a call of `http.Error`,
or a call of the wrapped handler. -/
inductive Effect where
  | securityEvent (eventType : GoString) (data : List (GoString × LogValue))
  | httpError (error : GoString) (code : Nat)
  | next (r : Request)
  deriving DecidableEq

/-- The constant `http.StatusUnauthorized`. -/
def StatusUnauthorized : Nat := 401
/-- The constant `http.StatusTooManyRequests`. -/
def StatusTooManyRequests : Nat := 429

/-- The function `getExtensionSession`. -/
def getExtensionSession (s : Server) (extensionID : GoString) : Option ExtensionSession :=
  GoMap.get s.sessions extensionID

/-- The function `updateSessionActivity`, with `now` the reading of `time.Now()`. The counter is
an `int64`, and `session.RequestCount++` wraps around at the end of its range. -/
def updateSessionActivity (now : Int) (s : Server) (extensionID : GoString) : Server :=
  match GoMap.get s.sessions extensionID with
  | some session =>
    let touched : ExtensionSession :=
      { session with LastActivity := now, RequestCount := wrap64 (session.RequestCount + 1) }
    { s with sessions := GoMap.set s.sessions extensionID touched }
  | none => s

/-- The function `checkRateLimit`, with `now` the reading of `time.Now()`: the answer and the
limiter map afterwards. -/
def checkRateLimit (now : Int) (requestsMap : GoMap (List Int)) (extensionID : GoString) :
    Bool × GoMap (List Int) :=
  let oneMinuteAgo := now - Minute
  let m1 :=
    if GoMap.get requestsMap extensionID = none then GoMap.set requestsMap extensionID []
    else requestsMap
  let requests := (GoMap.get m1 extensionID).getD []
  let validRequests := requests.filter (fun req => decide (req > oneMinuteAgo))
  if validRequests.length ≥ MAX_REQUEST_PER_MIN then (false, m1)
  else (true, GoMap.set m1 extensionID (validRequests ++ [now]))

/-- The clock readings taken while one request passes the middleware. -/
structure Clock where
  attemptUnix : Int
  validateUnix : Int
  rateLimit : Int
  activity : Int
  deriving DecidableEq

/-- The handler `authMiddleware(next)` applied to a request: the maps afterwards and the effects. -/
def authMiddleware (J : JsonCodec) (clock : Clock) (s : Server) (r : Request) :
    Server × List Effect :=
  if r.Path = gs "/health" ∨ r.Path = gs "/" ∨ r.Path = gs "/api/auth/register" then
    (s, [Effect.next r])
  else
    let token := headerGet r.Header (gs "X-Extension-Token")
    let extensionID := headerGet r.Header (gs "X-Extension-ID")
    let extensionVersion := headerGet r.Header (gs "X-Extension-Version")
    let fingerprint := headerGet r.Header (gs "X-Extension-Fingerprint")
    let requestID := headerGet r.Header (gs "X-Request-ID")
    let attempt := Effect.securityEvent (gs "AUTH_ATTEMPT")
      [(gs "extensionId", LogValue.str extensionID),
       (gs "extensionVersion", LogValue.str extensionVersion),
       (gs "fingerprint", LogValue.str fingerprint),
       (gs "requestId", LogValue.str requestID),
       (gs "endpoint", LogValue.str r.Path),
       (gs "method", LogValue.str r.Method),
       (gs "userAgent", LogValue.str (headerGet r.Header (gs "User-Agent"))),
       (gs "timestamp", LogValue.int clock.attemptUnix)]
    if token = [] ∨ extensionID = [] then
      (s, [attempt, Effect.httpError (gs "Missing authentication headers") StatusUnauthorized])
    else if ¬ validateTokenFormat J clock.validateUnix token extensionID fingerprint then
      (s, [attempt,
        Effect.securityEvent (gs "INVALID_TOKEN")
          [(gs "extensionId", LogValue.str extensionID),
           (gs "token", LogValue.str (token.take (min token.length 20) ++ gs "...")),
           (gs "reason", LogValue.str (gs "invalid_format_or_signature"))],
        Effect.httpError (gs "Invalid token") StatusUnauthorized])
    else
      let session := getExtensionSession s extensionID
      if session = none ∨ ¬ (session.map (fun x => x.IsActive) = some true) then
        (s, [attempt,
          Effect.securityEvent (gs "UNREGISTERED_EXTENSION")
            [(gs "extensionId", LogValue.str extensionID),
             (gs "registered", LogValue.bool (decide (session ≠ none))),
             (gs "active", LogValue.bool (decide (session.map (fun x => x.IsActive) = some true)))],
          Effect.httpError (gs "Extension not registered or inactive") StatusUnauthorized])
      else
        let checked := checkRateLimit clock.rateLimit s.requests extensionID
        if ¬ checked.1 then
          ({ s with requests := checked.2 }, [attempt,
            Effect.securityEvent (gs "RATE_LIMIT_EXCEEDED")
              [(gs "extensionId", LogValue.str extensionID)],
            Effect.httpError (gs "Rate limit exceeded") StatusTooManyRequests])
        else
          let s1 := updateSessionActivity clock.activity { s with requests := checked.2 } extensionID
          let r1 := r.setHeader (gs "X-Validated-Extension-ID") extensionID
          let r2 := r1.setHeader (gs "X-Session-Valid") (gs "true")
          (s1, [attempt, Effect.next r2])

/-! # Auxiliary definitions of the proofs -/

/-- The characters that `base64.StdEncoding` writes: the alphabet and the padding. -/
def isB64Out (c : Byte) : Prop := (∃ v : Fin 64, c = b64Char v.val) ∨ c = padChar

/-- The sample payload of the witnesses: identity `ext-A`, fingerprint `fp1`. -/
def samplePayload (ts : Int) : TokenPayload := ⟨gs "ext-A", gs "fp1", ts, gs "nonce-1"⟩

/-- The condition under which the specification has `validateTokenFormat(token, id, fp)` return
true, in the words of the specification and with exact integer arithmetic: the token splits on
the dot into exactly two parts, the first part base64-decodes to JSON that parses as a
`TokenPayload`, the payload identity equals `id`, `now - timestamp <= 24*3600`, `fp` is empty or
equals the payload fingerprint, and the second part is the first 32 characters of
`hex(sha256(part1 + fp))`. -/
def acceptedBySpec (J : JsonCodec) (now : Int) (token id fp : GoString) : Prop :=
  ∃ part0 part1 payloadBytes payload,
    splitDot token = [part0, part1] ∧ base64Decode part0 = some payloadBytes ∧
    J.Unmarshal payloadBytes = some payload ∧ payload.ExtensionID = id ∧
    now - payload.Timestamp ≤ 24 * 3600 ∧
    (fp = [] ∨ payload.Fingerprint = fp) ∧
    part1 = (hexEncode (sha256Sum (part0 ++ fp))).take 32

/-- A token whose payload is
`{"ext":"ext-A","fp":"fp1","ts":-9223372036854775808,"nonce":"nonce-1"}`, signed for the
fingerprint `fp1`. -/
def tokenOfMinTimestamp : GoString :=
  gs ("eyJleHQiOiJleHQtQSIsImZwIjoiZnAxIiwidHMiOi05MjIzMzcyMDM2ODU0Nzc1ODA4LCJub25jZSI6Im5vbmNlLTEifQ==" ++
    ".cabc1997f9c0b276e5402d3bd94e38dd")

/-- A token whose payload is
`{"ext":"ext-A","fp":"fp1","ts":-9223372036000000000,"nonce":"nonce-1"}`, signed for the
fingerprint `fp1`. -/
def tokenOfAncientTimestamp : GoString :=
  gs ("eyJleHQiOiJleHQtQSIsImZwIjoiZnAxIiwidHMiOi05MjIzMzcyMDM2MDAwMDAwMDAwLCJub25jZSI6Im5vbmNlLTEifQ==" ++
    ".2286184814db60ddc6b71012890a1440")

/-- The answer of the middleware to a request: a rejection with an HTTP status, or a call of
the wrapped handler. -/
inductive Outcome where
  | rejected (code : Nat)
  | admitted
  deriving DecidableEq

/-- The answers among the effects of a handler, in order: one per call of `http.Error` and
one per call of the wrapped handler. -/
def responses : List Effect → List Outcome
  | [] => []
  | Effect.httpError _ code :: rest => Outcome.rejected code :: responses rest
  | Effect.next _ :: rest => Outcome.admitted :: responses rest
  | Effect.securityEvent _ _ :: rest => responses rest

/-- The paths that the middleware lets through without any check. -/
def isOpenPath (path : GoString) : Prop :=
  path = gs "/health" ∨ path = gs "/" ∨ path = gs "/api/auth/register"

instance (path : GoString) : Decidable (isOpenPath path) := by unfold isOpenPath; infer_instance

/-- The outcome that the specification gives a request on a checked path, fixed by the first
failing check: token or identity header empty, 401; token invalid, 401; no session stored for
the identity or the session inactive, 401; rate limit exceeded, 429; otherwise the request is
admitted. -/
def expectedOutcome (J : JsonCodec) (clock : Clock) (s : Server) (r : Request) : Outcome :=
  let token := headerGet r.Header (gs "X-Extension-Token")
  let identity := headerGet r.Header (gs "X-Extension-ID")
  let fingerprint := headerGet r.Header (gs "X-Extension-Fingerprint")
  if token = [] ∨ identity = [] then Outcome.rejected 401
  else if validateTokenFormat J clock.validateUnix token identity fingerprint = false then
    Outcome.rejected 401
  else
    match getExtensionSession s identity with
    | none => Outcome.rejected 401
    | some session =>
      if session.IsActive = false then Outcome.rejected 401
      else if (checkRateLimit clock.rateLimit s.requests identity).1 = false then
        Outcome.rejected 429
      else Outcome.admitted

/-- The sample request of the witnesses: a call of `/api/weather` with the token of the sample
payload. -/
def sampleRequest : Request :=
  { Path := gs "/api/weather", Method := gs "GET",
    Header :=
      [(gs "X-Extension-Token", generateToken flatJson (samplePayload 1700000000) (gs "fp1")),
       (gs "X-Extension-ID", gs "ext-A"),
       (gs "X-Extension-Fingerprint", gs "fp1"),
       (gs "X-Validated-Extension-ID", gs "someone-else"),
       (gs "X-Session-Valid", gs "false")] }

/-- The sample session of the witnesses: `ext-A`, registered at instant 5 with 7 requests. -/
def sampleSession : ExtensionSession :=
  { Identity := ⟨gs "ext-A", gs "1.0.0", 0, gs "fp1", gs "agent", gs "UTC"⟩,
    Token := gs "t", RegisterTime := 5, LastActivity := 5, RequestCount := 7, IsActive := true }

/-- The sample clock of the witnesses: second 1700000000. -/
def sampleClock : Clock := ⟨1700000000, 1700000000, 1700000000000000000, 1700000000000000001⟩

/-- A run of `checkRateLimit` calls, each with its identity and its clock reading: the limiter
map afterwards and, in order, the calls that returned true. -/
def runRateLimit : GoMap (List Int) → List (GoString × Int) →
    GoMap (List Int) × List (GoString × Int)
  | m, [] => (m, [])
  | m, (extensionID, now) :: rest =>
    let checked := checkRateLimit now m extensionID
    let after := runRateLimit checked.2 rest
    (after.1, if checked.1 then (extensionID, now) :: after.2 else after.2)

/-- The clock readings of the calls of one identity, in order. -/
def timesOf (calls : List (GoString × Int)) (extensionID : GoString) : List Int :=
  (calls.filter (fun c => decide (c.1 = extensionID))).map (fun c => c.2)

/-- The number of instants among `times` in the interval from `t - 1 minute` (excluded) to `t`
(included). -/
def countInWindow (times : List Int) (t : Int) : Nat :=
  (times.filter (fun x => decide (t - Minute < x ∧ x ≤ t))).length

/-- The invariant of the rate limiter after the calls admitted so far (`hist`), the last of
them made no later than `last`: every stored sequence is the admitted readings of its identity
above some threshold at least a minute before `last`, and no window of a minute holds more than
`MAX_REQUEST_PER_MIN` admitted calls of one identity. -/
def LimiterInv (m : GoMap (List Int)) (hist : List (GoString × Int)) (last : Int) : Prop :=
  (∀ extensionID, ∃ threshold, threshold ≤ last - Minute ∧
    (GoMap.get m extensionID).getD [] =
      (timesOf hist extensionID).filter (fun x => decide (threshold < x))) ∧
  (∀ extensionID t, countInWindow (timesOf hist extensionID) t ≤ MAX_REQUEST_PER_MIN)

/-! # Registration and the cleanup sweep of auth.go -/

/-- The constant `http.StatusMethodNotAllowed`. -/
def StatusMethodNotAllowed : Nat := 405
/-- The constant `http.StatusBadRequest`. -/
def StatusBadRequest : Nat := 400
/-- The constant `http.StatusServiceUnavailable`. -/
def StatusServiceUnavailable : Nat := 503

/-- The body of a registration request (`RegisterRequest`). -/
structure RegisterRequest where
  Identity : ExtensionIdentity
  Timestamp : Int
  deriving DecidableEq

/-- The clock readings taken while `registerExtensionHandler` builds a session and its answer,
in the order in which they are taken. -/
structure RegisterClock where
  registerTime : Int
  lastActivity : Int
  responseUnix : Int
  deriving DecidableEq

/-- What a handler leaves behind: the maps afterwards, its effects in order, and the JSON
object that it encodes into the response, if any (the status is then 200). -/
structure HandlerResult where
  server : Server
  effects : List Effect
  jsonBody : Option (List (GoString × LogValue))
  deriving DecidableEq

/-- The number of entries of a map (`len(m)`); the maps of the model hold every key once. -/
def GoMap.len {α : Type} (m : GoMap α) : Nat := m.length

/-- The keys of a map are pairwise different, as they are in every Go map. -/
def GoMap.WellFormed {α : Type} (m : GoMap α) : Prop := (m.map (fun e => e.1)).Nodup

/-- The function `registerExtensionHandler`. The argument `decoded` is what
`json.NewDecoder(r.Body).Decode(&req)` makes of the body of the request, `none` standing for an
error. -/
def registerExtensionHandler (clock : RegisterClock) (s : Server) (r : Request)
    (decoded : Option RegisterRequest) : HandlerResult :=
  if r.Method ≠ gs "POST" then
    ⟨s, [Effect.httpError (gs "Method not allowed") StatusMethodNotAllowed], none⟩
  else
    match decoded with
    | none => ⟨s, [Effect.httpError (gs "Invalid request body") StatusBadRequest], none⟩
    | some req =>
      let token := headerGet r.Header (gs "X-Extension-Token")
      let extensionID := headerGet r.Header (gs "X-Extension-ID")
      let extensionVersion := headerGet r.Header (gs "X-Extension-Version")
      if req.Identity.ExtensionID ≠ extensionID then
        ⟨s, [Effect.securityEvent (gs "REGISTRATION_MISMATCH")
              [(gs "headerExtensionId", LogValue.str extensionID),
               (gs "bodyExtensionId", LogValue.str req.Identity.ExtensionID)],
            Effect.httpError (gs "Extension ID mismatch") StatusBadRequest], none⟩
      else if GoMap.len s.sessions ≥ MAX_EXTENSIONS then
        ⟨s, [Effect.securityEvent (gs "MAX_EXTENSIONS_REACHED")
              [(gs "currentCount", LogValue.int (GoMap.len s.sessions)),
               (gs "maxAllowed", LogValue.int MAX_EXTENSIONS)],
            Effect.httpError (gs "Maximum extensions reached") StatusServiceUnavailable], none⟩
      else
        let session : ExtensionSession :=
          { Identity := req.Identity, Token := token, RegisterTime := clock.registerTime,
            LastActivity := clock.lastActivity, RequestCount := 0, IsActive := true }
        ⟨{ s with sessions := GoMap.set s.sessions extensionID session },
          [Effect.securityEvent (gs "EXTENSION_REGISTERED")
            [(gs "extensionId", LogValue.str extensionID),
             (gs "extensionVersion", LogValue.str extensionVersion),
             (gs "fingerprint", LogValue.str req.Identity.Fingerprint),
             (gs "userAgent", LogValue.str req.Identity.UserAgent),
             (gs "timezone", LogValue.str req.Identity.Timezone)]],
          some [(gs "success", LogValue.bool true),
                (gs "message", LogValue.str (gs "Extension registered successfully")),
                (gs "extensionId", LogValue.str extensionID),
                (gs "timestamp", LogValue.int clock.responseUnix)]⟩

/-- The duration `time.Hour`, in nanoseconds. -/
def Hour : Int := 3600000000000

/-- The method `Time.Unix` on an instant counted from the epoch: its whole seconds. -/
def unixOf (t : Int) : Int := t / 1000000000

/-- The sessions of a sweep are idle for more than seven days:
`now.Sub(session.LastActivity) > 7*24*time.Hour`. The subtraction of instants saturates at the
ends of `time.Duration`, far beyond seven days, so the comparison is the one of the exact
difference. -/
def isExpired (now : Int) (session : ExtensionSession) : Bool :=
  decide (now - session.LastActivity > 7 * 24 * Hour)

/-- The loop of one sweep over the entries of the session map, in the order of the list (Go
visits them in an unspecified order): an expired entry is deleted from the map and reported. -/
def sweepEntries (now : Int) :
    List (GoString × ExtensionSession) → GoMap ExtensionSession →
      GoMap ExtensionSession × List Effect
  | [], m => (m, [])
  | (extensionID, session) :: rest, m =>
    if isExpired now session then
      let after := sweepEntries now rest (GoMap.delete m extensionID)
      (after.1,
        Effect.securityEvent (gs "SESSION_EXPIRED")
          [(gs "extensionId", LogValue.str extensionID),
           (gs "lastActivity", LogValue.int (unixOf session.LastActivity))] :: after.2)
    else sweepEntries now rest m

/-- One firing of the ticker of `cleanupInactiveSessions`, with `now` the reading of
`time.Now()`: the maps afterwards and the events. -/
def cleanupInactiveSessions (now : Int) (s : Server) : Server × List Effect :=
  let swept := sweepEntries now s.sessions s.sessions
  ({ s with sessions := swept.1 }, swept.2)

/-- A step of the server: a registration, a request through the middleware, an activity touch
or a cleanup sweep. -/
inductive ServerOp where
  | register (clock : RegisterClock) (r : Request) (decoded : Option RegisterRequest)
  | request (J : JsonCodec) (clock : Clock) (r : Request)
  | touch (now : Int) (extensionID : GoString)
  | sweep (now : Int)

/-- The maps after one step. -/
def applyOp (s : Server) : ServerOp → Server
  | ServerOp.register clock r decoded => (registerExtensionHandler clock s r decoded).server
  | ServerOp.request J clock r => (authMiddleware J clock s r).1
  | ServerOp.touch now extensionID => updateSessionActivity now s extensionID
  | ServerOp.sweep now => (cleanupInactiveSessions now s).1

/-- The maps after a sequential run of steps. -/
def runOps (s : Server) (ops : List ServerOp) : Server := ops.foldl applyOp s

/-- The answers, in order, of the calls of `checkRateLimit` for one identity in a run of calls
for any identities. -/
def answersOf : GoMap (List Int) → List (GoString × Int) → GoString → List Bool
  | _, [], _ => []
  | m, (e, now) :: rest, extensionID =>
    let checked := checkRateLimit now m e
    if e = extensionID then checked.1 :: answersOf checked.2 rest extensionID
    else answersOf checked.2 rest extensionID

/-- A registry of `n` sessions under the two-byte keys `0`, `1`, ... (big-endian); for `n` up
to 65536 the keys are pairwise different. -/
@[irreducible]
def manySessions (n : Nat) : GoMap ExtensionSession :=
  (List.range n).map (fun i => ([byteOf (i / 256), byteOf i], sampleSession))

/-- The sample registration of the witnesses: a POST for `ext-A` with the token `tok-1`. -/
def sampleRegistration : Request :=
  { Path := gs "/api/auth/register", Method := gs "POST",
    Header := [(gs "X-Extension-Token", gs "tok-1"), (gs "X-Extension-ID", gs "ext-A"),
               (gs "X-Extension-Version", gs "1.0.0")] }

/-- The body of the sample registration: the identity `ext-A`. -/
def sampleBody : RegisterRequest :=
  { Identity := ⟨gs "ext-A", gs "1.0.0", 0, gs "fp1", gs "agent", gs "UTC"⟩, Timestamp := 17 }

/-- The sample session with another instant of last activity. -/
def sessionIdleSince (t : Int) : ExtensionSession := { sampleSession with LastActivity := t }

/-- The registry of the sweep witness, swept at the instant `604800000000100`: `ext-A` is idle
for exactly seven days, `ext-B` for one nanosecond more, `ext-C` is fresh. -/
def sweepSample : Server :=
  ⟨[(gs "ext-A", sessionIdleSince 100), (gs "ext-B", sessionIdleSince 99),
    (gs "ext-C", sessionIdleSince 604800000000000)], []⟩

/-- The sample registration sent a second time, with the token `tok-2`. -/
def sampleRegistrationAgain : Request :=
  { Path := gs "/api/auth/register", Method := gs "POST",
    Header := [(gs "X-Extension-Token", gs "tok-2"), (gs "X-Extension-ID", gs "ext-A"),
               (gs "X-Extension-Version", gs "1.0.0")] }

/-- A registration sent for `ext-D` in the header with the body of `ext-A`. -/
def mismatchedRegistration : Request :=
  { Path := gs "/api/auth/register", Method := gs "POST",
    Header := [(gs "X-Extension-Token", gs "tok-1"), (gs "X-Extension-ID", gs "ext-D")] }

/-! # Runs of the server and their clock readings -/

/-- The readings of `time.Now()` as an instant that one step takes, in the order in which it
takes them. -/
def opReadings : ServerOp → List Int
  | ServerOp.register clock _ _ => [clock.registerTime, clock.lastActivity]
  | ServerOp.request _ clock _ => [clock.rateLimit, clock.activity]
  | ServerOp.touch now _ => [now]
  | ServerOp.sweep now => [now]

/-- The readings of the clock of a run of steps, in order. -/
def clockReadings (ops : List ServerOp) : List Int := ops.flatMap opReadings

/-- No reading of the clock is smaller than an earlier one. -/
def NonDecreasing (readings : List Int) : Prop := readings.Pairwise (fun a b => a ≤ b)

/-- A session after `updateSessionActivity` at the instant `now`. -/
def touchedAt (now : Int) (session : ExtensionSession) : ExtensionSession :=
  { session with LastActivity := now, RequestCount := wrap64 (session.RequestCount + 1) }

/-- A run of the witnesses: `ext-A` registers at the instants 10 and 11, sends the sample
request at the instants 20 and 21, and a sweep runs at the instant 30. -/
def sampleRun : List ServerOp :=
  [ServerOp.register ⟨10, 11, 0⟩ sampleRegistration (some sampleBody),
   ServerOp.request flatJson ⟨1700000000, 1700000000, 20, 21⟩ sampleRequest,
   ServerOp.sweep 30]

/-- A session without its token. -/
def eraseToken (session : ExtensionSession) : ExtensionSession := { session with Token := [] }

/-- Two registries differ at most in the `Token` fields of their sessions: they hold the same
identities in the same order, with sessions that agree in every other field. -/
def sameButToken (m1 m2 : GoMap ExtensionSession) : Prop :=
  m1.map (fun e => (e.1, eraseToken e.2)) = m2.map (fun e => (e.1, eraseToken e.2))

instance (m1 m2 : GoMap ExtensionSession) : Decidable (sameButToken m1 m2) := by
  unfold sameButToken; infer_instance

/-- The sample session with another stored token. -/
def sessionWithToken (token : GoString) : ExtensionSession := { sampleSession with Token := token }

/-- The run of the counterexample to the monotony of the request counter: `ext-A` registers and
sends the sample request, which is admitted. -/
def registerAndRequest : List ServerOp :=
  [ServerOp.register ⟨10, 11, 0⟩ sampleRegistration (some sampleBody),
   ServerOp.request flatJson ⟨1700000000, 1700000000, 20, 21⟩ sampleRequest]

/-! # Sample requests with tokens that are not valid -/

/-- A request to `/api/weather` with the token `invalid.token` of the tests. -/
def shortTokenRequest : Request :=
  { Path := gs "/api/weather", Method := gs "GET",
    Header := [(gs "X-Extension-Token", gs "invalid.token"), (gs "X-Extension-ID", gs "ext-A")] }

/-- A request to `/api/weather` with a token of 40 bytes that is not valid. -/
def longTokenRequest : Request :=
  { Path := gs "/api/weather", Method := gs "GET",
    Header := [(gs "X-Extension-Token", gs "0123456789012345678901234567890123456789"),
               (gs "X-Extension-ID", gs "ext-A")] }

/-! # The CORS middleware of main.go -/

/-- The constant `http.StatusOK`. -/
def StatusOK : Nat := 200

/-- What the CORS middleware does once the headers of the response are set: a call of
`w.WriteHeader`, or a call of the wrapped handler. -/
inductive CorsEffect where
  | writeHeader (code : Nat)
  | next (r : Request)
  deriving DecidableEq

/-- The handler `enableCORS(next)` applied to a request, with `header` the header map
`w.Header()` of the response before: the header map of the response when the handler answers
or hands over to `next`, and what it does then, in order. -/
def enableCORS (header : List (GoString × GoString)) (r : Request) :
    List (GoString × GoString) × List CorsEffect :=
  let origin := headerGet r.Header (gs "Origin")
  let h1 :=
    if origin ≠ [] then headerSet header (gs "Access-Control-Allow-Origin") origin
    else headerSet header (gs "Access-Control-Allow-Origin") (gs "*")
  let h2 := headerSet h1 (gs "Access-Control-Allow-Methods") (gs "GET, POST, OPTIONS")
  let h3 := headerSet h2 (gs "Access-Control-Allow-Headers")
    (gs ("Content-Type, Authorization, X-Extension-Token, X-Extension-ID, " ++
      "X-Extension-Version, X-Extension-Fingerprint, X-Request-ID"))
  let h4 := headerSet h3 (gs "Access-Control-Max-Age") (gs "86400")
  if r.Method = gs "OPTIONS" then (h4, [CorsEffect.writeHeader StatusOK])
  else (h4, [CorsEffect.next r])

/-- The number of calls of the wrapped handler among the effects. -/
def nextCalls (effects : List CorsEffect) : Nat :=
  (effects.filter (fun e => match e with
    | CorsEffect.next _ => true
    | CorsEffect.writeHeader _ => false)).length

/-- The request of the CORS test: a GET with the origin `chrome-extension://test`. -/
def corsRequest : Request :=
  { Path := gs "/test", Method := gs "GET", Header := [(gs "Origin", gs "chrome-extension://test")] }

/-- The preflight request of the CORS test: an OPTIONS without an origin. -/
def preflightRequest : Request := { Path := gs "/test", Method := gs "OPTIONS", Header := [] }

/-! # The combined weather response of main.go -/

/-- A value decoded from JSON into `interface{}`: `nil`, a `bool`, a `float64`, a `string`, a
`[]interface{}` or a `map[string]interface{}`. The type `F` stands for `float64`. A map is an
association list; a map literal holds its keys in the order in which they are written. -/
inductive JsonValue (F : Type) where
  | null : JsonValue F
  | bool (b : Bool) : JsonValue F
  | number (x : F) : JsonValue F
  | string (s : GoString) : JsonValue F
  | array (items : List (JsonValue F)) : JsonValue F
  | object (fields : List (GoString × JsonValue F)) : JsonValue F

/-- The index expression `m[key]` on a `map[string]interface{}`: `nil` for a missing key and
for a nil map. -/
def mapIndex {F : Type} (m : GoMap (JsonValue F)) (key : GoString) : JsonValue F :=
  (GoMap.get m key).getD JsonValue.null

/-- The type assertion `v.(map[string]interface{})` with its `ok`. -/
def asObject {F : Type} : JsonValue F → Option (GoMap (JsonValue F))
  | JsonValue.object fields => some fields
  | _ => none

/-- The type assertion `v.([]interface{})` with its `ok`. -/
def asArray {F : Type} : JsonValue F → Option (List (JsonValue F))
  | JsonValue.array items => some items
  | _ => none

/-- The type assertion `v.(string)` with its `ok`. -/
def asString {F : Type} : JsonValue F → Option GoString
  | JsonValue.string s => some s
  | _ => none

/-- The type assertion `v.(float64)` with its `ok`. -/
def asNumber {F : Type} : JsonValue F → Option F
  | JsonValue.number x => some x
  | _ => none

/-- The functions of the library that the weather handler uses on `float64` and `time.Time`:
the constant of an integer literal, the sum and the difference of two `float64`, the
conversion `int(x)`, `t.Format(time.RFC3339)`, `t.Format("2006-01-02")` and
`t.AddDate(0, 0, days)`. -/
structure WeatherLib (F : Type) where
  float : Int → F
  add : F → F → F
  sub : F → F → F
  toInt : F → Int
  formatRFC3339 : Int → GoString
  formatDate : Int → GoString
  addDays : Int → Int → Int

/-- The function `getTimeFromInterval`, with `now` the reading of `time.Now()`. -/
def getTimeFromInterval {F : Type} (L : WeatherLib F) (now : Int) (interval : JsonValue F) :
    GoString :=
  match asObject interval with
  | some intervalMap =>
    match asString (mapIndex intervalMap (gs "startTime")) with
    | some startTime => startTime
    | none => L.formatRFC3339 now
  | none => L.formatRFC3339 now

/-- The function `createSyntheticHourlyData`, with `currentTime` the reading of
`time.Now()`. -/
def createSyntheticHourlyData {F : Type} (L : WeatherLib F) (currentTime : Int)
    (currentData : GoMap (JsonValue F)) : List (JsonValue F) :=
  (List.range 24).map (fun (i : Nat) =>
    let hourTime := currentTime + (i : Int) * Hour
    let hourlyItem : GoMap (JsonValue F) :=
      [(gs "timestamp", JsonValue.string (L.formatRFC3339 hourTime)),
       (gs "temperature", mapIndex currentData (gs "temperature")),
       (gs "feelsLikeTemperature", mapIndex currentData (gs "feelsLikeTemperature")),
       (gs "relativeHumidity", mapIndex currentData (gs "relativeHumidity")),
       (gs "weatherCondition", mapIndex currentData (gs "weatherCondition")),
       (gs "wind", mapIndex currentData (gs "wind"))]
    match asObject (mapIndex currentData (gs "precipitation")) with
    | some precip =>
      JsonValue.object (GoMap.set hourlyItem (gs "precipitation") (JsonValue.object precip))
    | none => JsonValue.object hourlyItem)

/-- The function `createSyntheticDailyData`, with `currentTime` the reading of `time.Now()`. -/
def createSyntheticDailyData {F : Type} (L : WeatherLib F) (currentTime : Int)
    (currentData : GoMap (JsonValue F)) : List (JsonValue F) :=
  let baseTemp : F :=
    match asObject (mapIndex currentData (gs "temperature")) with
    | some temp =>
      match asNumber (mapIndex temp (gs "degrees")) with
      | some deg => deg
      | none => L.float 15
    | none => L.float 15
  (List.range 5).map (fun (i : Nat) =>
    let futureDate := L.addDays currentTime (i : Int)
    let dailyItem : GoMap (JsonValue F) :=
      [(gs "date", JsonValue.string (L.formatDate futureDate)),
       (gs "maxTemperature", JsonValue.object
         [(gs "degrees", JsonValue.number (L.add baseTemp (L.float 3))),
          (gs "unit", JsonValue.string (gs "CELSIUS"))]),
       (gs "minTemperature", JsonValue.object
         [(gs "degrees", JsonValue.number (L.sub baseTemp (L.float 3))),
          (gs "unit", JsonValue.string (gs "CELSIUS"))]),
       (gs "weatherCondition", mapIndex currentData (gs "weatherCondition"))]
    match asObject (mapIndex currentData (gs "precipitation")) with
    | some precip =>
      JsonValue.object
        (GoMap.set dailyItem (gs "precipitationProbability") (mapIndex precip (gs "probability")))
    | none => JsonValue.object dailyItem)

/-- The formatting of an integer by the verb `%0wd` of `fmt`: the decimal digits, filled with
zeros on the left up to the width `w`, the sign of a negative number counting as one of
them. -/
def zeroPad (width : Nat) (i : Int) : GoString :=
  let digits := decDigits 20 i.natAbs []
  if i < 0 then 45 :: (List.replicate (width - 1 - digits.length) 48 ++ digits)
  else List.replicate (width - digits.length) 48 ++ digits

/-- The two forecast arrays that the handler tries in turn: the value under `first` where it
is an array, else the value under `second` where that is one, else nil. -/
def forecastArray {F : Type} (data : GoMap (JsonValue F)) (first second : GoString) :
    Option (List (JsonValue F)) :=
  match asArray (mapIndex data first) with
  | some items => some items
  | none =>
    match asArray (mapIndex data second) with
    | some items => some items
    | none => none

/-- The loop of `weatherHandler` over the hours of the upstream forecast, with `clock n` the
reading of `time.Now()` for the hour at position `n`: one entry for every hour that is a map. -/
def hourlyItems {F : Type} (L : WeatherLib F) (clock : Nat → Int)
    (forecastData : Option (GoMap (JsonValue F))) : List (JsonValue F) :=
  match forecastData with
  | none => []
  | some data =>
    match forecastArray data (gs "hours") (gs "forecastHours") with
    | none => []
    | some forecastHours =>
      forecastHours.enum.filterMap (fun entry =>
        match asObject entry.2 with
        | some hourData =>
          some (JsonValue.object
            [(gs "timestamp", JsonValue.string
               (getTimeFromInterval L (clock entry.1) (mapIndex hourData (gs "interval")))),
             (gs "temperature", mapIndex hourData (gs "temperature")),
             (gs "feelsLikeTemperature", mapIndex hourData (gs "feelsLikeTemperature")),
             (gs "relativeHumidity", mapIndex hourData (gs "relativeHumidity")),
             (gs "weatherCondition", mapIndex hourData (gs "weatherCondition")),
             (gs "wind", mapIndex hourData (gs "wind")),
             (gs "precipitationProbability", mapIndex hourData (gs "precipitationProbability")),
             (gs "uvIndex", mapIndex hourData (gs "uvIndex")),
             (gs "visibility", mapIndex hourData (gs "visibility")),
             (gs "cloudCover", mapIndex hourData (gs "cloudCover")),
             (gs "isDaytime", mapIndex hourData (gs "isDaytime")),
             (gs "airPressure", mapIndex hourData (gs "airPressure")),
             (gs "dewPoint", mapIndex hourData (gs "dewPoint"))])
        | none => none)

/-- The date of one day of the upstream forecast, as the loop of `weatherHandler` extracts it;
`none` where the code panics: a `displayDate` whose year, month or day is not a number, or a
`startTime` shorter than ten bytes. -/
def dayDate {F : Type} (L : WeatherLib F) (dayData : GoMap (JsonValue F)) : Option GoString :=
  match asObject (mapIndex dayData (gs "displayDate")) with
  | some displayDate =>
    match asNumber (mapIndex displayDate (gs "year")), asNumber (mapIndex displayDate (gs "month")),
      asNumber (mapIndex displayDate (gs "day")) with
    | some year, some month, some day =>
      some (zeroPad 4 (L.toInt year) ++ gs "-" ++ zeroPad 2 (L.toInt month) ++ gs "-" ++
        zeroPad 2 (L.toInt day))
    | _, _, _ => none
  | none =>
    match asObject (mapIndex dayData (gs "interval")) with
    | some interval =>
      match asString (mapIndex interval (gs "startTime")) with
      | some startTime => if startTime.length < 10 then none else some (startTime.take 10)
      | none => some []
    | none => some []

/-- The entry that the loop of `weatherHandler` builds for one day of the upstream forecast;
`none` where the code panics. -/
def dailyItem {F : Type} (L : WeatherLib F) (dayData : GoMap (JsonValue F)) :
    Option (JsonValue F) :=
  match dayDate L dayData with
  | none => none
  | some date =>
    let daytime := (asObject (mapIndex dayData (gs "daytimeForecast"))).getD []
    some (JsonValue.object
      [(gs "date", JsonValue.string date),
       (gs "maxTemperature", mapIndex dayData (gs "maxTemperature")),
       (gs "minTemperature", mapIndex dayData (gs "minTemperature")),
       (gs "feelsLikeMaxTemperature", mapIndex dayData (gs "feelsLikeMaxTemperature")),
       (gs "feelsLikeMinTemperature", mapIndex dayData (gs "feelsLikeMinTemperature")),
       (gs "weatherCondition", mapIndex daytime (gs "weatherCondition")),
       (gs "precipitationProbability", mapIndex daytime (gs "precipitation")),
       (gs "wind", mapIndex daytime (gs "wind")),
       (gs "relativeHumidity", mapIndex daytime (gs "relativeHumidity")),
       (gs "uvIndex", mapIndex daytime (gs "uvIndex")),
       (gs "sunEvents", mapIndex dayData (gs "sunEvents")),
       (gs "moonEvents", mapIndex dayData (gs "moonEvents")),
       (gs "daytimeForecast", mapIndex dayData (gs "daytimeForecast")),
       (gs "nighttimeForecast", mapIndex dayData (gs "nighttimeForecast"))])

/-- The loop of `weatherHandler` over the days of the upstream forecast: one entry for every
day that is a map; `none` where the code panics on one of them. -/
def dailyLoop {F : Type} (L : WeatherLib F) : List (JsonValue F) → Option (List (JsonValue F))
  | [] => some []
  | day :: rest =>
    match asObject day with
    | some dayData =>
      match dailyItem L dayData with
      | none => none
      | some item =>
        match dailyLoop L rest with
        | none => none
        | some items => some (item :: items)
    | none => dailyLoop L rest

/-- The entries that `weatherHandler` makes of the upstream daily forecast. -/
def dailyItems {F : Type} (L : WeatherLib F) (dailyData : Option (GoMap (JsonValue F))) :
    Option (List (JsonValue F)) :=
  match dailyData with
  | none => some []
  | some data =>
    match forecastArray data (gs "days") (gs "forecastDays") with
    | none => some []
    | some forecastDays => dailyLoop L forecastDays

/-- The clock readings of `weatherHandler`: for the forecast hour at each position, for the
synthetic hourly and daily data, and for the timestamp of the response. -/
structure WeatherClock where
  interval : Nat → Int
  hourly : Int
  daily : Int
  response : Int

/-- The function `weatherHandler` from the point where the three upstream answers are read:
`currentData` is the decoded current conditions, `forecastData` and `dailyData` are the decoded
hourly and daily forecasts, `none` where the fetch failed (a nil map); a nil `currentData` is
the empty list. The result is the value that the handler encodes into the response, `none`
where it panics. -/
def weatherHandler {F : Type} (L : WeatherLib F) (clock : WeatherClock)
    (currentData : GoMap (JsonValue F)) (forecastData dailyData : Option (GoMap (JsonValue F))) :
    Option (JsonValue F) :=
  let hourlyList := hourlyItems L clock.interval forecastData
  let hourlyList :=
    if hourlyList.length = 0 then createSyntheticHourlyData L clock.hourly currentData
    else hourlyList
  match dailyItems L dailyData with
  | none => none
  | some dailyList =>
    let dailyList :=
      if dailyList.length = 0 then createSyntheticDailyData L clock.daily currentData
      else dailyList
    some (JsonValue.object
      [(gs "current", JsonValue.object currentData),
       (gs "forecast", JsonValue.object
         [(gs "daily", JsonValue.array dailyList), (gs "hourly", JsonValue.array hourlyList)]),
       (gs "timestamp", JsonValue.string (L.formatRFC3339 clock.response))])

/-- A library for concrete runs, with integers standing for `float64` and the decimal text of
an instant standing for its formatted text. -/
def sampleLib : WeatherLib Int :=
  { float := fun i => i, add := fun a b => a + b, sub := fun a b => a - b, toInt := fun a => a,
    formatRFC3339 := formatInt, formatDate := formatInt,
    addDays := fun t days => t + days * 24 * Hour }

/-- The current conditions of the witnesses: 20 degrees, cloudy. -/
def sampleCurrent : GoMap (JsonValue Int) :=
  [(gs "temperature", JsonValue.object
     [(gs "degrees", JsonValue.number 20), (gs "unit", JsonValue.string (gs "CELSIUS"))]),
   (gs "weatherCondition", JsonValue.object [(gs "type", JsonValue.string (gs "CLOUDY"))])]

/-- The clock of the witnesses. -/
def sampleWeatherClock : WeatherClock := ⟨fun _ => 0, 1, 2, 3⟩

/-! # The file names of the image pipeline (optimizer.go, generator.go) -/

/-- The path separator of `path/filepath` on the systems where the pipeline runs. -/
def slash : Byte := 47

/-- The byte `_`. -/
def underscore : Byte := 95

/-- The function `strings.Split(s, sep)` for a separator of one byte. -/
def splitOn (sep : Byte) : GoString → List GoString
  | [] => [[]]
  | c :: cs =>
    if c = sep then [] :: splitOn sep cs
    else
      match splitOn sep cs with
      | [] => [[c]]
      | p :: ps => (c :: p) :: ps

/-- The function `strings.Join(parts, sep)`. -/
def joinWith (sep : GoString) : List GoString → GoString
  | [] => []
  | [p] => p
  | p :: q :: rest => p ++ sep ++ joinWith sep (q :: rest)

/-- The function `strings.TrimSuffix(s, suffix)`. -/
def trimSuffixOf (s suffix : GoString) : GoString :=
  if suffix.isSuffixOf s then s.take (s.length - suffix.length) else s

/-- The function `strings.TrimPrefix(s, lead)`. -/
def trimLeading (s lead : GoString) : GoString :=
  if lead.isPrefixOf s then s.drop lead.length else s

/-- The loop of `filepath.Ext` over the bytes of the path from the last one backwards, with
`acc` the bytes passed so far: it stops at a separator with the empty string and at a dot with
the text from the dot on. -/
def extLoop : GoString → GoString → GoString
  | [], _ => []
  | c :: rest, acc =>
    if c = slash then [] else if c = dot then c :: acc else extLoop rest (c :: acc)

/-- The function `filepath.Ext`: the suffix of the last element of the path from its last dot
on, or the empty string. -/
def pathExt (path : GoString) : GoString := extLoop path.reverse []

/-- The function `filepath.Base`: the last element of the path, after the trailing separators
are stripped; `.` for the empty path and the separator for a path of separators only. -/
def pathBase (path : GoString) : GoString :=
  if path = [] then gs "."
  else
    let stripped := path.reverse.dropWhile (fun c => decide (c = slash))
    let last := (stripped.takeWhile (fun c => decide (c ≠ slash))).reverse
    if last = [] then gs "/" else last

/-- The name that `optimizeImage` gives an output file:
`fmt.Sprintf("%s_%s.%s", baseName, size.Name, format)`. -/
def outputName (baseName sizeName format : GoString) : GoString :=
  baseName ++ gs "_" ++ sizeName ++ gs "." ++ format

/-- The method `extractBaseNameFromPath` of the manifest generator. -/
def extractBaseNameFromPath (path : GoString) : GoString :=
  let base := pathBase path
  let base := trimSuffixOf base (pathExt base)
  let parts := splitOn underscore base
  if parts.length > 1 then joinWith (gs "_") (parts.take (parts.length - 1))
  else base

/-- The method `parseSizeAndFormat` of the manifest generator. -/
def parseSizeAndFormat (filename : GoString) : GoString × GoString :=
  let base := trimSuffixOf filename (pathExt filename)
  let format := trimLeading (pathExt filename) (gs ".")
  let parts := splitOn underscore base
  let size := if parts.length > 0 then parts.getD (parts.length - 1) [] else gs "unknown"
  (size, format)


/-! # The two functions with their index and slice expressions made explicit -/

/-- The index expression `xs[i]` on a slice: `none` where it panics, for `i` out of range. -/
def indexAt {α : Type} (xs : List α) (i : Nat) : Option α := xs.get? i

/-- The slice expression `s[:n]` on a string: `none` where it panics, for `n` above the
length. -/
def sliceTo (s : GoString) (n : Nat) : Option GoString :=
  if n ≤ s.length then some (s.take n) else none

/-- The function `validateTokenFormat` with every expression that can panic made explicit:
`parts[0]`, `parts[1]` and `expectedSig[:32]`. The result is `none` where one of them is out of
range. -/
def validateTokenFormatOrPanic (J : JsonCodec) (now : Int)
    (token extensionID fingerprint : GoString) : Option Bool :=
  let parts := splitDot token
  if parts.length ≠ 2 then some false
  else
    match indexAt parts 0 with
    | none => none
    | some part0 =>
      match base64Decode part0 with
      | none => some false
      | some payloadBytes =>
        match J.Unmarshal payloadBytes with
        | none => some false
        | some payload =>
          if payload.ExtensionID ≠ extensionID then some false
          else if wrap64 (now - payload.Timestamp) > TOKEN_EXPIRY_HOURS * 3600 then some false
          else if fingerprint ≠ [] ∧ payload.Fingerprint ≠ fingerprint then some false
          else
            let expectedSig := generateTokenSignature part0 fingerprint
            match indexAt parts 1, sliceTo expectedSig 32 with
            | some part1, some sig32 => some (decide (part1 = sig32))
            | _, _ => none

/-- The handler `authMiddleware(next)` with every expression that can panic made explicit: the
call of `validateTokenFormat` and the slice `token[:min(len(token), 20)]`; `session.IsActive`
is only read behind `session == nil ||` and `session != nil &&`. The result is `none` where
the handler panics. -/
def authMiddlewareOrPanic (J : JsonCodec) (clock : Clock) (s : Server) (r : Request) :
    Option (Server × List Effect) :=
  if r.Path = gs "/health" ∨ r.Path = gs "/" ∨ r.Path = gs "/api/auth/register" then
    some (s, [Effect.next r])
  else
    let token := headerGet r.Header (gs "X-Extension-Token")
    let extensionID := headerGet r.Header (gs "X-Extension-ID")
    let extensionVersion := headerGet r.Header (gs "X-Extension-Version")
    let fingerprint := headerGet r.Header (gs "X-Extension-Fingerprint")
    let requestID := headerGet r.Header (gs "X-Request-ID")
    let attempt := Effect.securityEvent (gs "AUTH_ATTEMPT")
      [(gs "extensionId", LogValue.str extensionID),
       (gs "extensionVersion", LogValue.str extensionVersion),
       (gs "fingerprint", LogValue.str fingerprint),
       (gs "requestId", LogValue.str requestID),
       (gs "endpoint", LogValue.str r.Path),
       (gs "method", LogValue.str r.Method),
       (gs "userAgent", LogValue.str (headerGet r.Header (gs "User-Agent"))),
       (gs "timestamp", LogValue.int clock.attemptUnix)]
    if token = [] ∨ extensionID = [] then
      some (s, [attempt,
        Effect.httpError (gs "Missing authentication headers") StatusUnauthorized])
    else
      match validateTokenFormatOrPanic J clock.validateUnix token extensionID fingerprint with
      | none => none
      | some false =>
        match sliceTo token (min token.length 20) with
        | none => none
        | some shown =>
          some (s, [attempt,
            Effect.securityEvent (gs "INVALID_TOKEN")
              [(gs "extensionId", LogValue.str extensionID),
               (gs "token", LogValue.str (shown ++ gs "...")),
               (gs "reason", LogValue.str (gs "invalid_format_or_signature"))],
            Effect.httpError (gs "Invalid token") StatusUnauthorized])
      | some true =>
        match getExtensionSession s extensionID with
        | none =>
          some (s, [attempt,
            Effect.securityEvent (gs "UNREGISTERED_EXTENSION")
              [(gs "extensionId", LogValue.str extensionID),
               (gs "registered", LogValue.bool false),
               (gs "active", LogValue.bool false)],
            Effect.httpError (gs "Extension not registered or inactive") StatusUnauthorized])
        | some session =>
          if ¬ session.IsActive then
            some (s, [attempt,
              Effect.securityEvent (gs "UNREGISTERED_EXTENSION")
                [(gs "extensionId", LogValue.str extensionID),
                 (gs "registered", LogValue.bool true),
                 (gs "active", LogValue.bool session.IsActive)],
              Effect.httpError (gs "Extension not registered or inactive") StatusUnauthorized])
          else
            let checked := checkRateLimit clock.rateLimit s.requests extensionID
            if ¬ checked.1 then
              some ({ s with requests := checked.2 }, [attempt,
                Effect.securityEvent (gs "RATE_LIMIT_EXCEEDED")
                  [(gs "extensionId", LogValue.str extensionID)],
                Effect.httpError (gs "Rate limit exceeded") StatusTooManyRequests])
            else
              let s1 :=
                updateSessionActivity clock.activity { s with requests := checked.2 } extensionID
              let r1 := r.setHeader (gs "X-Validated-Extension-ID") extensionID
              let r2 := r1.setHeader (gs "X-Session-Valid") (gs "true")
              some (s1, [attempt, Effect.next r2])


/-! # Theorems -/

/-! # Facts about `splitDot` -/

theorem splitDot_ne_nil (s : GoString) : splitDot s ≠ [] := by
  cases s with
  | nil => simp [splitDot]
  | cons c cs =>
    unfold splitDot
    split
    · simp
    · split <;> simp

theorem splitDot_of_not_mem {s : GoString} (h : dot ∉ s) : splitDot s = [s] := by
  induction s with
  | nil => rfl
  | cons c cs ih =>
    have hc : c ≠ dot := fun e => h (by simp [e])
    have hcs : dot ∉ cs := fun e => h (by simp [e])
    simp [splitDot, hc, ih hcs]

theorem splitDot_append_dot {a : GoString} (h : dot ∉ a) (b : GoString) :
    splitDot (a ++ dot :: b) = a :: splitDot b := by
  induction a with
  | nil => simp [splitDot]
  | cons c cs ih =>
    have hc : c ≠ dot := fun e => h (by simp [e])
    have hcs : dot ∉ cs := fun e => h (by simp [e])
    simp [splitDot, hc, ih hcs]

theorem splitDot_eq_singleton {s p : GoString} (h : splitDot s = [p]) : s = p ∧ dot ∉ s := by
  induction s generalizing p with
  | nil => simp [splitDot] at h; simp [h]
  | cons c cs ih =>
    unfold splitDot at h
    split at h
    · have := splitDot_ne_nil cs
      simp at h
      exact absurd h.2 this
    · rename_i hc
      split at h
      · rename_i heq; exact absurd heq (splitDot_ne_nil cs)
      · rename_i q qs heq
        simp at h
        obtain ⟨h1, h2⟩ := h
        subst h2
        obtain ⟨e1, e2⟩ := ih heq
        subst h1
        refine ⟨by rw [e1], ?_⟩
        intro hmem
        rcases List.mem_cons.1 hmem with e | e
        · exact hc e.symm
        · exact e2 e

theorem splitDot_eq_pair {s p0 p1 : GoString} (h : splitDot s = [p0, p1]) :
    s = p0 ++ dot :: p1 ∧ dot ∉ p0 ∧ dot ∉ p1 := by
  induction s generalizing p0 with
  | nil => simp [splitDot] at h
  | cons c cs ih =>
    unfold splitDot at h
    split at h
    · rename_i hc
      simp at h
      obtain ⟨h1, h2⟩ := h
      obtain ⟨e1, e2⟩ := splitDot_eq_singleton h2
      subst h1 hc
      refine ⟨by simp [e1], by simp, ?_⟩
      rw [← e1]; exact e2
    · rename_i hc
      split at h
      · rename_i heq; exact absurd heq (splitDot_ne_nil cs)
      · rename_i q qs heq
        simp at h
        obtain ⟨h1, h2⟩ := h
        subst h2 h1
        obtain ⟨e1, e2, e3⟩ := ih heq
        refine ⟨by rw [e1]; simp, ?_, e3⟩
        intro hmem
        rcases List.mem_cons.1 hmem with e | e
        · exact hc e.symm
        · exact e2 e

theorem splitDot_pair_of {p0 p1 : GoString} (h0 : dot ∉ p0) (h1 : dot ∉ p1) :
    splitDot (p0 ++ dot :: p1) = [p0, p1] := by
  rw [splitDot_append_dot h0, splitDot_of_not_mem h1]

theorem splitDot_length (s : GoString) : (splitDot s).length = s.count dot + 1 := by
  induction s with
  | nil => rfl
  | cons c cs ih =>
    unfold splitDot
    split
    · rename_i hc
      subst hc
      simp [ih]
    · rename_i hc
      have hc2 : ¬ (c == dot) = true := by simpa using hc
      split
      · rename_i heq; exact absurd heq (splitDot_ne_nil cs)
      · rename_i q qs heq
        rw [heq] at ih
        simp [List.count_cons, hc2] at ih ⊢
        exact ih

/-! # The accepting runs of `validateTokenFormat` -/

theorem validateTokenFormat_eq_true_iff (J : JsonCodec) (now : Int)
    (token extensionID fingerprint : GoString) :
    validateTokenFormat J now token extensionID fingerprint = true ↔
      ∃ part0 part1 payloadBytes payload,
        splitDot token = [part0, part1] ∧ base64Decode part0 = some payloadBytes ∧
        J.Unmarshal payloadBytes = some payload ∧ payload.ExtensionID = extensionID ∧
        wrap64 (now - payload.Timestamp) ≤ TOKEN_EXPIRY_HOURS * 3600 ∧
        (fingerprint = [] ∨ payload.Fingerprint = fingerprint) ∧
        part1 = (generateTokenSignature part0 fingerprint).take 32 := by
  unfold validateTokenFormat
  constructor
  · intro h
    split at h
    · rename_i part0 part1 hsplit
      split at h
      · exact absurd h (by simp)
      · rename_i payloadBytes hdec
        split at h
        · exact absurd h (by simp)
        · rename_i payload hjson
          split at h
          · exact absurd h (by simp)
          · rename_i hid
            split at h
            · exact absurd h (by simp)
            · rename_i hage
              split at h
              · exact absurd h (by simp)
              · rename_i hfp
                refine ⟨part0, part1, payloadBytes, payload, hsplit, hdec, hjson, ?_, ?_, ?_, ?_⟩
                · exact not_not.1 hid
                · exact not_lt.1 hage
                · by_cases hf : fingerprint = []
                  · exact Or.inl hf
                  · right
                    by_contra hne
                    exact hfp ⟨hf, hne⟩
                · simpa using h
    · exact absurd h (by simp)
  · rintro ⟨part0, part1, payloadBytes, payload, hsplit, hdec, hjson, hid, hage, hfp, hsig⟩
    have hage2 : ¬ wrap64 (now - payload.Timestamp) > TOKEN_EXPIRY_HOURS * 3600 := not_lt.2 hage
    have hfp2 : ¬ (fingerprint ≠ [] ∧ payload.Fingerprint ≠ fingerprint) := by
      rintro ⟨h1, h2⟩
      rcases hfp with h | h
      · exact h1 h
      · exact h2 h
    simp only [hsplit, hdec, hjson]
    simp [hid, hage2, hfp2, hsig]

/-! # Base64: decoding undoes encoding -/

theorem b64Val_b64Char : ∀ v : Fin 64, b64Val (b64Char v.val) = some v.val := by decide!

theorem b64Char_ne : ∀ v : Fin 64,
    b64Char v.val ≠ dot ∧ b64Char v.val ≠ 10 ∧ b64Char v.val ≠ 13 ∧ b64Char v.val ≠ padChar := by
  decide!

theorem b64Val_padChar : b64Val padChar = none := by decide

theorem isB64Out_char {v : Nat} (h : v < 64) : isB64Out (b64Char v) := Or.inl ⟨⟨v, h⟩, rfl⟩

theorem isB64Out_ne {c : Byte} (h : isB64Out c) : c ≠ dot ∧ c ≠ 10 ∧ c ≠ 13 := by
  rcases h with ⟨v, rfl⟩ | rfl
  · exact ⟨(b64Char_ne v).1, (b64Char_ne v).2.1, (b64Char_ne v).2.2.1⟩
  · decide

theorem base64Encode_out (x : GoString) : ∀ c ∈ base64Encode x, isB64Out c := by
  induction x using base64Encode.induct with
  | case1 a b c rest ih =>
    intro d hd
    have ha := a.isLt; have hb := b.isLt; have hc := c.isLt
    simp only [base64Encode, List.mem_cons] at hd
    rcases hd with rfl | rfl | rfl | rfl | hd
    · exact isB64Out_char (by omega)
    · exact isB64Out_char (by omega)
    · exact isB64Out_char (by omega)
    · exact isB64Out_char (by omega)
    · exact ih d hd
  | case2 a b =>
    intro d hd
    have ha := a.isLt; have hb := b.isLt
    simp only [base64Encode, List.mem_cons, List.not_mem_nil, or_false] at hd
    rcases hd with rfl | rfl | rfl | rfl
    · exact isB64Out_char (by omega)
    · exact isB64Out_char (by omega)
    · exact isB64Out_char (by omega)
    · exact Or.inr rfl
  | case3 a =>
    intro d hd
    have ha := a.isLt
    simp only [base64Encode, List.mem_cons, List.not_mem_nil, or_false] at hd
    rcases hd with rfl | rfl | rfl | rfl
    · exact isB64Out_char (by omega)
    · exact isB64Out_char (by omega)
    · exact Or.inr rfl
    · exact Or.inr rfl
  | case4 => intro d hd; simp [base64Encode] at hd

theorem b64Val_b64Char_of_lt {v : Nat} (h : v < 64) : b64Val (b64Char v) = some v :=
  b64Val_b64Char ⟨v, h⟩

theorem byteOf_eq {n : Nat} {x : Byte} (h : n = x.val) : byteOf n = x := by
  apply Fin.ext
  have := x.isLt
  simp only [byteOf]
  omega

theorem base64Encode_eq_nil {x : GoString} (h : base64Encode x = []) : x = [] := by
  match x with
  | [] => rfl
  | [_] => simp [base64Encode] at h
  | [_, _] => simp [base64Encode] at h
  | _ :: _ :: _ :: _ => simp [base64Encode] at h

theorem decodeQuanta_full (c0 c1 c2 c3 : Byte) (rest : GoString) (v0 v1 v2 v3 : Nat)
    (h0 : b64Val c0 = some v0) (h1 : b64Val c1 = some v1) (h2 : b64Val c2 = some v2)
    (h3 : b64Val c3 = some v3) :
    decodeQuanta (c0 :: c1 :: c2 :: c3 :: rest) =
      (decodeQuanta rest).map (fun out => byteOf (v0 * 4 + v1 / 16) ::
        byteOf (v1 % 16 * 16 + v2 / 4) :: byteOf (v2 % 4 * 64 + v3) :: out) := by
  cases rest with
  | nil => simp [decodeQuanta, h0, h1, h2, h3]
  | cons e es => simp [decodeQuanta, h0, h1, h2, h3]

theorem decodeQuanta_base64Encode (x : GoString) : decodeQuanta (base64Encode x) = some x := by
  induction x using base64Encode.induct with
  | case1 a b c rest ih =>
    have ha := a.isLt; have hb := b.isLt; have hc := c.isLt
    simp only [base64Encode]
    rw [decodeQuanta_full _ _ _ _ _ _ _ _ _
      (b64Val_b64Char_of_lt (by omega)) (b64Val_b64Char_of_lt (by omega))
      (b64Val_b64Char_of_lt (by omega)) (b64Val_b64Char_of_lt (by omega)), ih]
    simp only [Option.map_some']
    rw [byteOf_eq (x := a) (by omega), byteOf_eq (x := b) (by omega),
      byteOf_eq (x := c) (by omega)]
  | case2 a b =>
    have ha := a.isLt; have hb := b.isLt
    simp only [base64Encode, decodeQuanta]
    rw [b64Val_b64Char_of_lt (v := a.val / 4) (by omega),
      b64Val_b64Char_of_lt (v := a.val % 4 * 16 + b.val / 16) (by omega),
      b64Val_b64Char_of_lt (v := b.val % 16 * 4) (by omega), b64Val_padChar]
    simp only [if_true]
    rw [byteOf_eq (x := a) (by omega), byteOf_eq (x := b) (by omega)]
  | case3 a =>
    have ha := a.isLt
    simp only [base64Encode, decodeQuanta]
    rw [b64Val_b64Char_of_lt (v := a.val / 4) (by omega),
      b64Val_b64Char_of_lt (v := a.val % 4 * 16) (by omega), b64Val_padChar]
    simp only [and_self, if_true]
    rw [byteOf_eq (x := a) (by omega)]
  | case4 => simp [base64Encode, decodeQuanta]

theorem base64Decode_base64Encode (x : GoString) : base64Decode (base64Encode x) = some x := by
  unfold base64Decode
  have hf : (base64Encode x).filter (fun c => decide (c ≠ 10 ∧ c ≠ 13)) = base64Encode x := by
    apply List.filter_eq_self.2
    intro c hc
    have := isB64Out_ne (base64Encode_out x c hc)
    simp [this.2.1, this.2.2]
  rw [hf]
  exact decodeQuanta_base64Encode x

theorem dot_not_mem_base64Encode (x : GoString) : dot ∉ base64Encode x := fun h =>
  (isB64Out_ne (base64Encode_out x dot h)).1 rfl

/-! # Hexadecimal text has no dot -/

theorem hexDigit_ne_dot : ∀ v : Fin 16, hexDigit v.val ≠ dot := by decide

theorem dot_not_mem_hexEncode (x : GoString) : dot ∉ hexEncode x := by
  induction x with
  | nil => simp [hexEncode]
  | cons b bs ih =>
    have hb := b.isLt
    simp only [hexEncode, List.mem_cons, not_or]
    exact ⟨fun e => hexDigit_ne_dot ⟨b.val / 16, by omega⟩ e.symm,
      fun e => hexDigit_ne_dot ⟨b.val % 16, by omega⟩ e.symm, ih⟩

theorem dot_not_mem_signature (tokenData fingerprint : GoString) (n : Nat) :
    dot ∉ (generateTokenSignature tokenData fingerprint).take n := fun h =>
  dot_not_mem_hexEncode _ (List.mem_of_mem_take h)

/-! # Tokens built by `generateToken` -/

theorem wrap64_of_isInt64 {x : Int} (h : isInt64 x) : wrap64 x = x := by
  unfold isInt64 at h
  unfold wrap64
  omega

theorem splitDot_generateToken (J : JsonCodec) (payload : TokenPayload) (fingerprint : GoString) :
    splitDot (generateToken J payload fingerprint) =
      [base64Encode (J.Marshal payload),
        (generateTokenSignature (base64Encode (J.Marshal payload)) fingerprint).take 32] := by
  unfold generateToken
  exact splitDot_pair_of (dot_not_mem_base64Encode _) (dot_not_mem_signature _ _ _)

theorem append_dot_inj {a a2 b b2 : GoString} (ha : dot ∉ a) (ha2 : dot ∉ a2)
    (h : a ++ dot :: b = a2 ++ dot :: b2) : a = a2 ∧ b = b2 := by
  induction a generalizing a2 with
  | nil =>
    cases a2 with
    | nil => simpa using h
    | cons c cs =>
      simp at h
      exact absurd h.1 (fun e => ha2 (by simp [e]))
  | cons c cs ih =>
    cases a2 with
    | nil =>
      simp at h
      exact absurd h.1 (fun e => ha (by simp [e]))
    | cons c2 cs2 =>
      simp at h
      obtain ⟨h1, h2⟩ := h
      have := ih (fun e => ha (by simp [e])) (fun e => ha2 (by simp [e])) h2
      exact ⟨by rw [h1, this.1], this.2⟩

/-- Where the difference `now - ts` is at most 86400 and not below `-2^63`, so that the 64-bit
subtraction does not wrap, the token `base64(json(payload)) + "." + signature[:32]` of a
payload that the JSON codec writes and reads back unchanged is accepted. -/
theorem generated_token_accepted_of_no_wrap (J : JsonCodec) (now ts : Int)
    (identity fingerprint nonce : GoString)
    (hjson : J.Unmarshal (J.Marshal ⟨identity, fingerprint, ts, nonce⟩) =
      some ⟨identity, fingerprint, ts, nonce⟩)
    (hage : now - ts ≤ 86400) (hlow : -9223372036854775808 ≤ now - ts) :
    validateTokenFormat J now (generateToken J ⟨identity, fingerprint, ts, nonce⟩ fingerprint)
      identity fingerprint = true := by
  rw [validateTokenFormat_eq_true_iff]
  refine ⟨_, _, _, _, splitDot_generateToken J _ fingerprint, base64Decode_base64Encode _,
    hjson, rfl, ?_, Or.inr rfl, rfl⟩
  have hw : wrap64 (now - ts) = now - ts := wrap64_of_isInt64 ⟨hlow, by omega⟩
  show wrap64 (now - ts) ≤ TOKEN_EXPIRY_HOURS * 3600
  rw [hw]
  simp only [TOKEN_EXPIRY_HOURS]
  omega

/-- C1: for every identity, fingerprint and nonce that `encoding/json` writes and reads back
unchanged (as it does every valid UTF-8 string), and every issuance time `ts` (an `int64`) with
`now - ts <= 86400`, the token `base64(json(payload)) + "." + signature[:32]` is accepted by
`validateTokenFormat(token, identity, fingerprint)`, at every clock reading `now >= 0` of
`time.Now().Unix()`. -/
theorem generated_token_accepted (J : JsonCodec) (now ts : Int)
    (identity fingerprint nonce : GoString)
    (hjson : J.Unmarshal (J.Marshal ⟨identity, fingerprint, ts, nonce⟩) =
      some ⟨identity, fingerprint, ts, nonce⟩)
    (hage : now - ts ≤ 86400) (hnow : 0 ≤ now) (hts : isInt64 ts) :
    validateTokenFormat J now (generateToken J ⟨identity, fingerprint, ts, nonce⟩ fingerprint)
      identity fingerprint = true := by
  unfold isInt64 at hts
  exact generated_token_accepted_of_no_wrap J now ts identity fingerprint nonce hjson hage
    (by omega)

/-- Where the exact difference `now - ts` is above `2^63 - 1`, the 64-bit difference is
negative and the age check lets the generated token pass. -/
theorem generated_token_accepted_of_wrap (J : JsonCodec) (now ts : Int)
    (identity fingerprint nonce : GoString)
    (hjson : J.Unmarshal (J.Marshal ⟨identity, fingerprint, ts, nonce⟩) =
      some ⟨identity, fingerprint, ts, nonce⟩)
    (hnow : isInt64 now) (hts : isInt64 ts) (hwrap : 9223372036854775807 < now - ts) :
    validateTokenFormat J now (generateToken J ⟨identity, fingerprint, ts, nonce⟩ fingerprint)
      identity fingerprint = true := by
  rw [validateTokenFormat_eq_true_iff]
  refine ⟨_, _, _, _, splitDot_generateToken J _ fingerprint, base64Decode_base64Encode _,
    hjson, rfl, ?_, Or.inr rfl, rfl⟩
  show wrap64 (now - ts) ≤ TOKEN_EXPIRY_HOURS * 3600
  unfold isInt64 at hnow hts
  simp only [TOKEN_EXPIRY_HOURS, wrap64]
  omega

set_option maxRecDepth 100000 in
/-- Witness of C1: a token issued and checked at second 1700000000. -/
theorem generated_token_accepted_witness :
    flatJson.Unmarshal (flatJson.Marshal (samplePayload 1700000000)) =
        some (samplePayload 1700000000) ∧
      (1700000000 : Int) - 1700000000 ≤ 86400 ∧
      (0 : Int) ≤ 1700000000 ∧ isInt64 1700000000 ∧
      validateTokenFormat flatJson 1700000000
        (generateToken flatJson (samplePayload 1700000000) (gs "fp1")) (gs "ext-A") (gs "fp1") =
        true :=
  ⟨by decide!, by decide, by decide, by decide,
    generated_token_accepted flatJson 1700000000 1700000000 (gs "ext-A") (gs "fp1") (gs "nonce-1")
      (by decide!) (by decide) (by decide) (by decide)⟩

set_option maxRecDepth 100000 in
/-- A remark on the condition `now >= 0`: at the clock reading `-2`, before the epoch, a token
issued at `2^63 - 1` has `now - ts <= 86400`, is written and read back unchanged by the JSON
codec, and is rejected, because the 64-bit difference wraps around to `2^63 - 1`. -/
theorem generated_token_rejected_before_epoch :
    flatJson.Unmarshal (flatJson.Marshal (samplePayload 9223372036854775807)) =
        some (samplePayload 9223372036854775807) ∧
      (-2 : Int) - 9223372036854775807 ≤ 86400 ∧
      generateToken flatJson (samplePayload 9223372036854775807) (gs "fp1") =
        gs ("eyJleHQiOiJleHQtQSIsImZwIjoiZnAxIiwidHMiOjkyMjMzNzIwMzY4NTQ3NzU4MDcsIm5vbmNlIjoibm9uY2UtMSJ9" ++
          ".40f63a86662cfdf3a097eeb8f9df9574") ∧
      validateTokenFormat flatJson (-2)
        (generateToken flatJson (samplePayload 9223372036854775807) (gs "fp1"))
        (gs "ext-A") (gs "fp1") = false :=
  ⟨by decide!, by decide, by decide!, by decide!⟩

/-- C2: for every token that `validateTokenFormat` accepts, written as the text before the dot,
the dot and the signature part, replacing any single byte of the signature part by any
different byte gives a token that is rejected for the same identity, fingerprint and clock
reading. -/
theorem signature_byte_change_rejected (J : JsonCodec) (now : Int)
    (token extensionID fingerprint part0 part1 : GoString)
    (hacc : validateTokenFormat J now token extensionID fingerprint = true)
    (htoken : token = part0 ++ dot :: part1)
    (i : Nat) (hi : i < part1.length) (b : Byte) (hb : b ≠ part1.get ⟨i, hi⟩) :
    validateTokenFormat J now (part0 ++ dot :: part1.set i b) extensionID fingerprint = false := by
  obtain ⟨q0, q1, _, _, hsplit, _, _, _, _, _, hsig⟩ :=
    (validateTokenFormat_eq_true_iff J now token extensionID fingerprint).1 hacc
  obtain ⟨hq, hq0, _⟩ := splitDot_eq_pair hsplit
  have hcount : token.count dot = 1 := by
    have := splitDot_length token
    rw [hsplit] at this
    simpa using this.symm
  have hp0 : dot ∉ part0 := by
    rw [htoken] at hcount
    simp only [List.count_append, List.count_cons_self] at hcount
    exact List.count_eq_zero.1 (by omega)
  obtain ⟨e0, e1⟩ := append_dot_inj hp0 hq0 (htoken.symm.trans hq)
  by_contra hne
  have hacc2 : validateTokenFormat J now (part0 ++ dot :: part1.set i b) extensionID fingerprint =
      true := by
    simpa using hne
  obtain ⟨r0, r1, _, _, hsplit2, _, _, _, _, _, hsig2⟩ :=
    (validateTokenFormat_eq_true_iff J now _ extensionID fingerprint).1 hacc2
  obtain ⟨hr, hr0, _⟩ := splitDot_eq_pair hsplit2
  obtain ⟨f0, f1⟩ := append_dot_inj hp0 hr0 hr
  have hsame : part1.set i b = part1 := by
    rw [f1, hsig2, ← f0, e1, hsig, ← e0]
  have hget : (part1.set i b).get ⟨i, by simpa using hi⟩ = b := by simp
  have hget2 : (part1.set i b).get ⟨i, by simpa using hi⟩ = part1.get ⟨i, hi⟩ := by
    simp only [List.get_eq_getElem]
    simp only [hsame]
  exact hb (hget.symm.trans hget2)

set_option maxRecDepth 100000 in
/-- Witness of C2: the token of the sample payload, with the first byte of its signature
replaced by the letter `z`. -/
theorem signature_byte_change_rejected_witness :
    validateTokenFormat flatJson 1700000000
        (generateToken flatJson (samplePayload 1700000000) (gs "fp1")) (gs "ext-A") (gs "fp1") =
        true ∧
      validateTokenFormat flatJson 1700000000
        (base64Encode (marshalFlat (samplePayload 1700000000)) ++
          dot :: ((generateTokenSignature (base64Encode (marshalFlat (samplePayload 1700000000)))
            (gs "fp1")).take 32).set 0 122)
        (gs "ext-A") (gs "fp1") = false :=
  ⟨by decide!,
    signature_byte_change_rejected flatJson 1700000000
      (generateToken flatJson (samplePayload 1700000000) (gs "fp1")) (gs "ext-A") (gs "fp1")
      (base64Encode (marshalFlat (samplePayload 1700000000)))
      ((generateTokenSignature (base64Encode (marshalFlat (samplePayload 1700000000)))
        (gs "fp1")).take 32)
      (by decide!) rfl 0 (by decide!) 122 (by decide!)⟩

set_option maxRecDepth 100000 in
/-- C3, the code at the failing input: at the clock reading 1700000000 the token whose payload
carries the timestamp `-2^63`, more than 24 hours before now, is accepted. -/
theorem expired_token_accepted :
    tokenOfMinTimestamp =
        generateToken flatJson (samplePayload (-9223372036854775808)) (gs "fp1") ∧
      (splitDot tokenOfMinTimestamp).head?.bind base64Decode =
        some (marshalFlat (samplePayload (-9223372036854775808))) ∧
      unmarshalFlat (marshalFlat (samplePayload (-9223372036854775808))) =
        some (samplePayload (-9223372036854775808)) ∧
      (-9223372036854775808 : Int) < 1700000000 - 86400 ∧
      validateTokenFormat flatJson 1700000000 tokenOfMinTimestamp (gs "ext-A") (gs "fp1") =
        true :=
  ⟨by decide!, by decide!, by decide!, by decide, by decide!⟩

/-- C4: `validateTokenFormat` returns false whenever the identity decoded from the token
payload differs from the expected identity. -/
theorem identity_mismatch_rejected (J : JsonCodec) (now : Int)
    (token extensionID fingerprint part0 part1 payloadBytes : GoString) (payload : TokenPayload)
    (hsplit : splitDot token = [part0, part1]) (hdecode : base64Decode part0 = some payloadBytes)
    (hjson : J.Unmarshal payloadBytes = some payload)
    (hid : payload.ExtensionID ≠ extensionID) :
    validateTokenFormat J now token extensionID fingerprint = false := by
  unfold validateTokenFormat
  simp only [hsplit, hdecode, hjson]
  simp [hid]

set_option maxRecDepth 100000 in
/-- Witness of C4: the token of the sample payload, issued to `ext-A`, presented for
`wrong-extension-id`. -/
theorem identity_mismatch_rejected_witness :
    validateTokenFormat flatJson 1700000000
      (generateToken flatJson (samplePayload 1700000000) (gs "fp1"))
      (gs "wrong-extension-id") (gs "fp1") = false :=
  identity_mismatch_rejected flatJson 1700000000
    (generateToken flatJson (samplePayload 1700000000) (gs "fp1"))
    (gs "wrong-extension-id") (gs "fp1")
    (base64Encode (marshalFlat (samplePayload 1700000000)))
    ((generateTokenSignature (base64Encode (marshalFlat (samplePayload 1700000000)))
      (gs "fp1")).take 32)
    (marshalFlat (samplePayload 1700000000)) (samplePayload 1700000000)
    (splitDot_generateToken flatJson _ _) (base64Decode_base64Encode _) (by decide!) (by decide!)

/-- Every accepted token carries in its payload the expected identity. -/
theorem accepted_token_identity (J : JsonCodec) (now : Int)
    (token extensionID fingerprint : GoString)
    (hacc : validateTokenFormat J now token extensionID fingerprint = true) :
    ∃ part0 part1 payloadBytes payload,
      splitDot token = [part0, part1] ∧ base64Decode part0 = some payloadBytes ∧
      J.Unmarshal payloadBytes = some payload ∧ payload.ExtensionID = extensionID := by
  obtain ⟨p0, p1, bs, p, h1, h2, h3, h4, _⟩ :=
    (validateTokenFormat_eq_true_iff J now token extensionID fingerprint).1 hacc
  exact ⟨p0, p1, bs, p, h1, h2, h3, h4⟩

/-- Where the 64-bit difference `now - timestamp` does not wrap around for the payload of the
token, `validateTokenFormat` returns true exactly under the condition of the specification. -/
theorem validateTokenFormat_iff_acceptedBySpec (J : JsonCodec) (now : Int)
    (token extensionID fingerprint : GoString)
    (hnowrap : ∀ part0 part1 payloadBytes payload, splitDot token = [part0, part1] →
      base64Decode part0 = some payloadBytes → J.Unmarshal payloadBytes = some payload →
      isInt64 (now - payload.Timestamp)) :
    validateTokenFormat J now token extensionID fingerprint = true ↔
      acceptedBySpec J now token extensionID fingerprint := by
  rw [validateTokenFormat_eq_true_iff]
  unfold acceptedBySpec
  constructor
  · rintro ⟨p0, p1, bs, p, h1, h2, h3, h4, h5, h6, h7⟩
    refine ⟨p0, p1, bs, p, h1, h2, h3, h4, ?_, h6, h7⟩
    rw [wrap64_of_isInt64 (hnowrap p0 p1 bs p h1 h2 h3)] at h5
    simpa [TOKEN_EXPIRY_HOURS] using h5
  · rintro ⟨p0, p1, bs, p, h1, h2, h3, h4, h5, h6, h7⟩
    refine ⟨p0, p1, bs, p, h1, h2, h3, h4, ?_, h6, h7⟩
    rw [wrap64_of_isInt64 (hnowrap p0 p1 bs p h1 h2 h3)]
    simpa [TOKEN_EXPIRY_HOURS] using h5

set_option maxRecDepth 100000 in
/-- C5, the code at the failing input: at the clock reading 1700000000 the token whose payload
carries the timestamp -9223372036000000000 makes `validateTokenFormat` return true although the
condition of the specification fails, `now - timestamp` being far above `24*3600`. -/
theorem accepted_outside_spec :
    validateTokenFormat flatJson 1700000000 tokenOfAncientTimestamp (gs "ext-A") (gs "fp1") =
        true ∧
      ¬ acceptedBySpec flatJson 1700000000 tokenOfAncientTimestamp (gs "ext-A") (gs "fp1") := by
  refine ⟨by decide!, ?_⟩
  rintro ⟨p0, p1, bs, p, h1, h2, h3, _, h5, _⟩
  have hs : splitDot tokenOfAncientTimestamp =
      [base64Encode (marshalFlat (samplePayload (-9223372036000000000))),
        gs "2286184814db60ddc6b71012890a1440"] := by decide!
  rw [hs] at h1
  simp only [List.cons.injEq, and_true] at h1
  obtain ⟨e0, _⟩ := h1
  subst e0
  rw [base64Decode_base64Encode] at h2
  simp only [Option.some.injEq] at h2
  subst h2
  have hu : flatJson.Unmarshal (marshalFlat (samplePayload (-9223372036000000000))) =
      some (samplePayload (-9223372036000000000)) := by decide!
  rw [hu] at h3
  simp only [Option.some.injEq] at h3
  subst h3
  revert h5
  decide

/-! # Maps and headers -/

theorem GoMap.get_set_self {α : Type} (m : GoMap α) (k : GoString) (v : α) :
    GoMap.get (GoMap.set m k v) k = some v := by
  induction m with
  | nil => simp [GoMap.set, GoMap.get]
  | cons e rest ih =>
    obtain ⟨k2, v2⟩ := e
    by_cases h : k2 = k
    · simp [GoMap.set, GoMap.get, h]
    · simp [GoMap.set, GoMap.get, h, ih]

theorem GoMap.get_set_of_ne {α : Type} (m : GoMap α) (k k2 : GoString) (v : α) (h : k2 ≠ k) :
    GoMap.get (GoMap.set m k v) k2 = GoMap.get m k2 := by
  induction m with
  | nil => simp [GoMap.set, GoMap.get, Ne.symm h]
  | cons e rest ih =>
    obtain ⟨k3, v3⟩ := e
    by_cases h3 : k3 = k
    · subst h3
      simp [GoMap.set, GoMap.get, Ne.symm h]
    · by_cases h4 : k3 = k2
      · subst h4
        simp [GoMap.set, GoMap.get, h3]
      · simp [GoMap.set, GoMap.get, h3, h4, ih]

theorem headerGet_append_of_not_mem (a b : List (GoString × GoString)) (key : GoString)
    (h : ∀ e ∈ a, e.1 ≠ key) : headerGet (a ++ b) key = headerGet b key := by
  induction a with
  | nil => rfl
  | cons e rest ih =>
    obtain ⟨k, v⟩ := e
    have hk : k ≠ key := h (k, v) (by simp)
    simp only [List.cons_append, headerGet, hk, if_false]
    exact ih (fun e he => h e (by simp [he]))

theorem headerGet_append_filter (a b : List (GoString × GoString)) (key key2 : GoString)
    (hne : key2 ≠ key) (hmem : ∃ e ∈ a, e.1 = key2) :
    headerGet (a.filter (fun e => decide (e.1 ≠ key)) ++ b) key2 = headerGet a key2 := by
  induction a with
  | nil => simp at hmem
  | cons e rest ih =>
    obtain ⟨k, v⟩ := e
    by_cases hk2 : k = key2
    · subst hk2
      have : decide (k ≠ key) = true := by simpa using hne
      simp only [List.filter_cons, this, if_true, List.cons_append, headerGet]
    · have hmem2 : ∃ e ∈ rest, e.1 = key2 := by
        obtain ⟨e, he, hek⟩ := hmem
        rcases List.mem_cons.1 he with rfl | he
        · exact absurd hek hk2
        · exact ⟨e, he, hek⟩
      by_cases hk : k = key
      · have : decide (k ≠ key) = false := by simpa using hk
        simp only [List.filter_cons, this, headerGet, hk2, if_false]
        exact ih hmem2
      · have : decide (k ≠ key) = true := by simpa using hk
        simp only [List.filter_cons, this, if_true, List.cons_append, headerGet, hk2, if_false]
        exact ih hmem2

theorem headerGet_of_not_mem (a : List (GoString × GoString)) (key : GoString)
    (h : ∀ e ∈ a, e.1 ≠ key) : headerGet a key = [] := by
  have := headerGet_append_of_not_mem a [] key h
  simpa [headerGet] using this

theorem headerGet_headerSet_self (h : List (GoString × GoString)) (key value : GoString) :
    headerGet (headerSet h key value) key = value := by
  unfold headerSet
  rw [headerGet_append_of_not_mem]
  · simp [headerGet]
  · intro e he
    simpa using (List.mem_filter.1 he).2

theorem headerGet_headerSet_of_ne (h : List (GoString × GoString)) (key key2 value : GoString)
    (hne : key2 ≠ key) : headerGet (headerSet h key value) key2 = headerGet h key2 := by
  unfold headerSet
  by_cases hmem : ∃ e ∈ h, e.1 = key2
  · exact headerGet_append_filter h _ key key2 hne hmem
  · have hno : ∀ e ∈ h, e.1 ≠ key2 := fun e he hek => hmem ⟨e, he, hek⟩
    rw [headerGet_append_of_not_mem, headerGet_of_not_mem h key2 hno]
    · simp [headerGet, Ne.symm hne]
    · intro e he
      exact hno e (List.mem_filter.1 he).1

/-! # The rate limiter, one call -/

theorem checkRateLimit_false_unchanged (now : Int) (m : GoMap (List Int)) (extensionID : GoString)
    (h : (checkRateLimit now m extensionID).1 = false) :
    (checkRateLimit now m extensionID).2 = m := by
  unfold checkRateLimit at h ⊢
  by_cases hget : GoMap.get m extensionID = none
  · simp [hget, GoMap.get_set_self, MAX_REQUEST_PER_MIN] at h
  · simp only [hget, if_false] at h ⊢
    split
    · rfl
    · rename_i hlen
      simp [hlen] at h

/-! # The authentication middleware -/

theorem authMiddleware_cases (J : JsonCodec) (clock : Clock) (s : Server) (r : Request)
    (hpath : ¬ isOpenPath r.Path) :
    responses (authMiddleware J clock s r).2 = [expectedOutcome J clock s r] ∧
      (expectedOutcome J clock s r ≠ Outcome.admitted → (authMiddleware J clock s r).1 = s) := by
  unfold isOpenPath at hpath
  unfold authMiddleware expectedOutcome
  simp only [hpath, if_false]
  by_cases h1 : headerGet r.Header (gs "X-Extension-Token") = [] ∨
      headerGet r.Header (gs "X-Extension-ID") = []
  · simp [h1, responses, StatusUnauthorized]
  · simp only [h1, if_false]
    by_cases h2 : validateTokenFormat J clock.validateUnix
        (headerGet r.Header (gs "X-Extension-Token")) (headerGet r.Header (gs "X-Extension-ID"))
        (headerGet r.Header (gs "X-Extension-Fingerprint")) = true
    · simp only [h2, not_true, if_false]
      cases h3 : getExtensionSession s (headerGet r.Header (gs "X-Extension-ID")) with
      | none => simp [responses, StatusUnauthorized]
      | some session =>
        by_cases h4 : session.IsActive = true
        · by_cases h5 : (checkRateLimit clock.rateLimit s.requests
              (headerGet r.Header (gs "X-Extension-ID"))).1 = true
          · simp [h4, h5, responses]
          · have h5f : (checkRateLimit clock.rateLimit s.requests
                (headerGet r.Header (gs "X-Extension-ID"))).1 = false := by simpa using h5
            simp [h4, h5f, responses, StatusTooManyRequests,
              checkRateLimit_false_unchanged _ _ _ h5f]
        · have h4f : session.IsActive = false := by simpa using h4
          simp [h4f, responses, StatusUnauthorized]
    · have h2f : validateTokenFormat J clock.validateUnix
          (headerGet r.Header (gs "X-Extension-Token")) (headerGet r.Header (gs "X-Extension-ID"))
          (headerGet r.Header (gs "X-Extension-Fingerprint")) = false := by simpa using h2
      simp [h2f, responses, StatusUnauthorized]

theorem next_mem_responses {effects : List Effect} {r : Request}
    (h : Effect.next r ∈ effects) : Outcome.admitted ∈ responses effects := by
  induction effects with
  | nil => simp at h
  | cons e rest ih =>
    rcases List.mem_cons.1 h with rfl | h2
    · simp [responses]
    · cases e <;> simp [responses, ih h2]

theorem expectedOutcome_admitted {J : JsonCodec} {clock : Clock} {s : Server} {r : Request}
    (h : expectedOutcome J clock s r = Outcome.admitted) :
    ¬ (headerGet r.Header (gs "X-Extension-Token") = [] ∨
        headerGet r.Header (gs "X-Extension-ID") = []) ∧
      validateTokenFormat J clock.validateUnix (headerGet r.Header (gs "X-Extension-Token"))
        (headerGet r.Header (gs "X-Extension-ID"))
        (headerGet r.Header (gs "X-Extension-Fingerprint")) = true ∧
      (∃ session, getExtensionSession s (headerGet r.Header (gs "X-Extension-ID")) = some session ∧
        session.IsActive = true) ∧
      (checkRateLimit clock.rateLimit s.requests (headerGet r.Header (gs "X-Extension-ID"))).1 =
        true := by
  unfold expectedOutcome at h
  simp only at h
  split at h
  · exact absurd h (by simp)
  · rename_i h1
    split at h
    · exact absurd h (by simp)
    · rename_i h2
      split at h
      · exact absurd h (by simp)
      · rename_i session h3
        split at h
        · exact absurd h (by simp)
        · rename_i h4
          split at h
          · exact absurd h (by simp)
          · rename_i h5
            exact ⟨h1, by simpa using h2, ⟨session, h3, by simpa using h4⟩, by simpa using h5⟩

theorem authMiddleware_admitted (J : JsonCodec) (clock : Clock) (s : Server) (r : Request)
    (hpath : ¬ isOpenPath r.Path) (h : expectedOutcome J clock s r = Outcome.admitted) :
    ∃ attempt : Effect,
      authMiddleware J clock s r =
        (updateSessionActivity clock.activity
            { s with requests := (checkRateLimit clock.rateLimit s.requests
                (headerGet r.Header (gs "X-Extension-ID"))).2 }
            (headerGet r.Header (gs "X-Extension-ID")),
          [attempt, Effect.next ((r.setHeader (gs "X-Validated-Extension-ID")
            (headerGet r.Header (gs "X-Extension-ID"))).setHeader
            (gs "X-Session-Valid") (gs "true"))]) := by
  obtain ⟨h1, h2, ⟨session, h3, h4⟩, h5⟩ := expectedOutcome_admitted h
  unfold isOpenPath at hpath
  unfold authMiddleware
  simp only [hpath, if_false, h1, h2, not_true, h3]
  simp [h4, h5]

/-- C6: for every request whose path is not `/health`, `/` or `/api/auth/register`, the answer
of `authMiddleware` is the single outcome fixed by the first failing check in the order: token
or identity header empty, 401; `validateTokenFormat` false, 401; no session stored for the
identity or the session inactive, 401; `checkRateLimit` false, 429; otherwise the wrapped handler
is invoked exactly once. On a rejection the wrapped handler is not invoked. -/
theorem outcome_is_first_failing_check (J : JsonCodec) (clock : Clock) (s : Server)
    (r : Request) (hpath : ¬ isOpenPath r.Path) :
    responses (authMiddleware J clock s r).2 = [expectedOutcome J clock s r] ∧
      (∀ code, expectedOutcome J clock s r = Outcome.rejected code →
        ∀ r2, Effect.next r2 ∉ (authMiddleware J clock s r).2) := by
  refine ⟨(authMiddleware_cases J clock s r hpath).1, ?_⟩
  intro code hcode r2 hmem
  have := next_mem_responses hmem
  rw [(authMiddleware_cases J clock s r hpath).1, hcode] at this
  simp at this

set_option maxRecDepth 100000 in
/-- Witness of C6: the sample request for an unregistered identity is answered 401, and for
the registered identity it is admitted. -/
theorem outcome_is_first_failing_check_witness :
    ¬ isOpenPath sampleRequest.Path ∧
      responses (authMiddleware flatJson sampleClock ⟨[], []⟩ sampleRequest).2 =
        [Outcome.rejected 401] ∧
      responses (authMiddleware flatJson sampleClock ⟨[(gs "ext-A", sampleSession)], []⟩
        sampleRequest).2 = [Outcome.admitted] :=
  ⟨by decide!,
    ((outcome_is_first_failing_check flatJson sampleClock ⟨[], []⟩ sampleRequest
      (by decide!)).1).trans (by decide!),
    ((outcome_is_first_failing_check flatJson sampleClock ⟨[(gs "ext-A", sampleSession)], []⟩
      sampleRequest (by decide!)).1).trans (by decide!)⟩

/-- C7: every request that `authMiddleware` rejects leaves the session registry and the
rate-limiter map exactly as they were; in particular the rate-limit entry and the session of
the identity are the ones from before. -/
theorem rejected_request_changes_nothing (J : JsonCodec) (clock : Clock) (s : Server)
    (r : Request) (code : Nat)
    (hrej : responses (authMiddleware J clock s r).2 = [Outcome.rejected code]) :
    (authMiddleware J clock s r).1 = s ∧
      GoMap.get (authMiddleware J clock s r).1.requests (headerGet r.Header (gs "X-Extension-ID")) =
        GoMap.get s.requests (headerGet r.Header (gs "X-Extension-ID")) ∧
      getExtensionSession (authMiddleware J clock s r).1 (headerGet r.Header (gs "X-Extension-ID")) =
        getExtensionSession s (headerGet r.Header (gs "X-Extension-ID")) := by
  have hs : (authMiddleware J clock s r).1 = s := by
    by_cases hpath : isOpenPath r.Path
    · unfold isOpenPath at hpath
      simp [authMiddleware, hpath]
    · obtain ⟨h1, h2⟩ := authMiddleware_cases J clock s r hpath
      apply h2
      rw [h1] at hrej
      simp only [List.cons.injEq, and_true] at hrej
      rw [hrej]
      simp
  rw [hs]
  exact ⟨rfl, rfl, rfl⟩

set_option maxRecDepth 100000 in
/-- Witness of C7: the validly signed sample request for the unregistered identity `ext-A`. -/
theorem rejected_request_changes_nothing_witness :
    responses (authMiddleware flatJson sampleClock ⟨[], []⟩ sampleRequest).2 =
        [Outcome.rejected 401] ∧
      (authMiddleware flatJson sampleClock ⟨[], []⟩ sampleRequest).1 = ⟨[], []⟩ :=
  ⟨by decide!,
    (rejected_request_changes_nothing flatJson sampleClock ⟨[], []⟩ sampleRequest 401
      (by decide!)).1⟩

/-- C8: for every request that `authMiddleware` admits on a checked path, the session of the
identity has its `LastActivity` set to the clock reading of the update and its `RequestCount`
incremented as an `int64`, which is an increase by exactly 1 for every count below `2^63 - 1`
(there `RequestCount++` wraps around), and the request reaches the wrapped handler with
`X-Validated-Extension-ID` equal to the `X-Extension-ID` value and `X-Session-Valid` equal to
`"true"`, whatever the client supplied for those two headers. -/
theorem admitted_request_touches_session (J : JsonCodec) (clock : Clock) (s : Server)
    (r : Request) (hpath : ¬ isOpenPath r.Path)
    (hadm : responses (authMiddleware J clock s r).2 = [Outcome.admitted]) :
    ∃ session r2,
      getExtensionSession s (headerGet r.Header (gs "X-Extension-ID")) = some session ∧
      getExtensionSession (authMiddleware J clock s r).1 (headerGet r.Header (gs "X-Extension-ID")) =
        some { session with LastActivity := clock.activity,
                            RequestCount := wrap64 (session.RequestCount + 1) } ∧
      (isInt64 session.RequestCount → session.RequestCount < 9223372036854775807 →
        getExtensionSession (authMiddleware J clock s r).1
            (headerGet r.Header (gs "X-Extension-ID")) =
          some { session with LastActivity := clock.activity,
                              RequestCount := session.RequestCount + 1 }) ∧
      Effect.next r2 ∈ (authMiddleware J clock s r).2 ∧
      headerGet r2.Header (gs "X-Validated-Extension-ID") =
        headerGet r.Header (gs "X-Extension-ID") ∧
      headerGet r2.Header (gs "X-Session-Valid") = gs "true" := by
  have hout : expectedOutcome J clock s r = Outcome.admitted := by
    have := (authMiddleware_cases J clock s r hpath).1
    rw [hadm] at this
    simpa using this.symm
  obtain ⟨_, _, ⟨session, h3, _⟩, _⟩ := expectedOutcome_admitted hout
  obtain ⟨attempt, heq⟩ := authMiddleware_admitted J clock s r hpath hout
  have hstored : getExtensionSession (authMiddleware J clock s r).1
      (headerGet r.Header (gs "X-Extension-ID")) =
      some { session with LastActivity := clock.activity,
                          RequestCount := wrap64 (session.RequestCount + 1) } := by
    rw [heq]
    unfold getExtensionSession at h3
    simp only [updateSessionActivity, getExtensionSession, h3]
    exact GoMap.get_set_self _ _ _
  refine ⟨session, (r.setHeader (gs "X-Validated-Extension-ID")
    (headerGet r.Header (gs "X-Extension-ID"))).setHeader (gs "X-Session-Valid") (gs "true"),
    h3, hstored, ?_, ?_, ?_, ?_⟩
  · intro hint hmax
    unfold isInt64 at hint
    rw [hstored, wrap64_of_isInt64 ⟨by omega, by omega⟩]
  · rw [heq]
    exact List.mem_cons_of_mem _ (List.mem_singleton.2 rfl)
  · simp only [Request.setHeader]
    rw [headerGet_headerSet_of_ne _ _ _ _ (by decide), headerGet_headerSet_self]
  · simp only [Request.setHeader]
    rw [headerGet_headerSet_self]

set_option maxRecDepth 100000 in
/-- Witness of C8: the sample request, which itself carries `X-Validated-Extension-ID` and
`X-Session-Valid` headers, admitted for the registered identity `ext-A`. -/
theorem admitted_request_touches_session_witness :
    ¬ isOpenPath sampleRequest.Path ∧
      responses (authMiddleware flatJson sampleClock ⟨[(gs "ext-A", sampleSession)], []⟩
        sampleRequest).2 = [Outcome.admitted] ∧
      getExtensionSession
        (authMiddleware flatJson sampleClock ⟨[(gs "ext-A", sampleSession)], []⟩ sampleRequest).1
        (gs "ext-A") =
        some { sampleSession with LastActivity := 1700000000000000001, RequestCount := 8 } :=
  ⟨by decide!, by decide!,
    by
      obtain ⟨session, r2, h1, _, h2, _⟩ :=
        admitted_request_touches_session flatJson sampleClock
          ⟨[(gs "ext-A", sampleSession)], []⟩ sampleRequest (by decide!) (by decide!)
      have hid : headerGet sampleRequest.Header (gs "X-Extension-ID") = gs "ext-A" := by decide!
      rw [hid] at h1 h2
      have hs : session = sampleSession := by
        have : getExtensionSession ⟨[(gs "ext-A", sampleSession)], []⟩ (gs "ext-A") =
            some sampleSession := by decide!
        rw [this] at h1
        exact (Option.some.inj h1).symm
      rw [hs] at h2
      rw [h2 (by decide) (by decide)]
      rfl⟩

/-- C9: for every request whose path is exactly `/health`, `/` or `/api/auth/register`,
`authMiddleware` invokes the wrapped handler exactly once with the request as it came, whatever
the headers are, and whatever the session registry and the rate limiter hold, which it leaves
as they are. -/
theorem open_path_passes_through (J : JsonCodec) (clock : Clock) (r : Request)
    (hpath : isOpenPath r.Path) :
    ∀ s : Server, authMiddleware J clock s r = (s, [Effect.next r]) := by
  intro s
  unfold isOpenPath at hpath
  simp [authMiddleware, hpath]

/-- Witness of C9: a call of `/health` without any header. -/
theorem open_path_passes_through_witness :
    isOpenPath (gs "/health") ∧
      authMiddleware flatJson sampleClock ⟨[(gs "ext-A", sampleSession)], []⟩
        ⟨gs "/health", gs "GET", []⟩ =
        (⟨[(gs "ext-A", sampleSession)], []⟩, [Effect.next ⟨gs "/health", gs "GET", []⟩]) :=
  ⟨by decide,
    open_path_passes_through flatJson sampleClock ⟨gs "/health", gs "GET", []⟩ (by decide)
      ⟨[(gs "ext-A", sampleSession)], []⟩⟩

/-! # The rate limiter over a run of calls -/

theorem checkRateLimit_true (now : Int) (m : GoMap (List Int)) (extensionID : GoString)
    (h : (checkRateLimit now m extensionID).1 = true) :
    (((GoMap.get m extensionID).getD []).filter (fun x => decide (x > now - Minute))).length <
        MAX_REQUEST_PER_MIN ∧
      ∀ other, (GoMap.get (checkRateLimit now m extensionID).2 other).getD [] =
        if other = extensionID then
          ((GoMap.get m extensionID).getD []).filter (fun x => decide (x > now - Minute)) ++ [now]
        else (GoMap.get m other).getD [] := by
  unfold checkRateLimit at h ⊢
  by_cases hget : GoMap.get m extensionID = none
  · simp only [hget, if_true, GoMap.get_set_self, Option.getD_some, Option.getD_none,
      List.filter_nil, List.length_nil] at h ⊢
    refine ⟨by simp [MAX_REQUEST_PER_MIN], ?_⟩
    intro other
    have h0 : ¬ (0 ≥ MAX_REQUEST_PER_MIN) := by simp [MAX_REQUEST_PER_MIN]
    simp only [h0, if_false]
    by_cases ho : other = extensionID
    · subst ho
      simp [GoMap.get_set_self]
    · simp only [ho, if_false]
      rw [GoMap.get_set_of_ne _ _ _ _ ho, GoMap.get_set_of_ne _ _ _ _ ho]
  · simp only [hget, if_false] at h ⊢
    split at h
    · exact absurd h (by simp)
    · rename_i hlen
      refine ⟨by omega, ?_⟩
      intro other
      simp only [hlen, if_false]
      by_cases ho : other = extensionID
      · subst ho
        simp [GoMap.get_set_self]
      · simp only [ho, if_false]
        rw [GoMap.get_set_of_ne _ _ _ _ ho]

theorem timesOf_append (a b : List (GoString × Int)) (extensionID : GoString) :
    timesOf (a ++ b) extensionID = timesOf a extensionID ++ timesOf b extensionID := by
  simp [timesOf]

theorem timesOf_singleton_self (extensionID : GoString) (now : Int) :
    timesOf [(extensionID, now)] extensionID = [now] := by
  simp [timesOf]

theorem timesOf_singleton_of_ne (extensionID other : GoString) (now : Int)
    (h : other ≠ extensionID) : timesOf [(extensionID, now)] other = [] := by
  simp [timesOf, Ne.symm h]

theorem length_filter_le_of_imp {p q : Int → Bool} (l : List Int)
    (h : ∀ x, p x = true → q x = true) : (l.filter p).length ≤ (l.filter q).length :=
  (List.monotone_filter_right l h).length_le

theorem filter_filter_of_imp {p q : Int → Bool} (l : List Int)
    (h : ∀ x, p x = true → q x = true) : (l.filter q).filter p = l.filter p := by
  rw [List.filter_filter]
  apply List.filter_congr
  intro x _
  by_cases hp : p x = true
  · simp [hp, h x hp]
  · simp [hp]

theorem LimiterInv_empty (last : Int) : LimiterInv [] [] last := by
  refine ⟨fun _ => ⟨last - Minute, le_refl _, by simp [GoMap.get, timesOf]⟩, ?_⟩
  intro _ _
  simp [countInWindow, timesOf]

theorem LimiterInv_step (m : GoMap (List Int)) (hist : List (GoString × Int)) (last now : Int)
    (extensionID : GoString) (hinv : LimiterInv m hist last) (hnow : last ≤ now) :
    LimiterInv (checkRateLimit now m extensionID).2
      (hist ++ if (checkRateLimit now m extensionID).1 then [(extensionID, now)] else []) now := by
  obtain ⟨hstore, hwin⟩ := hinv
  by_cases hc : (checkRateLimit now m extensionID).1 = true
  · obtain ⟨hlen, hget⟩ := checkRateLimit_true now m extensionID hc
    obtain ⟨th, hth, hst⟩ := hstore extensionID
    have hvalid : ((GoMap.get m extensionID).getD []).filter (fun x => decide (x > now - Minute)) =
        (timesOf hist extensionID).filter (fun x => decide (x > now - Minute)) := by
      rw [hst]
      apply filter_filter_of_imp
      intro x hx
      simp only [gt_iff_lt, decide_eq_true_eq] at hx ⊢
      omega
    rw [hvalid] at hlen hget
    simp only [hc, if_true]
    constructor
    · intro other
      by_cases ho : other = extensionID
      · subst ho
        refine ⟨now - Minute, le_refl _, ?_⟩
        rw [hget other, if_pos rfl, timesOf_append, timesOf_singleton_self, List.filter_append]
        have hm : (0 : Int) < Minute := by decide
        simp [List.filter_cons, hm]
      · obtain ⟨th2, hth2, hst2⟩ := hstore other
        refine ⟨th2, by omega, ?_⟩
        rw [hget other, if_neg ho, timesOf_append, timesOf_singleton_of_ne _ _ _ ho,
          List.append_nil]
        exact hst2
    · intro other t
      by_cases ho : other = extensionID
      · subst ho
        rw [timesOf_append, timesOf_singleton_self]
        by_cases hin : t - Minute < now ∧ now ≤ t
        · have hle : countInWindow (timesOf hist other) t ≤
              ((timesOf hist other).filter (fun x => decide (x > now - Minute))).length := by
            apply length_filter_le_of_imp
            intro x hx
            simp only [gt_iff_lt, decide_eq_true_eq] at hx ⊢
            omega
          have : countInWindow (timesOf hist other ++ [now]) t =
              countInWindow (timesOf hist other) t + 1 := by
            simp [countInWindow, List.filter_append, List.filter_cons, hin]
          rw [this]
          omega
        · have : countInWindow (timesOf hist other ++ [now]) t =
              countInWindow (timesOf hist other) t := by
            simp [countInWindow, List.filter_append, List.filter_cons, hin]
          rw [this]
          exact hwin other t
      · rw [timesOf_append, timesOf_singleton_of_ne _ _ _ ho, List.append_nil]
        exact hwin other t
  · have hf : (checkRateLimit now m extensionID).1 = false := by simpa using hc
    rw [checkRateLimit_false_unchanged now m extensionID hf]
    simp only [hf, Bool.false_eq_true, if_false, List.append_nil]
    refine ⟨?_, hwin⟩
    intro other
    obtain ⟨th, hth, hst⟩ := hstore other
    exact ⟨th, by omega, hst⟩

theorem runRateLimit_inv (calls : List (GoString × Int)) :
    ∀ (m : GoMap (List Int)) (hist : List (GoString × Int)) (last : Int),
      LimiterInv m hist last → (∀ c ∈ calls, last ≤ c.2) →
      (calls.map (fun c => c.2)).Pairwise (fun a b => a ≤ b) →
      ∃ final, LimiterInv (runRateLimit m calls).1 (hist ++ (runRateLimit m calls).2) final := by
  induction calls with
  | nil =>
    intro m hist last hinv _ _
    exact ⟨last, by simpa [runRateLimit] using hinv⟩
  | cons c rest ih =>
    intro m hist last hinv hlast hsorted
    obtain ⟨extensionID, now⟩ := c
    have hnow : last ≤ now := hlast (extensionID, now) (by simp)
    simp only [List.map_cons, List.pairwise_cons] at hsorted
    have hstep := LimiterInv_step m hist last now extensionID hinv hnow
    have hrest : ∀ c ∈ rest, now ≤ c.2 := by
      intro c hc
      exact hsorted.1 c.2 (List.mem_map.2 ⟨c, hc, rfl⟩)
    obtain ⟨final, hfinal⟩ := ih _ _ now hstep hrest hsorted.2
    refine ⟨final, ?_⟩
    simp only [runRateLimit]
    by_cases hc : (checkRateLimit now m extensionID).1 = true
    · simp only [hc, if_true] at hfinal ⊢
      simpa using hfinal
    · have hf : (checkRateLimit now m extensionID).1 = false := by simpa using hc
      simp only [hf, Bool.false_eq_true, if_false, List.append_nil] at hfinal ⊢
      exact hfinal

/-- C10: for every sequence of `checkRateLimit` calls, for any mix of identities, made at
non-decreasing clock readings from the empty limiter, and for every identity and every instant
`t`, at most `MAX_REQUEST_PER_MIN` (120) of the identity's calls with clock readings in the
interval from `t - 1 minute` (excluded) to `t` (included) returned true. -/
theorem at_most_max_admitted_per_window (calls : List (GoString × Int))
    (hsorted : (calls.map (fun c => c.2)).Pairwise (fun a b => a ≤ b))
    (extensionID : GoString) (t : Int) :
    countInWindow (timesOf (runRateLimit [] calls).2 extensionID) t ≤ 120 := by
  cases calls with
  | nil => simp [runRateLimit, timesOf, countInWindow]
  | cons c rest =>
    have hfirst : ∀ d ∈ c :: rest, c.2 ≤ d.2 := by
      intro d hd
      rcases List.mem_cons.1 hd with rfl | hd
      · exact le_refl _
      · simp only [List.map_cons, List.pairwise_cons] at hsorted
        exact hsorted.1 d.2 (List.mem_map.2 ⟨d, hd, rfl⟩)
    obtain ⟨_, hfinal⟩ := runRateLimit_inv (c :: rest) [] [] c.2 (LimiterInv_empty _) hfirst hsorted
    have := hfinal.2 extensionID t
    simpa [MAX_REQUEST_PER_MIN] using this

set_option maxRecDepth 1000000 in
/-- Witness of C10: 125 calls of one identity at the same instant, between two calls of
another identity; exactly 120 of the 125 are admitted. -/
theorem at_most_max_admitted_per_window_witness :
    (((gs "ext-B", (3 : Int)) :: List.replicate 125 (gs "ext-A", (7 : Int)) ++
        [(gs "ext-B", 9)]).map (fun c : GoString × Int => c.2)).Pairwise (fun a b => a ≤ b) ∧
      countInWindow (timesOf (runRateLimit [] ((gs "ext-B", (3 : Int)) ::
        List.replicate 125 (gs "ext-A", (7 : Int)) ++ [(gs "ext-B", 9)])).2 (gs "ext-A")) 7 ≤ 120 ∧
      countInWindow (timesOf (runRateLimit [] ((gs "ext-B", (3 : Int)) ::
        List.replicate 125 (gs "ext-A", (7 : Int)) ++ [(gs "ext-B", 9)])).2 (gs "ext-A")) 7 = 120 :=
  ⟨by decide!,
    at_most_max_admitted_per_window _ (by decide!) (gs "ext-A") 7,
    by decide!⟩

/-! # The rate limiter: quota, idle minute, rejected calls, stored sequences -/

theorem checkRateLimit_fst (now : Int) (m : GoMap (List Int)) (extensionID : GoString) :
    (checkRateLimit now m extensionID).1 =
      decide ((((GoMap.get m extensionID).getD []).filter
        (fun x => decide (x > now - Minute))).length < MAX_REQUEST_PER_MIN) := by
  by_cases h : (checkRateLimit now m extensionID).1 = true
  · rw [h]
    exact (decide_eq_true (checkRateLimit_true now m extensionID h).1).symm
  · have hf : (checkRateLimit now m extensionID).1 = false := by simpa using h
    rw [hf]
    symm
    apply decide_eq_false
    intro hlt
    unfold checkRateLimit at hf
    by_cases hget : GoMap.get m extensionID = none
    · simp [hget, GoMap.get_set_self, MAX_REQUEST_PER_MIN] at hf
    · simp only [hget, if_false] at hf
      split at hf
      · rename_i hge
        omega
      · simp at hf

theorem checkRateLimit_get_of_ne (now : Int) (m : GoMap (List Int)) (extensionID other : GoString)
    (hne : other ≠ extensionID) :
    (GoMap.get (checkRateLimit now m extensionID).2 other).getD [] =
      (GoMap.get m other).getD [] := by
  by_cases h : (checkRateLimit now m extensionID).1 = true
  · rw [(checkRateLimit_true now m extensionID h).2 other, if_neg hne]
  · have hf : (checkRateLimit now m extensionID).1 = false := by simpa using h
    rw [checkRateLimit_false_unchanged now m extensionID hf]

theorem checkRateLimit_get_self (now : Int) (m : GoMap (List Int)) (extensionID : GoString)
    (h : (checkRateLimit now m extensionID).1 = true) :
    GoMap.get (checkRateLimit now m extensionID).2 extensionID =
      some (((GoMap.get m extensionID).getD []).filter (fun x => decide (x > now - Minute)) ++
        [now]) := by
  unfold checkRateLimit at h ⊢
  by_cases hget : GoMap.get m extensionID = none
  · simp only [hget, if_true, GoMap.get_set_self, Option.getD_some, Option.getD_none,
      List.filter_nil, List.length_nil] at h ⊢
    have h0 : ¬ (0 ≥ MAX_REQUEST_PER_MIN) := by simp [MAX_REQUEST_PER_MIN]
    simp only [h0, if_false, GoMap.get_set_self]
  · simp only [hget, if_false] at h ⊢
    split at h
    · exact absurd h (by simp)
    · rename_i hlen
      simp only [hlen, if_false, GoMap.get_set_self]

theorem timesOf_cons (e : GoString) (now : Int) (rest : List (GoString × Int))
    (extensionID : GoString) :
    timesOf ((e, now) :: rest) extensionID =
      if e = extensionID then now :: timesOf rest extensionID else timesOf rest extensionID := by
  by_cases h : e = extensionID
  · simp [timesOf, List.filter_cons, h]
  · simp [timesOf, List.filter_cons, h]

theorem answersOf_within_minute (extensionID : GoString) (first : Int) :
    ∀ (calls : List (GoString × Int)) (m : GoMap (List Int)),
      (∀ x ∈ (GoMap.get m extensionID).getD [], first ≤ x) →
      ((GoMap.get m extensionID).getD []).length ≤ 120 →
      (∀ t ∈ timesOf calls extensionID, first ≤ t ∧ t < first + Minute) →
      answersOf m calls extensionID =
        List.replicate (min (timesOf calls extensionID).length
            (120 - ((GoMap.get m extensionID).getD []).length)) true ++
          List.replicate ((timesOf calls extensionID).length -
            (120 - ((GoMap.get m extensionID).getD []).length)) false := by
  intro calls
  induction calls with
  | nil => intro m _ _ _; simp [answersOf, timesOf]
  | cons c rest ih =>
    intro m hfirst hlen htimes
    obtain ⟨e, now⟩ := c
    rw [timesOf_cons] at htimes ⊢
    by_cases he : e = extensionID
    · subst he
      simp only [if_true] at htimes ⊢
      have hnow := htimes now (by simp)
      have hvalid : ((GoMap.get m e).getD []).filter (fun x => decide (x > now - Minute)) =
          (GoMap.get m e).getD [] := by
        apply List.filter_eq_self.2
        intro x hx
        have := hfirst x hx
        simp only [gt_iff_lt, decide_eq_true_eq]
        omega
      have hrest : ∀ t ∈ timesOf rest e, first ≤ t ∧ t < first + Minute :=
        fun t ht => htimes t (List.mem_cons_of_mem _ ht)
      simp only [answersOf, if_true]
      by_cases hc : (checkRateLimit now m e).1 = true
      · have hlt := (checkRateLimit_true now m e hc).1
        rw [hvalid] at hlt
        simp only [MAX_REQUEST_PER_MIN] at hlt
        have hget := checkRateLimit_get_self now m e hc
        rw [hvalid] at hget
        have hstored : (GoMap.get (checkRateLimit now m e).2 e).getD [] =
            (GoMap.get m e).getD [] ++ [now] := by rw [hget]; rfl
        have := ih (checkRateLimit now m e).2
          (by
            rw [hstored]
            intro x hx
            rcases List.mem_append.1 hx with hx | hx
            · exact hfirst x hx
            · simp only [List.mem_singleton] at hx
              rw [hx]; exact hnow.1)
          (by rw [hstored]; simp only [List.length_append, List.length_singleton]; omega)
          hrest
        rw [hc, this, hstored]
        simp only [List.length_append, List.length_singleton, List.length_cons]
        have e1 : min ((timesOf rest e).length + 1) (120 - ((GoMap.get m e).getD []).length) =
            min (timesOf rest e).length (120 - (((GoMap.get m e).getD []).length + 1)) + 1 := by
          omega
        have e2 : (timesOf rest e).length + 1 - (120 - ((GoMap.get m e).getD []).length) =
            (timesOf rest e).length - (120 - (((GoMap.get m e).getD []).length + 1)) := by
          omega
        rw [e1, e2, List.replicate_succ]
        rfl
      · have hf : (checkRateLimit now m e).1 = false := by simpa using hc
        have hge : ¬ (((GoMap.get m e).getD []).length < 120) := by
          have := checkRateLimit_fst now m e
          rw [hf, hvalid] at this
          simpa [MAX_REQUEST_PER_MIN] using this.symm
        have hun := checkRateLimit_false_unchanged now m e hf
        rw [hf, hun, ih m hfirst hlen hrest]
        have e0 : 120 - ((GoMap.get m e).getD []).length = 0 := by omega
        simp only [e0, Nat.min_zero, List.replicate_zero, List.nil_append, Nat.sub_zero,
          List.length_cons, List.replicate_succ]
    · simp only [he, if_false] at htimes ⊢
      simp only [answersOf, he, if_false]
      have hsame := checkRateLimit_get_of_ne now m e extensionID (Ne.symm he)
      have := ih (checkRateLimit now m e).2 (by rw [hsame]; exact hfirst)
        (by rw [hsame]; exact hlen) htimes
      rw [this, hsame]

/-- C11: starting from a rate limiter with no recorded requests for an identity, if
`checkRateLimit` is called for that identity at non-decreasing times that are all less than one
minute after its first call, then the first 120 of those calls return true and every later one
returns false, whatever calls for other identities are interleaved. -/
theorem first_120_calls_admitted (m : GoMap (List Int)) (extensionID : GoString)
    (calls : List (GoString × Int))
    (hnone : (GoMap.get m extensionID).getD [] = [])
    (hsorted : (timesOf calls extensionID).Pairwise (fun a b => a ≤ b))
    (hminute : ∀ first, (timesOf calls extensionID).head? = some first →
      ∀ t ∈ timesOf calls extensionID, t < first + Minute) :
    answersOf m calls extensionID =
      List.replicate (min (timesOf calls extensionID).length 120) true ++
        List.replicate ((timesOf calls extensionID).length - 120) false := by
  cases htimes : timesOf calls extensionID with
  | nil =>
    have := answersOf_within_minute extensionID 0 calls m (by simp [hnone]) (by simp [hnone])
      (by simp [htimes])
    simpa [hnone, htimes] using this
  | cons first others =>
    rw [htimes] at hsorted hminute
    have hall : ∀ t ∈ timesOf calls extensionID, first ≤ t ∧ t < first + Minute := by
      intro t ht
      rw [htimes] at ht
      refine ⟨?_, hminute first rfl t ht⟩
      rcases List.mem_cons.1 ht with rfl | ht
      · exact le_refl _
      · exact (List.pairwise_cons.1 hsorted).1 t ht
    have := answersOf_within_minute extensionID first calls m (by simp [hnone]) (by simp [hnone])
      hall
    simpa [hnone, htimes] using this

set_option maxRecDepth 1000000 in
/-- Witness of C11: 125 calls of `ext-A` at the instant 7, between calls of `ext-B`, on the
empty limiter: 120 answers true, then 5 answers false. -/
theorem first_120_calls_admitted_witness :
    answersOf [] ((gs "ext-B", (3 : Int)) :: List.replicate 125 (gs "ext-A", (7 : Int)) ++
        [(gs "ext-B", 9)]) (gs "ext-A") =
      List.replicate 120 true ++ List.replicate 5 false := by
  have htimes : timesOf ((gs "ext-B", (3 : Int)) :: List.replicate 125 (gs "ext-A", (7 : Int)) ++
      [(gs "ext-B", 9)]) (gs "ext-A") = List.replicate 125 7 := by decide!
  have h := first_120_calls_admitted [] (gs "ext-A")
    ((gs "ext-B", (3 : Int)) :: List.replicate 125 (gs "ext-A", (7 : Int)) ++ [(gs "ext-B", 9)])
    rfl
    (by rw [htimes]; exact List.pairwise_replicate.2 (Or.inr (le_refl _)))
    (by
      rw [htimes]
      intro first hfirst t ht
      have h1 : first = 7 := by
        simp [List.replicate_succ] at hfirst
        exact hfirst.symm
      have h2 : t = 7 := (List.mem_replicate.1 ht).2
      rw [h1, h2]
      decide)
  rw [htimes] at h
  simpa using h

/-- C12: for every rate-limiter state and identity, if every timestamp recorded for the
identity is at least one minute older than now, `checkRateLimit` at now returns true and the
stored sequence of the identity becomes exactly `[now]`, which is the sequence that the first
call of an identity leaves on the empty limiter: the identity has its full quota again. -/
theorem full_quota_after_idle_minute (now : Int) (m : GoMap (List Int)) (extensionID : GoString)
    (hold : ∀ t ∈ (GoMap.get m extensionID).getD [], t ≤ now - Minute) :
    (checkRateLimit now m extensionID).1 = true ∧
      GoMap.get (checkRateLimit now m extensionID).2 extensionID = some [now] ∧
      GoMap.get (checkRateLimit now m extensionID).2 extensionID =
        GoMap.get (checkRateLimit now [] extensionID).2 extensionID := by
  have hvalid : ((GoMap.get m extensionID).getD []).filter (fun x => decide (x > now - Minute)) =
      [] := by
    apply List.filter_eq_nil_iff.2
    intro x hx
    have := hold x hx
    simp only [gt_iff_lt, decide_eq_true_eq]
    omega
  have htrue : (checkRateLimit now m extensionID).1 = true := by
    rw [checkRateLimit_fst, hvalid]
    simp [MAX_REQUEST_PER_MIN]
  have hget := checkRateLimit_get_self now m extensionID htrue
  rw [hvalid] at hget
  have htrue0 : (checkRateLimit now [] extensionID).1 = true := by
    rw [checkRateLimit_fst]
    simp [GoMap.get, MAX_REQUEST_PER_MIN]
  have hget0 := checkRateLimit_get_self now [] extensionID htrue0
  refine ⟨htrue, hget, ?_⟩
  rw [hget, hget0]
  simp [GoMap.get]

/-- Witness of C12: an identity with 120 recorded requests at the instant 7, called again
one minute later. -/
theorem full_quota_after_idle_minute_witness :
    (checkRateLimit (7 + Minute) [(gs "ext-A", List.replicate 120 7)] (gs "ext-A")).1 = true ∧
      GoMap.get (checkRateLimit (7 + Minute) [(gs "ext-A", List.replicate 120 7)]
        (gs "ext-A")).2 (gs "ext-A") = some [7 + Minute] := by
  have h := full_quota_after_idle_minute (7 + Minute) [(gs "ext-A", List.replicate 120 7)]
    (gs "ext-A")
    (by
      intro t ht
      have : t = 7 := by
        simp only [GoMap.get, if_true, Option.getD_some] at ht
        exact (List.mem_replicate.1 ht).2
      rw [this]
      simp)
  exact ⟨h.1, h.2.1⟩

/-- C13: whenever `checkRateLimit` returns false, the rate-limiter map after the call is
identical to the map before it: the rejected attempt is not recorded for the identity and the
sequence of no other identity changes. -/
theorem rejected_call_not_recorded (now : Int) (m : GoMap (List Int)) (extensionID : GoString)
    (hfalse : (checkRateLimit now m extensionID).1 = false) :
    (checkRateLimit now m extensionID).2 = m ∧
      ∀ other, GoMap.get (checkRateLimit now m extensionID).2 other = GoMap.get m other := by
  have h := checkRateLimit_false_unchanged now m extensionID hfalse
  exact ⟨h, fun other => by rw [h]⟩

set_option maxRecDepth 1000000 in
/-- Witness of C13: an identity with 120 recorded requests at the instant 7, called again at
the instant 8. -/
theorem rejected_call_not_recorded_witness :
    (checkRateLimit 8 [(gs "ext-A", List.replicate 120 7), (gs "ext-B", [1])] (gs "ext-A")).1 =
        false ∧
      (checkRateLimit 8 [(gs "ext-A", List.replicate 120 7), (gs "ext-B", [1])] (gs "ext-A")).2 =
        [(gs "ext-A", List.replicate 120 7), (gs "ext-B", [1])] :=
  ⟨by decide!,
    (rejected_call_not_recorded 8 [(gs "ext-A", List.replicate 120 7), (gs "ext-B", [1])]
      (gs "ext-A") (by decide!)).1⟩

theorem checkRateLimit_length_le (now : Int) (m : GoMap (List Int)) (extensionID : GoString)
    (hinv : ∀ other, ((GoMap.get m other).getD []).length ≤ MAX_REQUEST_PER_MIN) :
    ∀ other, ((GoMap.get (checkRateLimit now m extensionID).2 other).getD []).length ≤
      MAX_REQUEST_PER_MIN := by
  intro other
  by_cases h : (checkRateLimit now m extensionID).1 = true
  · obtain ⟨hlen, hget⟩ := checkRateLimit_true now m extensionID h
    rw [hget other]
    by_cases ho : other = extensionID
    · simp only [ho, if_true, List.length_append, List.length_singleton]
      omega
    · simp only [ho, if_false]
      exact hinv other
  · have hf : (checkRateLimit now m extensionID).1 = false := by simpa using h
    rw [checkRateLimit_false_unchanged now m extensionID hf]
    exact hinv other

theorem runRateLimit_length_le (calls : List (GoString × Int)) :
    ∀ m : GoMap (List Int),
      (∀ other, ((GoMap.get m other).getD []).length ≤ MAX_REQUEST_PER_MIN) →
      ∀ other, ((GoMap.get (runRateLimit m calls).1 other).getD []).length ≤
        MAX_REQUEST_PER_MIN := by
  induction calls with
  | nil => intro m h; simpa [runRateLimit] using h
  | cons c rest ih =>
    intro m h
    obtain ⟨e, now⟩ := c
    simp only [runRateLimit]
    exact ih _ (checkRateLimit_length_le now m e h)

/-- C14: after any `checkRateLimit` call that returns true at time now, the stored sequence of
the identity has at most `MAX_REQUEST_PER_MIN` (120) entries, its last entry is now, and every
entry is strictly more recent than now minus one minute; and in every state reachable from the
empty limiter by calls of `checkRateLimit` no stored sequence is longer than 120. -/
theorem stored_sequence_bounded (now : Int) (m : GoMap (List Int)) (extensionID : GoString)
    (htrue : (checkRateLimit now m extensionID).1 = true) :
    (∃ stored, GoMap.get (checkRateLimit now m extensionID).2 extensionID = some stored ∧
      stored.length ≤ 120 ∧ stored.getLast? = some now ∧ ∀ x ∈ stored, now - Minute < x) ∧
    (∀ (calls : List (GoString × Int)) (other : GoString),
      ((GoMap.get (runRateLimit [] calls).1 other).getD []).length ≤ 120) := by
  constructor
  · refine ⟨_, checkRateLimit_get_self now m extensionID htrue, ?_, ?_, ?_⟩
    · have := (checkRateLimit_true now m extensionID htrue).1
      simp only [MAX_REQUEST_PER_MIN] at this
      simp only [List.length_append, List.length_singleton]
      omega
    · simp
    · intro x hx
      rcases List.mem_append.1 hx with hx | hx
      · have := (List.mem_filter.1 hx).2
        simpa using this
      · simp only [List.mem_singleton] at hx
        rw [hx]
        have : (0 : Int) < Minute := by decide
        omega
  · intro calls other
    have := runRateLimit_length_le calls [] (by intro o; simp [GoMap.get]) other
    simpa [MAX_REQUEST_PER_MIN] using this

set_option maxRecDepth 1000000 in
/-- Witness of C14: an identity with two recorded requests, one of them older than a minute,
called at the instant `5 + Minute`. -/
theorem stored_sequence_bounded_witness :
    (checkRateLimit (5 + Minute) [(gs "ext-A", [3, 9])] (gs "ext-A")).1 = true ∧
      GoMap.get (checkRateLimit (5 + Minute) [(gs "ext-A", [3, 9])] (gs "ext-A")).2
        (gs "ext-A") = some [9, 5 + Minute] ∧
      ∃ stored, GoMap.get (checkRateLimit (5 + Minute) [(gs "ext-A", [3, 9])] (gs "ext-A")).2
          (gs "ext-A") = some stored ∧
        stored.length ≤ 120 ∧ stored.getLast? = some (5 + Minute) ∧
        ∀ x ∈ stored, 5 + Minute - Minute < x :=
  ⟨by decide!, by decide!,
    (stored_sequence_bounded (5 + Minute) [(gs "ext-A", [3, 9])] (gs "ext-A") (by decide!)).1⟩

/-! # Maps: size, keys, well-formedness -/

theorem GoMap.get_eq_none_of_forall_ne {α : Type} (m : GoMap α) (k : GoString)
    (h : ∀ e ∈ m, e.1 ≠ k) : GoMap.get m k = none := by
  induction m with
  | nil => rfl
  | cons e rest ih =>
    obtain ⟨k2, v2⟩ := e
    have hk : k2 ≠ k := h (k2, v2) (by simp)
    simp only [GoMap.get, hk, if_false]
    exact ih (fun e he => h e (List.mem_cons_of_mem _ he))

theorem GoMap.forall_ne_of_get_eq_none {α : Type} (m : GoMap α) (k : GoString)
    (h : GoMap.get m k = none) : ∀ e ∈ m, e.1 ≠ k := by
  induction m with
  | nil => intro e he; simp at he
  | cons e rest ih =>
    obtain ⟨k2, v2⟩ := e
    by_cases hk : k2 = k
    · simp [GoMap.get, hk] at h
    · simp only [GoMap.get, hk, if_false] at h
      intro e he
      rcases List.mem_cons.1 he with rfl | he
      · exact hk
      · exact ih h e he

theorem GoMap.length_set_of_none {α : Type} (m : GoMap α) (k : GoString) (v : α)
    (h : GoMap.get m k = none) : (GoMap.set m k v).length = m.length + 1 := by
  induction m with
  | nil => rfl
  | cons e rest ih =>
    obtain ⟨k2, v2⟩ := e
    by_cases hk : k2 = k
    · simp [GoMap.get, hk] at h
    · simp only [GoMap.get, hk, if_false] at h
      simp [GoMap.set, hk, ih h]

theorem GoMap.length_set_of_some {α : Type} (m : GoMap α) (k : GoString) (v v0 : α)
    (h : GoMap.get m k = some v0) : (GoMap.set m k v).length = m.length := by
  induction m with
  | nil => simp [GoMap.get] at h
  | cons e rest ih =>
    obtain ⟨k2, v2⟩ := e
    by_cases hk : k2 = k
    · simp [GoMap.set, hk]
    · simp only [GoMap.get, hk, if_false] at h
      simp [GoMap.set, hk, ih h]

theorem GoMap.length_set_le {α : Type} (m : GoMap α) (k : GoString) (v : α) :
    (GoMap.set m k v).length ≤ m.length + 1 := by
  cases h : GoMap.get m k with
  | none => rw [GoMap.length_set_of_none m k v h]
  | some v0 => rw [GoMap.length_set_of_some m k v v0 h]; omega

theorem GoMap.keys_set_of_some {α : Type} (m : GoMap α) (k : GoString) (v v0 : α)
    (h : GoMap.get m k = some v0) :
    (GoMap.set m k v).map (fun e => e.1) = m.map (fun e => e.1) := by
  induction m with
  | nil => simp [GoMap.get] at h
  | cons e rest ih =>
    obtain ⟨k2, v2⟩ := e
    by_cases hk : k2 = k
    · simp [GoMap.set, hk]
    · simp only [GoMap.get, hk, if_false] at h
      simp [GoMap.set, hk, ih h]

theorem GoMap.keys_set_of_none {α : Type} (m : GoMap α) (k : GoString) (v : α)
    (h : GoMap.get m k = none) :
    (GoMap.set m k v).map (fun e => e.1) = m.map (fun e => e.1) ++ [k] := by
  induction m with
  | nil => rfl
  | cons e rest ih =>
    obtain ⟨k2, v2⟩ := e
    by_cases hk : k2 = k
    · simp [GoMap.get, hk] at h
    · simp only [GoMap.get, hk, if_false] at h
      simp [GoMap.set, hk, ih h]

theorem GoMap.wellFormed_nil {α : Type} : GoMap.WellFormed ([] : GoMap α) := by
  simp [GoMap.WellFormed]

theorem GoMap.wellFormed_set {α : Type} (m : GoMap α) (k : GoString) (v : α)
    (h : GoMap.WellFormed m) : GoMap.WellFormed (GoMap.set m k v) := by
  unfold GoMap.WellFormed at h ⊢
  cases hget : GoMap.get m k with
  | none =>
    rw [GoMap.keys_set_of_none m k v hget]
    apply List.Nodup.append h (by simp)
    intro a ha hk
    simp only [List.mem_singleton] at hk
    subst hk
    obtain ⟨e, he, hek⟩ := List.mem_map.1 ha
    exact GoMap.forall_ne_of_get_eq_none m a hget e he hek
  | some v0 => rw [GoMap.keys_set_of_some m k v v0 hget]; exact h

theorem GoMap.delete_eq_filter {α : Type} (m : GoMap α) (k : GoString) :
    GoMap.delete m k = m.filter (fun e => decide (e.1 ≠ k)) := by
  induction m with
  | nil => rfl
  | cons e rest ih =>
    obtain ⟨k2, v2⟩ := e
    by_cases hk : k2 = k
    · subst hk
      simp only [GoMap.delete, if_true]
      rw [ih, List.filter_cons]
      simp
    · have : decide (k2 ≠ k) = true := by simpa using hk
      simp only [GoMap.delete, hk, if_false, List.filter_cons, this, if_true, ih]

theorem GoMap.wellFormed_filter {α : Type} (m : GoMap α) (p : GoString × α → Bool)
    (h : GoMap.WellFormed m) : GoMap.WellFormed (m.filter p) := by
  unfold GoMap.WellFormed at h ⊢
  exact h.sublist ((List.filter_sublist m).map _)

theorem GoMap.get_eq_some_of_mem {α : Type} (m : GoMap α) (k : GoString) (v : α)
    (h : GoMap.WellFormed m) (hmem : (k, v) ∈ m) : GoMap.get m k = some v := by
  induction m with
  | nil => simp at hmem
  | cons e rest ih =>
    obtain ⟨k2, v2⟩ := e
    unfold GoMap.WellFormed at h
    simp only [List.map_cons, List.nodup_cons] at h
    rcases List.mem_cons.1 hmem with heq | hmem
    · simp only [Prod.mk.injEq] at heq
      simp [GoMap.get, heq.1, heq.2]
    · have hk : k2 ≠ k := by
        intro hk
        apply h.1
        rw [hk]
        exact List.mem_map.2 ⟨(k, v), hmem, rfl⟩
      simp only [GoMap.get, hk, if_false]
      exact ih h.2 hmem

theorem GoMap.mem_of_get_eq_some {α : Type} (m : GoMap α) (k : GoString) (v : α)
    (h : GoMap.get m k = some v) : (k, v) ∈ m := by
  induction m with
  | nil => simp [GoMap.get] at h
  | cons e rest ih =>
    obtain ⟨k2, v2⟩ := e
    by_cases hk : k2 = k
    · simp only [GoMap.get, hk, if_true, Option.some.injEq] at h
      simp [hk, h]
    · simp only [GoMap.get, hk, if_false] at h
      exact List.mem_cons_of_mem _ (ih h)

theorem GoMap.count_key_of_wellFormed {α : Type} (m : GoMap α) (k : GoString) (v : α)
    (h : GoMap.WellFormed m) (hget : GoMap.get m k = some v) :
    (m.filter (fun e => decide (e.1 = k))).length = 1 := by
  induction m with
  | nil => simp [GoMap.get] at hget
  | cons e rest ih =>
    obtain ⟨k2, v2⟩ := e
    unfold GoMap.WellFormed at h
    simp only [List.map_cons, List.nodup_cons] at h
    by_cases hk : k2 = k
    · subst hk
      have hnone : ∀ e ∈ rest, e.1 ≠ k2 := by
        intro e he hek
        apply h.1
        rw [← hek]
        exact List.mem_map.2 ⟨e, he, rfl⟩
      have : rest.filter (fun e => decide (e.1 = k2)) = [] := by
        apply List.filter_eq_nil_iff.2
        intro e he
        simpa using hnone e he
      simp [List.filter_cons, this]
    · simp only [GoMap.get, hk, if_false] at hget
      have hd : decide (k2 = k) = false := by simpa using hk
      simp only [List.filter_cons, hd]
      exact ih h.2 hget

/-! # Registration -/

theorem registerExtensionHandler_mismatch (clock : RegisterClock) (s : Server) (r : Request)
    (req : RegisterRequest) (hpost : r.Method = gs "POST")
    (hne : req.Identity.ExtensionID ≠ headerGet r.Header (gs "X-Extension-ID")) :
    (registerExtensionHandler clock s r (some req)).server = s ∧
      responses (registerExtensionHandler clock s r (some req)).effects =
        [Outcome.rejected 400] ∧
      (registerExtensionHandler clock s r (some req)).jsonBody = none := by
  simp [registerExtensionHandler, hpost, hne, responses, StatusBadRequest]

theorem registerExtensionHandler_full (clock : RegisterClock) (s : Server) (r : Request)
    (req : RegisterRequest) (hpost : r.Method = gs "POST")
    (hid : req.Identity.ExtensionID = headerGet r.Header (gs "X-Extension-ID"))
    (hfull : MAX_EXTENSIONS ≤ GoMap.len s.sessions) :
    (registerExtensionHandler clock s r (some req)).server = s ∧
      responses (registerExtensionHandler clock s r (some req)).effects =
        [Outcome.rejected 503] ∧
      (registerExtensionHandler clock s r (some req)).jsonBody = none := by
  simp [registerExtensionHandler, hpost, hid, hfull, responses, StatusServiceUnavailable]

theorem registerExtensionHandler_accepted (clock : RegisterClock) (s : Server) (r : Request)
    (req : RegisterRequest) (hpost : r.Method = gs "POST")
    (hid : req.Identity.ExtensionID = headerGet r.Header (gs "X-Extension-ID"))
    (hroom : GoMap.len s.sessions < MAX_EXTENSIONS) :
    (registerExtensionHandler clock s r (some req)).server =
        ⟨GoMap.set s.sessions (headerGet r.Header (gs "X-Extension-ID"))
          ⟨req.Identity, headerGet r.Header (gs "X-Extension-Token"), clock.registerTime,
            clock.lastActivity, 0, true⟩, s.requests⟩ ∧
      responses (registerExtensionHandler clock s r (some req)).effects = [] ∧
      (registerExtensionHandler clock s r (some req)).jsonBody =
        some [(gs "success", LogValue.bool true),
          (gs "message", LogValue.str (gs "Extension registered successfully")),
          (gs "extensionId", LogValue.str (headerGet r.Header (gs "X-Extension-ID"))),
          (gs "timestamp", LogValue.int clock.responseUnix)] := by
  have hnot : ¬ (GoMap.len s.sessions ≥ MAX_EXTENSIONS) := by omega
  simp [registerExtensionHandler, hpost, hid, hnot, responses]

theorem registerExtensionHandler_len_le (clock : RegisterClock) (s : Server) (r : Request)
    (decoded : Option RegisterRequest) (h : GoMap.len s.sessions ≤ MAX_EXTENSIONS) :
    GoMap.len (registerExtensionHandler clock s r decoded).server.sessions ≤ MAX_EXTENSIONS := by
  by_cases hpost : r.Method = gs "POST"
  · cases decoded with
    | none => simpa [registerExtensionHandler, hpost] using h
    | some req =>
      by_cases hid : req.Identity.ExtensionID = headerGet r.Header (gs "X-Extension-ID")
      · by_cases hroom : GoMap.len s.sessions < MAX_EXTENSIONS
        · rw [(registerExtensionHandler_accepted clock s r req hpost hid hroom).1]
          have := GoMap.length_set_le s.sessions (headerGet r.Header (gs "X-Extension-ID"))
            (⟨req.Identity, headerGet r.Header (gs "X-Extension-Token"),
              clock.registerTime, clock.lastActivity, 0, true⟩ : ExtensionSession)
          simp only [GoMap.len] at hroom ⊢
          omega
        · rw [(registerExtensionHandler_full clock s r req hpost hid (by omega)).1]
          exact h
      · rw [(registerExtensionHandler_mismatch clock s r req hpost hid).1]
        exact h
  · simpa [registerExtensionHandler, hpost] using h

/-- C15: for every registration request (a POST whose body decodes) whose body identity
differs from the `X-Extension-ID` header, `registerExtensionHandler` answers 400 and leaves the
session registry unchanged, so that the header identity and the body identity have the
sessions, if any, that they had before. -/
theorem mismatched_registration_answers_400 (clock : RegisterClock) (s : Server) (r : Request)
    (req : RegisterRequest) (hpost : r.Method = gs "POST")
    (hne : req.Identity.ExtensionID ≠ headerGet r.Header (gs "X-Extension-ID")) :
    responses (registerExtensionHandler clock s r (some req)).effects = [Outcome.rejected 400] ∧
      (registerExtensionHandler clock s r (some req)).jsonBody = none ∧
      (registerExtensionHandler clock s r (some req)).server = s ∧
      getExtensionSession (registerExtensionHandler clock s r (some req)).server
          (headerGet r.Header (gs "X-Extension-ID")) =
        getExtensionSession s (headerGet r.Header (gs "X-Extension-ID")) ∧
      getExtensionSession (registerExtensionHandler clock s r (some req)).server
          req.Identity.ExtensionID =
        getExtensionSession s req.Identity.ExtensionID := by
  obtain ⟨h1, h2, h3⟩ := registerExtensionHandler_mismatch clock s r req hpost hne
  rw [h1]
  exact ⟨h2, h3, rfl, rfl, rfl⟩

/-- Witness of C15: the sample registration, sent for `ext-A`, with the body identity
`ext-C`; no session exists for either identity afterwards. -/
theorem mismatched_registration_answers_400_witness :
    responses (registerExtensionHandler ⟨5, 6, 7⟩ ⟨[], []⟩ sampleRegistration
        (some { sampleBody with Identity := ⟨gs "ext-C", [], 0, [], [], []⟩ })).effects =
        [Outcome.rejected 400] ∧
      getExtensionSession (registerExtensionHandler ⟨5, 6, 7⟩ ⟨[], []⟩ sampleRegistration
        (some { sampleBody with Identity := ⟨gs "ext-C", [], 0, [], [], []⟩ })).server
        (gs "ext-A") = none ∧
      getExtensionSession (registerExtensionHandler ⟨5, 6, 7⟩ ⟨[], []⟩ sampleRegistration
        (some { sampleBody with Identity := ⟨gs "ext-C", [], 0, [], [], []⟩ })).server
        (gs "ext-C") = none := by
  have h := mismatched_registration_answers_400 ⟨5, 6, 7⟩ ⟨[], []⟩ sampleRegistration
    { sampleBody with Identity := ⟨gs "ext-C", [], 0, [], [], []⟩ } (by decide) (by decide)
  refine ⟨h.1, ?_, ?_⟩
  · rw [h.2.2.1]; rfl
  · rw [h.2.2.1]; rfl

/-- C18: for every POST whose JSON body decodes and whose body identity equals the
`X-Extension-ID` header, made while the registry holds fewer than `MAX_EXTENSIONS` sessions,
`registerExtensionHandler` answers 200 with `success` true and `extensionId` equal to that
identity, and afterwards `getExtensionSession` returns for the identity a session holding the
identity fields of the body, the `X-Extension-Token` header value as `Token`, `RequestCount` 0
and `IsActive` true, whatever the value of the token header. -/
theorem registration_stores_session (clock : RegisterClock) (s : Server) (r : Request)
    (req : RegisterRequest) (hpost : r.Method = gs "POST")
    (hid : req.Identity.ExtensionID = headerGet r.Header (gs "X-Extension-ID"))
    (hroom : GoMap.len s.sessions < MAX_EXTENSIONS) :
    responses (registerExtensionHandler clock s r (some req)).effects = [] ∧
      (∃ body, (registerExtensionHandler clock s r (some req)).jsonBody = some body ∧
        (gs "success", LogValue.bool true) ∈ body ∧
        (gs "extensionId", LogValue.str req.Identity.ExtensionID) ∈ body) ∧
      getExtensionSession (registerExtensionHandler clock s r (some req)).server
          req.Identity.ExtensionID =
        some ⟨req.Identity, headerGet r.Header (gs "X-Extension-Token"), clock.registerTime,
          clock.lastActivity, 0, true⟩ := by
  obtain ⟨h1, h2, h3⟩ := registerExtensionHandler_accepted clock s r req hpost hid hroom
  refine ⟨h2, ⟨_, h3, ?_, ?_⟩, ?_⟩
  · simp
  · rw [hid]; simp
  · rw [h1, hid]
    exact GoMap.get_set_self _ _ _

/-- Witness of C18: the sample registration on the empty registry. -/
theorem registration_stores_session_witness :
    GoMap.len (⟨[], []⟩ : Server).sessions < MAX_EXTENSIONS ∧
      getExtensionSession (registerExtensionHandler ⟨5, 6, 7⟩ ⟨[], []⟩ sampleRegistration
        (some sampleBody)).server (gs "ext-A") =
        some ⟨sampleBody.Identity, gs "tok-1", 5, 6, 0, true⟩ :=
  ⟨by decide,
    (registration_stores_session ⟨5, 6, 7⟩ ⟨[], []⟩ sampleRegistration sampleBody
      (by decide) (by decide) (by decide)).2.2⟩

/-! # Activity touches and the cleanup sweep -/

theorem updateSessionActivity_len (now : Int) (s : Server) (extensionID : GoString) :
    GoMap.len (updateSessionActivity now s extensionID).sessions = GoMap.len s.sessions := by
  unfold updateSessionActivity
  cases h : GoMap.get s.sessions extensionID with
  | none => rfl
  | some session => exact GoMap.length_set_of_some _ _ _ _ h

theorem GoMap.eq_of_mem_of_key_eq {α : Type} (m : GoMap α) (h : GoMap.WellFormed m)
    (x e : GoString × α) (hx : x ∈ m) (he : e ∈ m) (hkey : x.1 = e.1) : x = e := by
  have h1 := GoMap.get_eq_some_of_mem m x.1 x.2 h hx
  have h2 := GoMap.get_eq_some_of_mem m e.1 e.2 h he
  rw [hkey, h2] at h1
  exact Prod.ext hkey (Option.some.inj h1).symm

theorem sweepEntries_events (now : Int) (es : List (GoString × ExtensionSession)) :
    ∀ m : GoMap ExtensionSession, (sweepEntries now es m).2 =
      (es.filter (fun e => isExpired now e.2)).map (fun e =>
        Effect.securityEvent (gs "SESSION_EXPIRED")
          [(gs "extensionId", LogValue.str e.1),
           (gs "lastActivity", LogValue.int (unixOf e.2.LastActivity))]) := by
  induction es with
  | nil => intro m; rfl
  | cons e rest ih =>
    intro m
    obtain ⟨k, session⟩ := e
    by_cases hexp : isExpired now session = true
    · simp [sweepEntries, hexp, List.filter_cons, ih]
    · simp [sweepEntries, hexp, List.filter_cons, ih]

theorem sweepEntries_map (now : Int) (es : List (GoString × ExtensionSession)) :
    ∀ m : GoMap ExtensionSession, (sweepEntries now es m).1 =
      m.filter (fun e => decide (e.1 ∉
        (es.filter (fun x => isExpired now x.2)).map (fun x => x.1))) := by
  induction es with
  | nil =>
    intro m
    simp [sweepEntries]
  | cons e rest ih =>
    intro m
    obtain ⟨k, session⟩ := e
    by_cases hexp : isExpired now session = true
    · simp only [sweepEntries, hexp, if_true, List.filter_cons, List.map_cons]
      rw [ih, GoMap.delete_eq_filter, List.filter_filter]
      apply List.filter_congr
      intro x _
      simp only [List.mem_cons, not_or, Bool.decide_and, ne_eq]
      rw [Bool.and_comm]
    · simp only [sweepEntries, hexp, Bool.false_eq_true, if_false, List.filter_cons]
      exact ih m

theorem sweepEntries_self (now : Int) (m : GoMap ExtensionSession) (h : GoMap.WellFormed m) :
    (sweepEntries now m m).1 = m.filter (fun e => !isExpired now e.2) := by
  rw [sweepEntries_map]
  apply List.filter_congr
  intro e he
  by_cases hexp : isExpired now e.2 = true
  · have hmem : e.1 ∈ (m.filter (fun x => isExpired now x.2)).map (fun x => x.1) :=
      List.mem_map.2 ⟨e, List.mem_filter.2 ⟨he, hexp⟩, rfl⟩
    simp [hexp, hmem]
  · have hnot : e.1 ∉ (m.filter (fun x => isExpired now x.2)).map (fun x => x.1) := by
      intro hmem
      obtain ⟨x, hx, hkey⟩ := List.mem_map.1 hmem
      have hxm := (List.mem_filter.1 hx).1
      have := GoMap.eq_of_mem_of_key_eq m h x e hxm he hkey
      rw [this] at hx
      exact hexp (List.mem_filter.1 hx).2
    simp [hexp, hnot]

theorem cleanupInactiveSessions_len_le (now : Int) (s : Server) :
    GoMap.len (cleanupInactiveSessions now s).1.sessions ≤ GoMap.len s.sessions := by
  simp only [cleanupInactiveSessions, sweepEntries_map, GoMap.len]
  exact List.length_filter_le _ _

/-- C19: `updateSessionActivity`: if a session is stored for the identity, afterwards its
`LastActivity` is now and its `RequestCount` is incremented as an `int64`, which is exactly one
more for every count below `2^63 - 1` (there `RequestCount++` wraps around), while its
`Identity`, `Token`, `RegisterTime` and `IsActive`, the registered identities and the session
of every other identity are unchanged; if no session is stored for the identity, the registry
is unchanged. The rate limiter is unchanged in both cases. -/
theorem touch_changes_only_activity (now : Int) (s : Server) (extensionID : GoString) :
    (∀ session, getExtensionSession s extensionID = some session →
      getExtensionSession (updateSessionActivity now s extensionID) extensionID =
          some { session with LastActivity := now,
                              RequestCount := wrap64 (session.RequestCount + 1) } ∧
        (isInt64 session.RequestCount → session.RequestCount < 9223372036854775807 →
          getExtensionSession (updateSessionActivity now s extensionID) extensionID =
            some { session with LastActivity := now,
                                RequestCount := session.RequestCount + 1 }) ∧
        (updateSessionActivity now s extensionID).sessions.map (fun e => e.1) =
          s.sessions.map (fun e => e.1)) ∧
      (∀ other, other ≠ extensionID →
        getExtensionSession (updateSessionActivity now s extensionID) other =
          getExtensionSession s other) ∧
      (getExtensionSession s extensionID = none → updateSessionActivity now s extensionID = s) ∧
      (updateSessionActivity now s extensionID).requests = s.requests := by
  unfold getExtensionSession updateSessionActivity
  refine ⟨?_, ?_, ?_, ?_⟩
  · intro session h
    simp only [h]
    refine ⟨GoMap.get_set_self _ _ _, ?_, GoMap.keys_set_of_some _ _ _ _ h⟩
    intro hint hmax
    unfold isInt64 at hint
    rw [GoMap.get_set_self, wrap64_of_isInt64 ⟨by omega, by omega⟩]
  · intro other hne
    cases h : GoMap.get s.sessions extensionID with
    | none => rfl
    | some session => exact GoMap.get_set_of_ne _ _ _ _ hne
  · intro h
    simp only [h]
  · cases h : GoMap.get s.sessions extensionID with
    | none => rfl
    | some session => rfl

/-- Witness of C19: a touch of `ext-A` at the instant 99 in a registry that holds the sample
session of `ext-A` and a session of `ext-B`. -/
theorem touch_changes_only_activity_witness :
    getExtensionSession ⟨[(gs "ext-A", sampleSession), (gs "ext-B", sampleSession)], []⟩
        (gs "ext-A") = some sampleSession ∧
      getExtensionSession (updateSessionActivity 99
        ⟨[(gs "ext-A", sampleSession), (gs "ext-B", sampleSession)], []⟩ (gs "ext-A"))
        (gs "ext-A") = some { sampleSession with LastActivity := 99, RequestCount := 8 } ∧
      getExtensionSession (updateSessionActivity 99
        ⟨[(gs "ext-A", sampleSession), (gs "ext-B", sampleSession)], []⟩ (gs "ext-A"))
        (gs "ext-B") = some sampleSession :=
  ⟨by decide,
    ((touch_changes_only_activity 99
      ⟨[(gs "ext-A", sampleSession), (gs "ext-B", sampleSession)], []⟩ (gs "ext-A")).1
      sampleSession (by decide)).2.1 (by decide) (by decide),
    ((touch_changes_only_activity 99
      ⟨[(gs "ext-A", sampleSession), (gs "ext-B", sampleSession)], []⟩ (gs "ext-A")).2.1
      (gs "ext-B") (by decide)).trans (by decide)⟩

/-- C20: one cleanup sweep performed at time now removes a session if and only if
`now - LastActivity > 7 days`, strictly, so that a session idle for exactly 7 days survives;
every other session stays in the registry unmodified, and exactly one `SESSION_EXPIRED` event
is emitted per removed session. The rate limiter is left alone. -/
theorem sweep_removes_exactly_expired (now : Int) (s : Server)
    (hwf : GoMap.WellFormed s.sessions) :
    (∀ extensionID session, getExtensionSession s extensionID = some session →
      getExtensionSession (cleanupInactiveSessions now s).1 extensionID =
        if now - session.LastActivity > 7 * 24 * Hour then none else some session) ∧
      (∀ extensionID, getExtensionSession s extensionID = none →
        getExtensionSession (cleanupInactiveSessions now s).1 extensionID = none) ∧
      (cleanupInactiveSessions now s).2 =
        (s.sessions.filter (fun e => decide (now - e.2.LastActivity > 7 * 24 * Hour))).map
          (fun e => Effect.securityEvent (gs "SESSION_EXPIRED")
            [(gs "extensionId", LogValue.str e.1),
             (gs "lastActivity", LogValue.int (unixOf e.2.LastActivity))]) ∧
      (cleanupInactiveSessions now s).1.requests = s.requests := by
  have hmap : (cleanupInactiveSessions now s).1.sessions =
      s.sessions.filter (fun e => !isExpired now e.2) := by
    simp only [cleanupInactiveSessions]
    exact sweepEntries_self now s.sessions hwf
  have hwf2 : GoMap.WellFormed (s.sessions.filter (fun e => !isExpired now e.2)) :=
    GoMap.wellFormed_filter _ _ hwf
  refine ⟨?_, ?_, ?_, rfl⟩
  · intro extensionID session hget
    unfold getExtensionSession at hget ⊢
    rw [hmap]
    have hmem := GoMap.mem_of_get_eq_some _ _ _ hget
    by_cases hexp : now - session.LastActivity > 7 * 24 * Hour
    · simp only [hexp, if_true]
      apply GoMap.get_eq_none_of_forall_ne
      intro e he hkey
      obtain ⟨hem, hnot⟩ := List.mem_filter.1 he
      have heq := GoMap.eq_of_mem_of_key_eq s.sessions hwf e (extensionID, session) hem hmem hkey
      rw [heq] at hnot
      have hE : isExpired now session = true := decide_eq_true hexp
      simp [hE] at hnot
    · simp only [hexp, if_false]
      apply GoMap.get_eq_some_of_mem _ _ _ hwf2
      have hE : isExpired now session = false := decide_eq_false hexp
      exact List.mem_filter.2 ⟨hmem, by simp [hE]⟩
  · intro extensionID hget
    unfold getExtensionSession at hget ⊢
    rw [hmap]
    apply GoMap.get_eq_none_of_forall_ne
    intro e he
    exact GoMap.forall_ne_of_get_eq_none _ _ hget e (List.mem_filter.1 he).1
  · simp only [cleanupInactiveSessions, sweepEntries_events]
    rfl

set_option maxRecDepth 100000 in
/-- Witness of C20: the sweep of `sweepSample` at the instant `604800000000100` keeps `ext-A`,
idle for exactly seven days, removes `ext-B` and reports it once. -/
theorem sweep_removes_exactly_expired_witness :
    GoMap.WellFormed sweepSample.sessions ∧
      getExtensionSession (cleanupInactiveSessions 604800000000100 sweepSample).1 (gs "ext-A") =
        some (sessionIdleSince 100) ∧
      getExtensionSession (cleanupInactiveSessions 604800000000100 sweepSample).1 (gs "ext-B") =
        none ∧
      (cleanupInactiveSessions 604800000000100 sweepSample).2 =
        [Effect.securityEvent (gs "SESSION_EXPIRED")
          [(gs "extensionId", LogValue.str (gs "ext-B")), (gs "lastActivity", LogValue.int 0)]] := by
  have hwf : GoMap.WellFormed sweepSample.sessions := by
    unfold GoMap.WellFormed
    decide
  have h := sweep_removes_exactly_expired 604800000000100 sweepSample hwf
  refine ⟨hwf, ?_, ?_, ?_⟩
  · exact (h.1 (gs "ext-A") (sessionIdleSince 100) (by decide)).trans (by decide)
  · exact (h.1 (gs "ext-B") (sessionIdleSince 99) (by decide)).trans (by decide)
  · exact h.2.2.1.trans (by decide)

/-! # The size of the registry -/

theorem manySessions_len (n : Nat) : GoMap.len (manySessions n) = n := by
  simp [manySessions, GoMap.len]

theorem manySessions_get_none (n : Nat) (k : GoString) (h : k.length ≠ 2) :
    GoMap.get (manySessions n) k = none := by
  apply GoMap.get_eq_none_of_forall_ne
  intro e he hkey
  unfold manySessions at he
  obtain ⟨i, _, hi⟩ := List.mem_map.1 he
  rw [← hkey, ← hi] at h
  simp at h

theorem manySessions_wellFormed (n : Nat) (h : n ≤ 65536) : GoMap.WellFormed (manySessions n) := by
  unfold GoMap.WellFormed manySessions
  rw [List.map_map]
  apply List.Nodup.map_on _ (List.nodup_range n)
  intro i hi j hj hij
  have hi2 := List.mem_range.1 hi
  have hj2 := List.mem_range.1 hj
  simp only [Function.comp, List.cons.injEq, and_true] at hij
  have h1 := congrArg Fin.val hij.1
  have h2 := congrArg Fin.val hij.2
  simp only [byteOf] at h1 h2
  omega

theorem authMiddleware_len (J : JsonCodec) (clock : Clock) (s : Server) (r : Request) :
    GoMap.len (authMiddleware J clock s r).1.sessions = GoMap.len s.sessions := by
  by_cases hpath : isOpenPath r.Path
  · unfold isOpenPath at hpath
    simp [authMiddleware, hpath]
  · by_cases hout : expectedOutcome J clock s r = Outcome.admitted
    · obtain ⟨_, heq⟩ := authMiddleware_admitted J clock s r hpath hout
      rw [heq]
      exact updateSessionActivity_len _ _ _
    · rw [(authMiddleware_cases J clock s r hpath).2 hout]

theorem applyOp_len_le (s : Server) (op : ServerOp)
    (h : GoMap.len s.sessions ≤ MAX_EXTENSIONS) :
    GoMap.len (applyOp s op).sessions ≤ MAX_EXTENSIONS := by
  cases op with
  | register clock r decoded => exact registerExtensionHandler_len_le clock s r decoded h
  | request J clock r =>
    simp only [applyOp]
    rw [authMiddleware_len]
    exact h
  | touch now extensionID =>
    simp only [applyOp]
    rw [updateSessionActivity_len]
    exact h
  | sweep now =>
    simp only [applyOp]
    exact le_trans (cleanupInactiveSessions_len_le now s) h

theorem runOps_len_le (ops : List ServerOp) :
    ∀ s : Server, GoMap.len s.sessions ≤ MAX_EXTENSIONS →
      GoMap.len (runOps s ops).sessions ≤ MAX_EXTENSIONS := by
  induction ops with
  | nil => intro s h; exact h
  | cons op rest ih =>
    intro s h
    simp only [runOps, List.foldl_cons]
    exact ih _ (applyOp_len_le s op h)

theorem updateSessionActivity_wellFormed (now : Int) (s : Server) (extensionID : GoString)
    (h : GoMap.WellFormed s.sessions) :
    GoMap.WellFormed (updateSessionActivity now s extensionID).sessions := by
  unfold updateSessionActivity
  cases hget : GoMap.get s.sessions extensionID with
  | none => exact h
  | some session => exact GoMap.wellFormed_set _ _ _ h

theorem registerExtensionHandler_wellFormed (clock : RegisterClock) (s : Server) (r : Request)
    (decoded : Option RegisterRequest) (h : GoMap.WellFormed s.sessions) :
    GoMap.WellFormed (registerExtensionHandler clock s r decoded).server.sessions := by
  by_cases hpost : r.Method = gs "POST"
  · cases decoded with
    | none => simpa [registerExtensionHandler, hpost] using h
    | some req =>
      by_cases hid : req.Identity.ExtensionID = headerGet r.Header (gs "X-Extension-ID")
      · by_cases hroom : GoMap.len s.sessions < MAX_EXTENSIONS
        · rw [(registerExtensionHandler_accepted clock s r req hpost hid hroom).1]
          exact GoMap.wellFormed_set _ _ _ h
        · rw [(registerExtensionHandler_full clock s r req hpost hid (by omega)).1]
          exact h
      · rw [(registerExtensionHandler_mismatch clock s r req hpost hid).1]
        exact h
  · simpa [registerExtensionHandler, hpost] using h

theorem authMiddleware_wellFormed (J : JsonCodec) (clock : Clock) (s : Server) (r : Request)
    (h : GoMap.WellFormed s.sessions) :
    GoMap.WellFormed (authMiddleware J clock s r).1.sessions := by
  by_cases hpath : isOpenPath r.Path
  · unfold isOpenPath at hpath
    simpa [authMiddleware, hpath] using h
  · by_cases hout : expectedOutcome J clock s r = Outcome.admitted
    · obtain ⟨_, heq⟩ := authMiddleware_admitted J clock s r hpath hout
      rw [heq]
      exact updateSessionActivity_wellFormed _ _ _ h
    · rw [(authMiddleware_cases J clock s r hpath).2 hout]
      exact h

theorem cleanupInactiveSessions_wellFormed (now : Int) (s : Server)
    (h : GoMap.WellFormed s.sessions) :
    GoMap.WellFormed (cleanupInactiveSessions now s).1.sessions := by
  simp only [cleanupInactiveSessions, sweepEntries_map]
  exact GoMap.wellFormed_filter _ _ h

theorem applyOp_wellFormed (s : Server) (op : ServerOp) (h : GoMap.WellFormed s.sessions) :
    GoMap.WellFormed (applyOp s op).sessions := by
  cases op with
  | register clock r decoded => exact registerExtensionHandler_wellFormed clock s r decoded h
  | request J clock r => exact authMiddleware_wellFormed J clock s r h
  | touch now extensionID => exact updateSessionActivity_wellFormed now s extensionID h
  | sweep now => exact cleanupInactiveSessions_wellFormed now s h

theorem runOps_wellFormed (ops : List ServerOp) :
    ∀ s : Server, GoMap.WellFormed s.sessions → GoMap.WellFormed (runOps s ops).sessions := by
  induction ops with
  | nil => intro s h; exact h
  | cons op rest ih =>
    intro s h
    simp only [runOps, List.foldl_cons]
    exact ih _ (applyOp_wellFormed s op h)

/-- C16 (as amended): registering the same identity twice in sequence, each time while the
registry holds fewer than `MAX_EXTENSIONS` sessions, so that both registrations are accepted,
leaves exactly one session stored under that identity and the same number of sessions in the
registry as after the first registration; the stored session is the one created by the second
registration. -/
theorem second_registration_replaces (clock1 clock2 : RegisterClock) (s : Server)
    (r1 r2 : Request) (req1 req2 : RegisterRequest) (extensionID : GoString)
    (hwf : GoMap.WellFormed s.sessions)
    (hpost1 : r1.Method = gs "POST") (hpost2 : r2.Method = gs "POST")
    (hhead1 : headerGet r1.Header (gs "X-Extension-ID") = extensionID)
    (hhead2 : headerGet r2.Header (gs "X-Extension-ID") = extensionID)
    (hbody1 : req1.Identity.ExtensionID = extensionID)
    (hbody2 : req2.Identity.ExtensionID = extensionID)
    (hroom1 : GoMap.len s.sessions < MAX_EXTENSIONS)
    (hroom2 : GoMap.len (registerExtensionHandler clock1 s r1 (some req1)).server.sessions <
      MAX_EXTENSIONS) :
    ((registerExtensionHandler clock2 (registerExtensionHandler clock1 s r1 (some req1)).server
        r2 (some req2)).server.sessions.filter (fun e => decide (e.1 = extensionID))).length = 1 ∧
      GoMap.len (registerExtensionHandler clock2
          (registerExtensionHandler clock1 s r1 (some req1)).server r2 (some req2)).server.sessions =
        GoMap.len (registerExtensionHandler clock1 s r1 (some req1)).server.sessions ∧
      getExtensionSession (registerExtensionHandler clock2
          (registerExtensionHandler clock1 s r1 (some req1)).server r2 (some req2)).server
          extensionID =
        some ⟨req2.Identity, headerGet r2.Header (gs "X-Extension-Token"), clock2.registerTime,
          clock2.lastActivity, 0, true⟩ := by
  have h1 := (registerExtensionHandler_accepted clock1 s r1 req1 hpost1
    (hbody1.trans hhead1.symm) hroom1).1
  have h2 := (registerExtensionHandler_accepted clock2
    (registerExtensionHandler clock1 s r1 (some req1)).server r2 req2 hpost2
    (hbody2.trans hhead2.symm) hroom2).1
  have hget1 : GoMap.get (registerExtensionHandler clock1 s r1 (some req1)).server.sessions
      extensionID = some ⟨req1.Identity, headerGet r1.Header (gs "X-Extension-Token"),
        clock1.registerTime, clock1.lastActivity, 0, true⟩ := by
    rw [h1, hhead1]
    exact GoMap.get_set_self _ _ _
  have hwf1 : GoMap.WellFormed (registerExtensionHandler clock1 s r1 (some req1)).server.sessions := by
    rw [h1]
    exact GoMap.wellFormed_set _ _ _ hwf
  rw [h2, hhead2]
  refine ⟨?_, ?_, ?_⟩
  · exact GoMap.count_key_of_wellFormed _ _ _ (GoMap.wellFormed_set _ _ _ hwf1)
      (GoMap.get_set_self _ _ _)
  · exact GoMap.length_set_of_some _ _ _ _ hget1
  · exact GoMap.get_set_self _ _ _

/-- Witness of C16: the sample registration on the empty registry, then the same identity
again with the token `tok-2`. -/
theorem second_registration_replaces_witness :
    GoMap.len (registerExtensionHandler ⟨15, 16, 17⟩
        (registerExtensionHandler ⟨5, 6, 7⟩ ⟨[], []⟩ sampleRegistration (some sampleBody)).server
        sampleRegistrationAgain (some sampleBody)).server.sessions = 1 ∧
      getExtensionSession (registerExtensionHandler ⟨15, 16, 17⟩
        (registerExtensionHandler ⟨5, 6, 7⟩ ⟨[], []⟩ sampleRegistration (some sampleBody)).server
        sampleRegistrationAgain (some sampleBody)).server (gs "ext-A") =
        some ⟨sampleBody.Identity, gs "tok-2", 15, 16, 0, true⟩ := by
  have h := second_registration_replaces ⟨5, 6, 7⟩ ⟨15, 16, 17⟩ ⟨[], []⟩ sampleRegistration
    sampleRegistrationAgain sampleBody sampleBody (gs "ext-A") GoMap.wellFormed_nil
    (by decide) (by decide) (by decide) (by decide) (by decide) (by decide) (by decide)
    (by decide)
  exact ⟨h.2.1.trans (by decide), h.2.2.trans (by decide)⟩

/-- Counterexample to C16 as stated: in a registry of 9999 sessions the identity `ext-A` is
registered, which fills the registry, and then registered again with the token `tok-2`; the
second registration is answered 503 and the stored session is still the one of the first
registration. -/
theorem second_registration_refused_when_full :
    GoMap.WellFormed (manySessions 9999) ∧
      GoMap.len (manySessions 9999) = 9999 ∧
      responses (registerExtensionHandler ⟨5, 6, 7⟩ ⟨manySessions 9999, []⟩ sampleRegistration
        (some sampleBody)).effects = [] ∧
      responses (registerExtensionHandler ⟨15, 16, 17⟩
        (registerExtensionHandler ⟨5, 6, 7⟩ ⟨manySessions 9999, []⟩ sampleRegistration
          (some sampleBody)).server sampleRegistrationAgain (some sampleBody)).effects =
        [Outcome.rejected 503] ∧
      getExtensionSession (registerExtensionHandler ⟨15, 16, 17⟩
        (registerExtensionHandler ⟨5, 6, 7⟩ ⟨manySessions 9999, []⟩ sampleRegistration
          (some sampleBody)).server sampleRegistrationAgain (some sampleBody)).server
        (gs "ext-A") = some ⟨sampleBody.Identity, gs "tok-1", 5, 6, 0, true⟩ ∧
      getExtensionSession (registerExtensionHandler ⟨15, 16, 17⟩
        (registerExtensionHandler ⟨5, 6, 7⟩ ⟨manySessions 9999, []⟩ sampleRegistration
          (some sampleBody)).server sampleRegistrationAgain (some sampleBody)).server
        (gs "ext-A") ≠ some ⟨sampleBody.Identity, gs "tok-2", 15, 16, 0, true⟩ := by
  have hroom : GoMap.len (⟨manySessions 9999, []⟩ : Server).sessions < MAX_EXTENSIONS := by
    dsimp only
    rw [manySessions_len]
    decide
  obtain ⟨h1, h2, _⟩ := registerExtensionHandler_accepted ⟨5, 6, 7⟩ ⟨manySessions 9999, []⟩
    sampleRegistration sampleBody (by decide) (by decide) hroom
  have hid : headerGet sampleRegistration.Header (gs "X-Extension-ID") = gs "ext-A" := by decide
  have htok : headerGet sampleRegistration.Header (gs "X-Extension-Token") = gs "tok-1" := by
    decide
  have hnone : GoMap.get (manySessions 9999) (gs "ext-A") = none :=
    manySessions_get_none 9999 (gs "ext-A") (by decide)
  have hfull : MAX_EXTENSIONS ≤ GoMap.len (registerExtensionHandler ⟨5, 6, 7⟩
      ⟨manySessions 9999, []⟩ sampleRegistration (some sampleBody)).server.sessions := by
    rw [h1]
    dsimp only
    unfold GoMap.len
    rw [GoMap.length_set_of_none _ _ _ (by rw [hid]; exact hnone)]
    have := manySessions_len 9999
    unfold GoMap.len at this
    rw [this]
    decide
  obtain ⟨g1, g2, _⟩ := registerExtensionHandler_full ⟨15, 16, 17⟩
    (registerExtensionHandler ⟨5, 6, 7⟩ ⟨manySessions 9999, []⟩ sampleRegistration
      (some sampleBody)).server sampleRegistrationAgain sampleBody (by decide) (by decide) hfull
  have hstored : getExtensionSession (registerExtensionHandler ⟨15, 16, 17⟩
      (registerExtensionHandler ⟨5, 6, 7⟩ ⟨manySessions 9999, []⟩ sampleRegistration
        (some sampleBody)).server sampleRegistrationAgain (some sampleBody)).server
      (gs "ext-A") = some ⟨sampleBody.Identity, gs "tok-1", 5, 6, 0, true⟩ := by
    rw [g1, h1, hid, htok]
    exact GoMap.get_set_self _ _ _
  refine ⟨manySessions_wellFormed 9999 (by decide), manySessions_len 9999, h2, g2, hstored, ?_⟩
  rw [hstored]
  decide

/-- C17: starting from an empty registry, after any sequential run of registrations, requests
through the middleware, activity touches and cleanup sweeps the registry holds at most
`MAX_EXTENSIONS` (10000) sessions, each under another identity; a registration (a POST whose
body decodes and whose body identity equals the `X-Extension-ID` header) attempted while the
registry holds `MAX_EXTENSIONS` sessions is answered 503 and leaves the registry unchanged. -/
theorem registry_never_exceeds_max (clock : RegisterClock) (s : Server) (r : Request)
    (req : RegisterRequest) (hpost : r.Method = gs "POST")
    (hid : req.Identity.ExtensionID = headerGet r.Header (gs "X-Extension-ID"))
    (hfull : GoMap.len s.sessions = MAX_EXTENSIONS) :
    (∀ ops : List ServerOp, GoMap.WellFormed (runOps ⟨[], []⟩ ops).sessions ∧
        GoMap.len (runOps ⟨[], []⟩ ops).sessions ≤ MAX_EXTENSIONS) ∧
      responses (registerExtensionHandler clock s r (some req)).effects =
        [Outcome.rejected 503] ∧
      (registerExtensionHandler clock s r (some req)).jsonBody = none ∧
      (registerExtensionHandler clock s r (some req)).server = s := by
  obtain ⟨h1, h2, h3⟩ := registerExtensionHandler_full clock s r req hpost hid (by omega)
  exact ⟨fun ops => ⟨runOps_wellFormed ops ⟨[], []⟩ GoMap.wellFormed_nil,
    runOps_len_le ops ⟨[], []⟩ (by simp [GoMap.len])⟩, h2, h3, h1⟩

/-- Witness of C17: the sample registration on a registry of 10000 sessions. -/
theorem registry_never_exceeds_max_witness :
    GoMap.len (manySessions 10000) = MAX_EXTENSIONS ∧
      responses (registerExtensionHandler ⟨5, 6, 7⟩ ⟨manySessions 10000, []⟩ sampleRegistration
        (some sampleBody)).effects = [Outcome.rejected 503] ∧
      (registerExtensionHandler ⟨5, 6, 7⟩ ⟨manySessions 10000, []⟩ sampleRegistration
        (some sampleBody)).server = ⟨manySessions 10000, []⟩ := by
  have h := registry_never_exceeds_max ⟨5, 6, 7⟩ ⟨manySessions 10000, []⟩ sampleRegistration
    sampleBody (by decide) (by decide) (by dsimp only; rw [manySessions_len]; rfl)
  exact ⟨by rw [manySessions_len]; rfl, h.2.1, h.2.2.2⟩

/-- A remark on the order of the checks: a POST sent for `ext-D` with the body identity `ext-A`
while the registry holds `MAX_EXTENSIONS` sessions is answered 400, as on any registry, the
identities being compared before the size of the registry is looked at. -/
theorem mismatched_registration_when_full :
    GoMap.WellFormed (manySessions 10000) ∧
      GoMap.len (manySessions 10000) = MAX_EXTENSIONS ∧
      responses (registerExtensionHandler ⟨5, 6, 7⟩ ⟨manySessions 10000, []⟩
        mismatchedRegistration (some sampleBody)).effects = [Outcome.rejected 400] :=
  ⟨manySessions_wellFormed 10000 (by decide), by rw [manySessions_len]; rfl,
    (registerExtensionHandler_mismatch ⟨5, 6, 7⟩ ⟨manySessions 10000, []⟩
      mismatchedRegistration sampleBody (by decide) (by decide)).2.1⟩

/-! # The entries of the session map after a step -/

theorem GoMap.mem_set {α : Type} (m : GoMap α) (k : GoString) (v : α) (e : GoString × α)
    (h : e ∈ GoMap.set m k v) : e ∈ m ∨ e = (k, v) := by
  induction m with
  | nil =>
    simp only [GoMap.set, List.mem_singleton] at h
    exact Or.inr h
  | cons x rest ih =>
    obtain ⟨k2, v2⟩ := x
    by_cases hk : k2 = k
    · simp only [GoMap.set, hk, if_true, List.mem_cons] at h
      rcases h with h | h
      · exact Or.inr h
      · exact Or.inl (List.mem_cons_of_mem _ h)
    · simp only [GoMap.set, hk, if_false, List.mem_cons] at h
      rcases h with h | h
      · exact Or.inl (by rw [h]; exact List.mem_cons_self _ _)
      · rcases ih h with h2 | h2
        · exact Or.inl (List.mem_cons_of_mem _ h2)
        · exact Or.inr h2

theorem updateSessionActivity_mem (now : Int) (s : Server) (extensionID : GoString)
    (e : GoString × ExtensionSession) (h : e ∈ (updateSessionActivity now s extensionID).sessions) :
    e ∈ s.sessions ∨
      ∃ old, (extensionID, old) ∈ s.sessions ∧ e = (extensionID, touchedAt now old) := by
  unfold updateSessionActivity at h
  cases hg : GoMap.get s.sessions extensionID with
  | none => rw [hg] at h; exact Or.inl h
  | some session =>
    rw [hg] at h
    rcases GoMap.mem_set _ _ _ _ h with h2 | h2
    · exact Or.inl h2
    · exact Or.inr ⟨session, GoMap.mem_of_get_eq_some _ _ _ hg, h2⟩

theorem authMiddleware_sessions (J : JsonCodec) (clock : Clock) (s : Server) (r : Request) :
    (authMiddleware J clock s r).1.sessions = s.sessions ∨
      (authMiddleware J clock s r).1.sessions =
        (updateSessionActivity clock.activity s
          (headerGet r.Header (gs "X-Extension-ID"))).sessions := by
  by_cases hpath : isOpenPath r.Path
  · unfold isOpenPath at hpath
    left
    simp [authMiddleware, hpath]
  · by_cases hout : expectedOutcome J clock s r = Outcome.admitted
    · obtain ⟨_, heq⟩ := authMiddleware_admitted J clock s r hpath hout
      right
      rw [heq]
      simp only [updateSessionActivity]
      split <;> rfl
    · left
      rw [(authMiddleware_cases J clock s r hpath).2 hout]

theorem cleanupInactiveSessions_mem (now : Int) (s : Server) (e : GoString × ExtensionSession)
    (h : e ∈ (cleanupInactiveSessions now s).1.sessions) : e ∈ s.sessions := by
  simp only [cleanupInactiveSessions, sweepEntries_map] at h
  exact List.mem_of_mem_filter h

theorem registerExtensionHandler_sessions (clock : RegisterClock) (s : Server) (r : Request)
    (decoded : Option RegisterRequest) :
    (registerExtensionHandler clock s r decoded).server.sessions = s.sessions ∨
      ∃ req, decoded = some req ∧
        (registerExtensionHandler clock s r decoded).jsonBody ≠ none ∧
        (registerExtensionHandler clock s r decoded).server.sessions =
          GoMap.set s.sessions (headerGet r.Header (gs "X-Extension-ID"))
            ⟨req.Identity, headerGet r.Header (gs "X-Extension-Token"), clock.registerTime,
              clock.lastActivity, 0, true⟩ := by
  unfold registerExtensionHandler
  by_cases hm : r.Method ≠ gs "POST"
  · left; rw [if_pos hm]
  · rw [if_neg hm]
    cases decoded with
    | none => left; rfl
    | some req =>
      simp only
      by_cases hid : req.Identity.ExtensionID ≠ headerGet r.Header (gs "X-Extension-ID")
      · left; rw [if_pos hid]
      · rw [if_neg hid]
        by_cases hfull : GoMap.len s.sessions ≥ MAX_EXTENSIONS
        · left; rw [if_pos hfull]
        · right
          rw [if_neg hfull]
          exact ⟨req, rfl, by simp, rfl⟩

/-- The entries of the session map after a step: an entry from before, the session of an
accepted registration, or an entry from before touched at the last reading of the step. -/
theorem applyOp_mem (s : Server) (op : ServerOp) (e : GoString × ExtensionSession)
    (h : e ∈ (applyOp s op).sessions) :
    e ∈ s.sessions ∨
      (∃ clock r req, op = ServerOp.register clock r (some req) ∧
        e = (headerGet r.Header (gs "X-Extension-ID"),
          ⟨req.Identity, headerGet r.Header (gs "X-Extension-Token"), clock.registerTime,
            clock.lastActivity, 0, true⟩)) ∨
      (∃ old now, (e.1, old) ∈ s.sessions ∧ e.2 = touchedAt now old ∧ now ∈ opReadings op) := by
  cases op with
  | register clock r decoded =>
    simp only [applyOp] at h
    rcases registerExtensionHandler_sessions clock s r decoded with h2 | ⟨req, hd, _, h2⟩
    · rw [h2] at h; exact Or.inl h
    · rw [h2] at h
      rcases GoMap.mem_set _ _ _ _ h with h3 | h3
      · exact Or.inl h3
      · exact Or.inr (Or.inl ⟨clock, r, req, by rw [hd], h3⟩)
  | request J clock r =>
    simp only [applyOp] at h
    rcases authMiddleware_sessions J clock s r with h2 | h2
    · rw [h2] at h; exact Or.inl h
    · rw [h2] at h
      rcases updateSessionActivity_mem _ _ _ _ h with h3 | ⟨old, h3, h4⟩
      · exact Or.inl h3
      · exact Or.inr (Or.inr ⟨old, clock.activity, by rw [h4]; exact h3, by rw [h4],
          by simp [opReadings]⟩)
  | touch now extensionID =>
    simp only [applyOp] at h
    rcases updateSessionActivity_mem _ _ _ _ h with h3 | ⟨old, h3, h4⟩
    · exact Or.inl h3
    · exact Or.inr (Or.inr ⟨old, now, by rw [h4]; exact h3, by rw [h4], by simp [opReadings]⟩)
  | sweep now =>
    simp only [applyOp] at h
    exact Or.inl (cleanupInactiveSessions_mem now s e h)

/-! # Invariants of the sessions of a run -/

theorem runOps_cons (s : Server) (op : ServerOp) (rest : List ServerOp) :
    runOps s (op :: rest) = runOps (applyOp s op) rest := rfl

theorem runOps_activity_inv (ops : List ServerOp) :
    ∀ s : Server, NonDecreasing (clockReadings ops) →
      (∀ e ∈ s.sessions, e.2.RegisterTime ≤ e.2.LastActivity ∧
        ∀ x ∈ clockReadings ops, e.2.LastActivity ≤ x) →
      ∀ e ∈ (runOps s ops).sessions, e.2.RegisterTime ≤ e.2.LastActivity := by
  induction ops with
  | nil => intro s _ hinv e he; exact (hinv e he).1
  | cons op rest ih =>
    intro s hnd hinv
    rw [runOps_cons]
    have hnd2 : (opReadings op).Pairwise (fun a b => a ≤ b) ∧
        (clockReadings rest).Pairwise (fun a b => a ≤ b) ∧
        ∀ a ∈ opReadings op, ∀ b ∈ clockReadings rest, a ≤ b := by
      unfold NonDecreasing clockReadings at hnd
      rw [List.flatMap_cons, List.pairwise_append] at hnd
      exact hnd
    have hreadings : ∀ x, x ∈ opReadings op ∨ x ∈ clockReadings rest →
        x ∈ clockReadings (op :: rest) := by
      intro x hx
      unfold clockReadings
      rw [List.flatMap_cons, List.mem_append]
      exact hx
    apply ih _ hnd2.2.1
    intro e he
    rcases applyOp_mem s op e he with h | ⟨clock, r, req, hop, h⟩ | ⟨old, now, hold, h, hnow⟩
    · exact ⟨(hinv e h).1, fun x hx => (hinv e h).2 x (hreadings x (Or.inr hx))⟩
    · subst hop
      rw [h]
      exact ⟨(List.pairwise_cons.1 hnd2.1).1 clock.lastActivity (List.mem_singleton_self _),
        fun x hx => hnd2.2.2 clock.lastActivity (by simp [opReadings]) x hx⟩
    · rw [h]
      have h1 := hinv _ hold
      simp only [touchedAt]
      exact ⟨le_trans h1.1 (h1.2 now (hreadings now (Or.inl hnow))),
        fun x hx => hnd2.2.2 now hnow x hx⟩

/-- C21: in every state reached from the empty registry by registrations, requests through
the middleware, activity touches and cleanup sweeps whose clock readings never decrease, every
stored session satisfies `LastActivity >= RegisterTime`. -/
theorem last_activity_not_before_registration (requests : GoMap (List Int))
    (ops : List ServerOp) (hclock : NonDecreasing (clockReadings ops)) :
    (∀ e ∈ (runOps ⟨[], requests⟩ ops).sessions, e.2.RegisterTime ≤ e.2.LastActivity) ∧
      ∀ extensionID session,
        getExtensionSession (runOps ⟨[], requests⟩ ops) extensionID = some session →
          session.RegisterTime ≤ session.LastActivity := by
  have h := runOps_activity_inv ops ⟨[], requests⟩ hclock
    (fun e he => absurd he (List.not_mem_nil e))
  exact ⟨h, fun extensionID session hg => h _ (GoMap.mem_of_get_eq_some _ _ _ hg)⟩

set_option maxRecDepth 100000 in
/-- Witness of C21: the sample run, after which `ext-A` is stored with the registration time 10
and the last activity 21. -/
theorem last_activity_not_before_registration_witness :
    NonDecreasing (clockReadings sampleRun) ∧
      (getExtensionSession (runOps ⟨[], []⟩ sampleRun) (gs "ext-A")).map
        (fun session => (session.RegisterTime, session.LastActivity)) = some (10, 21) ∧
      ((∀ e ∈ (runOps ⟨[], []⟩ sampleRun).sessions, e.2.RegisterTime ≤ e.2.LastActivity) ∧
        ∀ extensionID session,
          getExtensionSession (runOps ⟨[], []⟩ sampleRun) extensionID = some session →
            session.RegisterTime ≤ session.LastActivity) :=
  ⟨by unfold NonDecreasing; decide, by decide!,
    last_activity_not_before_registration [] sampleRun (by unfold NonDecreasing; decide)⟩

theorem runOps_active_inv (ops : List ServerOp) :
    ∀ s : Server, (∀ e ∈ s.sessions, e.2.IsActive = true) →
      ∀ e ∈ (runOps s ops).sessions, e.2.IsActive = true := by
  induction ops with
  | nil => intro s hinv e he; exact hinv e he
  | cons op rest ih =>
    intro s hinv
    rw [runOps_cons]
    apply ih
    intro e he
    rcases applyOp_mem s op e he with h | ⟨clock, r, req, _, h⟩ | ⟨old, now, hold, h, _⟩
    · exact hinv e h
    · rw [h]
    · rw [h]
      exact hinv _ hold

/-! # The request counter -/

theorem GoMap.get_filter_key {α : Type} (p : GoString → Bool) (m : GoMap α) (k : GoString) :
    GoMap.get (m.filter (fun e => p e.1)) k = if p k then GoMap.get m k else none := by
  induction m with
  | nil => simp [GoMap.get]
  | cons e rest ih =>
    obtain ⟨k2, v2⟩ := e
    by_cases hp : p k2 = true
    · rw [List.filter_cons_of_pos (by simpa using hp)]
      by_cases hk : k2 = k
      · subst hk
        simp [GoMap.get, hp]
      · simp only [GoMap.get, hk, if_false]
        exact ih
    · rw [List.filter_cons_of_neg (by simpa using hp)]
      by_cases hk : k2 = k
      · subst hk
        rw [ih]
        simp [hp]
      · simp only [GoMap.get, hk, if_false]
        exact ih

theorem updateSessionActivity_get (now : Int) (s : Server) (extensionID k : GoString)
    (before after : ExtensionSession) (hb : GoMap.get s.sessions k = some before)
    (ha : GoMap.get (updateSessionActivity now s extensionID).sessions k = some after) :
    after = before ∨ after = touchedAt now before := by
  unfold updateSessionActivity at ha
  cases hg : GoMap.get s.sessions extensionID with
  | none =>
    rw [hg] at ha
    rw [hb] at ha
    exact Or.inl (Option.some.inj ha).symm
  | some session =>
    rw [hg] at ha
    by_cases hk : k = extensionID
    · subst hk
      simp only [GoMap.get_set_self, Option.some.injEq] at ha
      rw [hb] at hg
      rw [← Option.some.inj hg] at ha
      exact Or.inr ha.symm
    · simp only [GoMap.get_set_of_ne _ _ _ _ hk] at ha
      rw [hb] at ha
      exact Or.inl (Option.some.inj ha).symm

theorem applyOp_count_bounded (s : Server) (op : ServerOp) (k : Int)
    (hinv : ∀ e ∈ s.sessions, 0 ≤ e.2.RequestCount ∧ e.2.RequestCount ≤ k) (h0 : 0 ≤ k)
    (hk : k < 9223372036854775807) :
    ∀ e ∈ (applyOp s op).sessions, 0 ≤ e.2.RequestCount ∧ e.2.RequestCount ≤ k + 1 := by
  intro e he
  rcases applyOp_mem s op e he with h | ⟨clock, r, req, _, h⟩ | ⟨old, now, hold, h, _⟩
  · have := hinv e h
    exact ⟨this.1, by omega⟩
  · rw [h]
    dsimp only
    exact ⟨le_refl _, by omega⟩
  · rw [h]
    have h1 := hinv _ hold
    dsimp only at h1
    simp only [touchedAt]
    rw [wrap64_of_isInt64 ⟨by omega, by omega⟩]
    constructor <;> omega

/-- In a run from the empty registry every stored `RequestCount` lies between 0 and the number
of steps, so that it is an `int64` below `2^63 - 1` in every run of fewer steps than that. -/
theorem runOps_count_bounded (ops : List ServerOp) :
    ∀ (s : Server) (k : Int),
      (∀ e ∈ s.sessions, 0 ≤ e.2.RequestCount ∧ e.2.RequestCount ≤ k) → 0 ≤ k →
      k + ops.length ≤ 9223372036854775807 →
      ∀ e ∈ (runOps s ops).sessions,
        0 ≤ e.2.RequestCount ∧ e.2.RequestCount ≤ k + ops.length := by
  induction ops with
  | nil =>
    intro s k hinv _ _ e he
    simpa using hinv e he
  | cons op rest ih =>
    intro s k hinv h0 hk
    rw [runOps_cons]
    simp only [List.length_cons, Nat.cast_add, Nat.cast_one] at hk ⊢
    have := ih (applyOp s op) (k + 1) (applyOp_count_bounded s op k hinv h0 (by omega))
      (by omega) (by omega)
    intro e he
    have h2 := this e he
    constructor <;> omega

/-- C22 (as amended): from one state to the next, the `RequestCount` stored for an identity
that is in the registry before and after the step, an `int64` below `2^63 - 1` (where
`RequestCount++` would wrap around), does not become smaller, unless the step is an accepted
registration of that very identity, which replaces the session by a new one with the count 0.
Requests through the middleware, activity touches, cleanup sweeps, refused registrations and
registrations of other identities never lower the count. In a run from the empty registry the
count is at most the number of steps (`runOps_count_bounded`). -/
theorem request_count_reset_only_by_registration (s : Server) (op : ServerOp)
    (extensionID : GoString) (before after : ExtensionSession)
    (hbefore : getExtensionSession s extensionID = some before)
    (hafter : getExtensionSession (applyOp s op) extensionID = some after)
    (hint : isInt64 before.RequestCount) (hmax : before.RequestCount < 9223372036854775807) :
    before.RequestCount ≤ after.RequestCount ∨
      ∃ clock r req, op = ServerOp.register clock r (some req) ∧
        headerGet r.Header (gs "X-Extension-ID") = extensionID ∧
        (registerExtensionHandler clock s r (some req)).jsonBody ≠ none ∧
        after.RequestCount = 0 := by
  unfold getExtensionSession at hbefore hafter
  have htouch : ∀ now, before.RequestCount ≤ (touchedAt now before).RequestCount := by
    intro now
    unfold isInt64 at hint
    simp only [touchedAt]
    rw [wrap64_of_isInt64 ⟨by omega, by omega⟩]
    omega
  cases op with
  | register clock r decoded =>
    simp only [applyOp] at hafter
    rcases registerExtensionHandler_sessions clock s r decoded with h2 | ⟨req, hd, hj, h2⟩
    · rw [h2, hbefore] at hafter
      rw [← Option.some.inj hafter]
      exact Or.inl (le_refl _)
    · rw [h2] at hafter
      by_cases hk : extensionID = headerGet r.Header (gs "X-Extension-ID")
      · subst hk
        rw [GoMap.get_set_self] at hafter
        subst hd
        refine Or.inr ⟨clock, r, req, rfl, rfl, hj, ?_⟩
        rw [← Option.some.inj hafter]
      · rw [GoMap.get_set_of_ne _ _ _ _ hk, hbefore] at hafter
        rw [← Option.some.inj hafter]
        exact Or.inl (le_refl _)
  | request J clock r =>
    simp only [applyOp] at hafter
    left
    rcases authMiddleware_sessions J clock s r with h2 | h2
    · rw [h2, hbefore] at hafter
      rw [← Option.some.inj hafter]
    · rw [h2] at hafter
      rcases updateSessionActivity_get _ _ _ _ _ _ hbefore hafter with h | h
      · rw [h]
      · rw [h]; exact htouch _
  | touch now k =>
    simp only [applyOp] at hafter
    left
    rcases updateSessionActivity_get _ _ _ _ _ _ hbefore hafter with h | h
    · rw [h]
    · rw [h]; exact htouch _
  | sweep now =>
    simp only [applyOp, cleanupInactiveSessions, sweepEntries_map] at hafter
    left
    have := GoMap.get_filter_key (fun k => decide (k ∉
        (s.sessions.filter (fun x => isExpired now x.2)).map (fun x => x.1))) s.sessions extensionID
    rw [this] at hafter
    split at hafter
    · rw [hbefore] at hafter
      rw [← Option.some.inj hafter]
    · exact absurd hafter (by simp)

set_option maxRecDepth 100000 in
/-- Witness of C22: `ext-A` is registered with the count 0, and the sample request, which is
admitted, raises the count to 1. -/
theorem request_count_reset_only_by_registration_witness :
    getExtensionSession
        (runOps ⟨[], []⟩ [ServerOp.register ⟨10, 11, 0⟩ sampleRegistration (some sampleBody)])
        (gs "ext-A") = some ⟨sampleBody.Identity, gs "tok-1", 10, 11, 0, true⟩ ∧
      getExtensionSession (runOps ⟨[], []⟩ registerAndRequest) (gs "ext-A") =
        some ⟨sampleBody.Identity, gs "tok-1", 10, 21, 1, true⟩ ∧
      ((0 : Int) ≤ 1 ∨
        ∃ clock r req,
          ServerOp.request flatJson ⟨1700000000, 1700000000, 20, 21⟩ sampleRequest =
            ServerOp.register clock r (some req) ∧
          headerGet r.Header (gs "X-Extension-ID") = gs "ext-A" ∧
          (registerExtensionHandler clock
            (runOps ⟨[], []⟩ [ServerOp.register ⟨10, 11, 0⟩ sampleRegistration (some sampleBody)])
            r (some req)).jsonBody ≠ none ∧
          (1 : Int) = 0) :=
  ⟨by decide!, by decide!,
    request_count_reset_only_by_registration
      (runOps ⟨[], []⟩ [ServerOp.register ⟨10, 11, 0⟩ sampleRegistration (some sampleBody)])
      (ServerOp.request flatJson ⟨1700000000, 1700000000, 20, 21⟩ sampleRequest) (gs "ext-A")
      ⟨sampleBody.Identity, gs "tok-1", 10, 11, 0, true⟩
      ⟨sampleBody.Identity, gs "tok-1", 10, 21, 1, true⟩ (by decide!) (by decide!) (by decide)
      (by decide)⟩

set_option maxRecDepth 100000 in
/-- Counterexample to C22 as stated: `ext-A` registers and sends a request that is admitted,
so that its count is 1; it registers again, the registration is accepted, and its count
is 0 while the identity never left the registry. -/
theorem request_count_reset_by_second_registration :
    (getExtensionSession (runOps ⟨[], []⟩ registerAndRequest) (gs "ext-A")).map
        (fun session => session.RequestCount) = some 1 ∧
      (getExtensionSession
          (applyOp (runOps ⟨[], []⟩ registerAndRequest)
            (ServerOp.register ⟨30, 31, 0⟩ sampleRegistrationAgain (some sampleBody)))
          (gs "ext-A")).map (fun session => session.RequestCount) = some 0 ∧
      responses (registerExtensionHandler ⟨30, 31, 0⟩ (runOps ⟨[], []⟩ registerAndRequest)
        sampleRegistrationAgain (some sampleBody)).effects = [] ∧
      (registerExtensionHandler ⟨30, 31, 0⟩ (runOps ⟨[], []⟩ registerAndRequest)
        sampleRegistrationAgain (some sampleBody)).jsonBody ≠ none :=
  ⟨by decide!, by decide!, by decide!, by decide!⟩

/-! # The length of a signature -/

theorem hexEncode_length (x : GoString) : (hexEncode x).length = 2 * x.length := by
  induction x with
  | nil => rfl
  | cons b bs ih => simp only [hexEncode, List.length_cons, ih]; omega

theorem hexDigit_mem : ∀ v : Fin 16, hexDigit v.val ∈ gs "0123456789abcdef" := by decide

theorem mem_hexEncode (x : GoString) : ∀ c ∈ hexEncode x, c ∈ gs "0123456789abcdef" := by
  induction x with
  | nil => simp [hexEncode]
  | cons b bs ih =>
    have hb := b.isLt
    intro c hc
    simp only [hexEncode, List.mem_cons] at hc
    rcases hc with hc | hc | hc
    · rw [hc]; exact hexDigit_mem ⟨b.val / 16, by omega⟩
    · rw [hc]; exact hexDigit_mem ⟨b.val % 16, by omega⟩
    · exact ih c hc

theorem sha256Round_length (v : List Nat) (kw : Nat × Nat) :
    (sha256Round v kw).length = v.length := by
  unfold sha256Round
  split
  · rfl
  · rfl

theorem foldl_sha256Round_length (l : List (Nat × Nat)) (v : List Nat) :
    (l.foldl sha256Round v).length = v.length := by
  induction l generalizing v with
  | nil => rfl
  | cons kw rest ih => rw [List.foldl_cons, ih, sha256Round_length]

theorem sha256Block_length (hv : List Nat) (block : GoString) :
    (sha256Block hv block).length = hv.length := by
  unfold sha256Block
  simp only [List.length_zipWith, foldl_sha256Round_length, min_self]

theorem sha256Blocks_length (n : Nat) (hv : List Nat) (msg : GoString) :
    (sha256Blocks n hv msg).length = hv.length := by
  induction n generalizing hv msg with
  | zero => rfl
  | succ n ih => rw [sha256Blocks, ih, sha256Block_length]

theorem flatMap_wordBytes_length (ws : List Nat) : (ws.flatMap wordBytes).length = 4 * ws.length := by
  induction ws with
  | nil => rfl
  | cons w rest ih =>
    simp only [List.flatMap_cons, List.length_append, ih, wordBytes, List.length_cons,
      List.length_nil]
    omega

theorem sha256Sum_length (data : GoString) : (sha256Sum data).length = 32 := by
  unfold sha256Sum
  simp only [flatMap_wordBytes_length, sha256Blocks_length]
  rfl

theorem generateTokenSignature_length (tokenData fingerprint : GoString) :
    (generateTokenSignature tokenData fingerprint).length = 64 := by
  unfold generateTokenSignature
  simp only [hexEncode_length, sha256Sum_length]

/-! # The token in the audit event -/

theorem accepted_token_length (J : JsonCodec) (now : Int) (token extensionID fingerprint : GoString)
    (h : validateTokenFormat J now token extensionID fingerprint = true) : 33 ≤ token.length := by
  obtain ⟨p0, p1, bs, p, h1, _, _, _, _, _, h7⟩ :=
    (validateTokenFormat_eq_true_iff J now token extensionID fingerprint).1 h
  obtain ⟨e, _, _⟩ := splitDot_eq_pair h1
  have hl : p1.length = 32 := by
    rw [h7, List.length_take, generateTokenSignature_length]; rfl
  rw [e]
  simp only [List.length_append, List.length_cons, hl]
  omega

theorem not_infix_of_length_lt {α : Type} {l1 l2 : List α} (h : l2.length < l1.length) :
    ¬ l1 <:+: l2 := fun hi => by
  have := hi.length_le
  omega

/-- C23 (as amended): where `authMiddleware` rejects a request because `validateTokenFormat`
fails, the token value of the `INVALID_TOKEN` event is the first 20 bytes of the presented
token followed by `...`. It has at most 23 bytes, so it does not contain a token of more than
23 bytes; in particular it does not contain a token that `validateTokenFormat` accepts for any
identity, fingerprint and clock reading, all of which have at least 33 bytes. -/
theorem logged_token_is_truncated (J : JsonCodec) (clock : Clock) (s : Server) (r : Request)
    (hpath : ¬ isOpenPath r.Path)
    (htoken : headerGet r.Header (gs "X-Extension-Token") ≠ [])
    (hid : headerGet r.Header (gs "X-Extension-ID") ≠ [])
    (hfail : validateTokenFormat J clock.validateUnix (headerGet r.Header (gs "X-Extension-Token"))
      (headerGet r.Header (gs "X-Extension-ID"))
      (headerGet r.Header (gs "X-Extension-Fingerprint")) = false) :
    ∃ (attempt : Effect) (logged : GoString),
      (authMiddleware J clock s r).2 =
        [attempt,
         Effect.securityEvent (gs "INVALID_TOKEN")
           [(gs "extensionId", LogValue.str (headerGet r.Header (gs "X-Extension-ID"))),
            (gs "token", LogValue.str logged),
            (gs "reason", LogValue.str (gs "invalid_format_or_signature"))],
         Effect.httpError (gs "Invalid token") StatusUnauthorized] ∧
      logged = (headerGet r.Header (gs "X-Extension-Token")).take 20 ++ gs "..." ∧
      logged.length ≤ 23 ∧
      (23 < (headerGet r.Header (gs "X-Extension-Token")).length →
        ¬ headerGet r.Header (gs "X-Extension-Token") <:+: logged) ∧
      (∀ (J2 : JsonCodec) (now : Int) (extensionID fingerprint : GoString),
        validateTokenFormat J2 now (headerGet r.Header (gs "X-Extension-Token")) extensionID
          fingerprint = true →
        ¬ headerGet r.Header (gs "X-Extension-Token") <:+: logged) := by
  have hlen : ((headerGet r.Header (gs "X-Extension-Token")).take 20 ++ gs "...").length ≤ 23 := by
    rw [List.length_append, List.length_take]
    have : (gs "...").length = 3 := rfl
    omega
  have htake : (headerGet r.Header (gs "X-Extension-Token")).take
      (min (headerGet r.Header (gs "X-Extension-Token")).length 20) =
      (headerGet r.Header (gs "X-Extension-Token")).take 20 := by
    rcases Nat.le_total (headerGet r.Header (gs "X-Extension-Token")).length 20 with h | h
    · rw [Nat.min_eq_left h, List.take_of_length_le h, List.take_of_length_le (le_refl _)]
    · rw [Nat.min_eq_right h]
  have hinfix : ∀ n : Nat, 23 < n → n ≤ (headerGet r.Header (gs "X-Extension-Token")).length →
      ¬ headerGet r.Header (gs "X-Extension-Token") <:+:
        (headerGet r.Header (gs "X-Extension-Token")).take 20 ++ gs "..." :=
    fun n h1 h2 => not_infix_of_length_lt (by omega)
  unfold isOpenPath at hpath
  unfold authMiddleware
  simp only [hpath, if_false, htoken, hid, or_self, hfail, htake, Bool.false_eq_true,
    not_false_eq_true, if_true]
  refine ⟨_, _, rfl, rfl, hlen, fun h => hinfix _ h (le_refl _), ?_⟩
  intro J2 now extensionID fingerprint hacc
  exact hinfix 33 (by decide) (accepted_token_length J2 now _ extensionID fingerprint hacc)

set_option maxRecDepth 100000 in
/-- Witness of C23: a token of 40 bytes that is not valid. -/
theorem logged_token_is_truncated_witness :
    ¬ isOpenPath longTokenRequest.Path ∧
      ∃ (attempt : Effect) (logged : GoString),
      (authMiddleware flatJson sampleClock ⟨[], []⟩ longTokenRequest).2 =
        [attempt,
         Effect.securityEvent (gs "INVALID_TOKEN")
           [(gs "extensionId", LogValue.str (headerGet longTokenRequest.Header (gs "X-Extension-ID"))),
            (gs "token", LogValue.str logged),
            (gs "reason", LogValue.str (gs "invalid_format_or_signature"))],
         Effect.httpError (gs "Invalid token") StatusUnauthorized] ∧
      logged = (headerGet longTokenRequest.Header (gs "X-Extension-Token")).take 20 ++ gs "..." ∧
      logged.length ≤ 23 ∧
      (23 < (headerGet longTokenRequest.Header (gs "X-Extension-Token")).length →
        ¬ headerGet longTokenRequest.Header (gs "X-Extension-Token") <:+: logged) ∧
      (∀ (J2 : JsonCodec) (now : Int) (extensionID fingerprint : GoString),
        validateTokenFormat J2 now (headerGet longTokenRequest.Header (gs "X-Extension-Token"))
          extensionID fingerprint = true →
        ¬ headerGet longTokenRequest.Header (gs "X-Extension-Token") <:+: logged) :=
  ⟨by decide, logged_token_is_truncated flatJson sampleClock ⟨[], []⟩ longTokenRequest
    (by decide) (by decide) (by decide) (by decide!)⟩

set_option maxRecDepth 100000 in
/-- Counterexample to C23 as stated: the request of the tests with the token `invalid.token`
is rejected because `validateTokenFormat` fails, and the `INVALID_TOKEN` event holds
`invalid.token...`, which contains the whole token. -/
theorem short_token_logged_whole :
    headerGet shortTokenRequest.Header (gs "X-Extension-Token") = gs "invalid.token" ∧
      gs "invalid.token" ≠ [] ∧
      validateTokenFormat flatJson sampleClock.validateUnix (gs "invalid.token") (gs "ext-A") [] =
        false ∧
      (authMiddleware flatJson sampleClock ⟨[], []⟩ shortTokenRequest).2.get? 1 =
        some (Effect.securityEvent (gs "INVALID_TOKEN")
          [(gs "extensionId", LogValue.str (gs "ext-A")),
           (gs "token", LogValue.str (gs "invalid.token...")),
           (gs "reason", LogValue.str (gs "invalid_format_or_signature"))]) ∧
      responses (authMiddleware flatJson sampleClock ⟨[], []⟩ shortTokenRequest).2 =
        [Outcome.rejected 401] ∧
      gs "invalid.token" <:+: gs "invalid.token..." :=
  ⟨by decide, by decide, by decide!, by decide!, by decide!, ⟨[], gs "...", by decide⟩⟩

theorem sliceTo_signature (tokenData fingerprint : GoString) :
    sliceTo (generateTokenSignature tokenData fingerprint) 32 =
      some ((generateTokenSignature tokenData fingerprint).take 32) := by
  unfold sliceTo
  rw [if_pos (by rw [generateTokenSignature_length]; decide)]

theorem sliceTo_min (token : GoString) :
    sliceTo token (min token.length 20) = some (token.take (min token.length 20)) := by
  unfold sliceTo
  rw [if_pos (Nat.min_le_left _ _)]

theorem validateTokenFormatOrPanic_eq (J : JsonCodec) (now : Int)
    (token extensionID fingerprint : GoString) :
    validateTokenFormatOrPanic J now token extensionID fingerprint =
      some (validateTokenFormat J now token extensionID fingerprint) := by
  unfold validateTokenFormatOrPanic validateTokenFormat
  rcases hs : splitDot token with _ | ⟨p0, _ | ⟨p1, _ | ⟨p2, rest⟩⟩⟩
  · simp
  · simp
  · simp only [List.length_cons, List.length_nil, ne_eq, not_true_eq_false, if_false, indexAt,
      List.get?_cons_zero, List.get?_cons_succ, sliceTo_signature]
    cases hb : base64Decode p0 with
    | none => rfl
    | some payloadBytes =>
      simp only
      cases hu : J.Unmarshal payloadBytes with
      | none => rfl
      | some payload =>
        simp only
        split_ifs <;> rfl
  · simp

theorem authMiddlewareOrPanic_eq (J : JsonCodec) (clock : Clock) (s : Server) (r : Request) :
    authMiddlewareOrPanic J clock s r = some (authMiddleware J clock s r) := by
  unfold authMiddlewareOrPanic authMiddleware
  by_cases hpath : r.Path = gs "/health" ∨ r.Path = gs "/" ∨ r.Path = gs "/api/auth/register"
  · simp only [hpath, if_true]
  · simp only [hpath, if_false]
    by_cases h1 : headerGet r.Header (gs "X-Extension-Token") = [] ∨
        headerGet r.Header (gs "X-Extension-ID") = []
    · simp only [h1, if_true]
    · simp only [h1, if_false, validateTokenFormatOrPanic_eq, sliceTo_min]
      cases h2 : validateTokenFormat J clock.validateUnix
          (headerGet r.Header (gs "X-Extension-Token")) (headerGet r.Header (gs "X-Extension-ID"))
          (headerGet r.Header (gs "X-Extension-Fingerprint")) with
      | false => simp
      | true =>
        simp only [not_true_eq_false, if_false]
        cases h3 : getExtensionSession s (headerGet r.Header (gs "X-Extension-ID")) with
        | none => simp
        | some session =>
          cases h4 : session.IsActive with
          | false => simp [h4]
          | true =>
            simp only [h4, Option.map_some', not_true_eq_false, or_false, reduceCtorEq,
              if_false]
            split <;> rfl

set_option maxRecDepth 100000 in
/-- C24: `generateTokenSignature(data, fingerprint)` is the lower-case hexadecimal encoding of
the SHA-256 digest of `data` followed by `fingerprint` (for the text `abc` the digest of the
standard), a function of its two arguments, and it is exactly 64 characters long, each of them
one of `0123456789abcdef`. So the slice `expectedSig[:32]` of `validateTokenFormat` is in range,
and so is the slice `token[:min(len(token), 20)]` of `authMiddleware`, which has at most 20
characters; and neither function panics: with every index and slice expression made explicit,
`validateTokenFormat` and `authMiddleware` return a result for every token, identity and
fingerprint, every request and every state. -/
theorem signature_is_hex_sha256_of_64_chars (J : JsonCodec) (clock : Clock) (s : Server)
    (r : Request) (now : Int) (data token extensionID fingerprint : GoString) :
    generateTokenSignature data fingerprint = hexEncode (sha256Sum (data ++ fingerprint)) ∧
      generateTokenSignature (gs "abc") [] =
        gs "ba7816bf8f01cfea414140de5dae2223b00361a396177a9cb410ff61f20015ad" ∧
      (generateTokenSignature data fingerprint).length = 64 ∧
      (∀ c ∈ generateTokenSignature data fingerprint, c ∈ gs "0123456789abcdef") ∧
      sliceTo (generateTokenSignature data fingerprint) 32 =
        some ((generateTokenSignature data fingerprint).take 32) ∧
      ((generateTokenSignature data fingerprint).take 32).length = 32 ∧
      sliceTo token (min token.length 20) = some (token.take (min token.length 20)) ∧
      (token.take (min token.length 20)).length ≤ 20 ∧
      validateTokenFormatOrPanic J now token extensionID fingerprint =
        some (validateTokenFormat J now token extensionID fingerprint) ∧
      authMiddlewareOrPanic J clock s r = some (authMiddleware J clock s r) := by
  have hlen := generateTokenSignature_length data fingerprint
  refine ⟨rfl, by decide!, hlen, mem_hexEncode _, sliceTo_signature _ _, ?_, sliceTo_min _, ?_,
    validateTokenFormatOrPanic_eq _ _ _ _ _, authMiddlewareOrPanic_eq _ _ _ _⟩
  · rw [List.length_take, hlen]; rfl
  · rw [List.length_take]; omega

/-! # The synthetic forecast -/

theorem mapIndex_set_of_ne {F : Type} (m : GoMap (JsonValue F)) (k k2 : GoString)
    (v : JsonValue F) (h : k2 ≠ k) : mapIndex (GoMap.set m k v) k2 = mapIndex m k2 := by
  unfold mapIndex
  rw [GoMap.get_set_of_ne _ _ _ _ h]

theorem createSyntheticHourlyData_length {F : Type} (L : WeatherLib F) (currentTime : Int)
    (currentData : GoMap (JsonValue F)) :
    (createSyntheticHourlyData L currentTime currentData).length = 24 := by
  simp [createSyntheticHourlyData]

theorem createSyntheticDailyData_length {F : Type} (L : WeatherLib F) (currentTime : Int)
    (currentData : GoMap (JsonValue F)) :
    (createSyntheticDailyData L currentTime currentData).length = 5 := by
  simp [createSyntheticDailyData]

theorem createSyntheticHourlyData_entry {F : Type} (L : WeatherLib F) (currentTime : Int)
    (currentData : GoMap (JsonValue F)) :
    ∀ entry ∈ createSyntheticHourlyData L currentTime currentData,
      ∃ fields, entry = JsonValue.object fields ∧
        mapIndex fields (gs "temperature") = mapIndex currentData (gs "temperature") ∧
        mapIndex fields (gs "weatherCondition") =
          mapIndex currentData (gs "weatherCondition") := by
  intro entry hentry
  have k1 : gs "temperature" ≠ gs "precipitation" := by decide
  have k2 : gs "weatherCondition" ≠ gs "precipitation" := by decide
  have t1 : gs "timestamp" ≠ gs "temperature" := by decide
  have w1 : gs "timestamp" ≠ gs "weatherCondition" := by decide
  have w2 : gs "temperature" ≠ gs "weatherCondition" := by decide
  have w3 : gs "feelsLikeTemperature" ≠ gs "weatherCondition" := by decide
  have w4 : gs "relativeHumidity" ≠ gs "weatherCondition" := by decide
  simp only [createSyntheticHourlyData, List.mem_map] at hentry
  obtain ⟨i, _, hi⟩ := hentry
  cases hp : asObject (mapIndex currentData (gs "precipitation")) with
  | none =>
    rw [hp] at hi
    refine ⟨_, hi.symm, ?_, ?_⟩
    · simp only [mapIndex, GoMap.get, t1, if_false, if_true, Option.getD_some]
    · simp only [mapIndex, GoMap.get, w1, w2, w3, w4, if_false, if_true, Option.getD_some]
  | some precip =>
    rw [hp] at hi
    refine ⟨_, hi.symm, ?_, ?_⟩
    · rw [mapIndex_set_of_ne _ _ _ _ k1]
      simp only [mapIndex, GoMap.get, t1, if_false, if_true, Option.getD_some]
    · rw [mapIndex_set_of_ne _ _ _ _ k2]
      simp only [mapIndex, GoMap.get, w1, w2, w3, w4, if_false, if_true, Option.getD_some]

/-- C25: for every current-conditions map `createSyntheticHourlyData` returns exactly 24
entries and `createSyntheticDailyData` exactly 5, and every hourly entry is a map that holds
the temperature and the weather condition of the current conditions unchanged. So where the
upstream hourly and daily forecasts yield no entries, `weatherHandler` answers with the
current conditions and a forecast of exactly 24 such hourly entries and 5 daily entries. -/
theorem synthetic_forecast_has_24_hours_and_5_days {F : Type} (L : WeatherLib F)
    (clock : WeatherClock) (currentTime : Int) (currentData : GoMap (JsonValue F)) :
    (createSyntheticHourlyData L currentTime currentData).length = 24 ∧
      (createSyntheticDailyData L currentTime currentData).length = 5 ∧
      (∀ entry ∈ createSyntheticHourlyData L currentTime currentData,
        ∃ fields, entry = JsonValue.object fields ∧
          mapIndex fields (gs "temperature") = mapIndex currentData (gs "temperature") ∧
          mapIndex fields (gs "weatherCondition") =
            mapIndex currentData (gs "weatherCondition")) ∧
      ∀ forecastData dailyData : Option (GoMap (JsonValue F)),
        hourlyItems L clock.interval forecastData = [] → dailyItems L dailyData = some [] →
        ∃ hourly daily : List (JsonValue F),
          weatherHandler L clock currentData forecastData dailyData =
            some (JsonValue.object
              [(gs "current", JsonValue.object currentData),
               (gs "forecast", JsonValue.object
                 [(gs "daily", JsonValue.array daily), (gs "hourly", JsonValue.array hourly)]),
               (gs "timestamp", JsonValue.string (L.formatRFC3339 clock.response))]) ∧
          hourly.length = 24 ∧ daily.length = 5 ∧
          ∀ entry ∈ hourly,
            ∃ fields, entry = JsonValue.object fields ∧
              mapIndex fields (gs "temperature") = mapIndex currentData (gs "temperature") ∧
              mapIndex fields (gs "weatherCondition") =
                mapIndex currentData (gs "weatherCondition") := by
  refine ⟨createSyntheticHourlyData_length L _ _, createSyntheticDailyData_length L _ _,
    createSyntheticHourlyData_entry L _ _, ?_⟩
  intro forecastData dailyData hhourly hdaily
  refine ⟨createSyntheticHourlyData L clock.hourly currentData,
    createSyntheticDailyData L clock.daily currentData, ?_,
    createSyntheticHourlyData_length L _ _, createSyntheticDailyData_length L _ _,
    createSyntheticHourlyData_entry L _ _⟩
  unfold weatherHandler
  simp only [hhourly, hdaily, List.length_nil, if_true]

/-- Witness of C25: the case of the handler test, in which both forecasts cannot be fetched;
the first hourly entry holds the temperature of 20 degrees. -/
theorem synthetic_forecast_has_24_hours_and_5_days_witness :
    hourlyItems sampleLib sampleWeatherClock.interval none = [] ∧
      dailyItems sampleLib none = some [] ∧
      ∃ hourly daily : List (JsonValue Int),
        weatherHandler sampleLib sampleWeatherClock sampleCurrent none none =
          some (JsonValue.object
            [(gs "current", JsonValue.object sampleCurrent),
             (gs "forecast", JsonValue.object
               [(gs "daily", JsonValue.array daily), (gs "hourly", JsonValue.array hourly)]),
             (gs "timestamp", JsonValue.string (sampleLib.formatRFC3339 3))]) ∧
        hourly.length = 24 ∧ daily.length = 5 ∧
        ∀ entry ∈ hourly,
          ∃ fields, entry = JsonValue.object fields ∧
            mapIndex fields (gs "temperature") = mapIndex sampleCurrent (gs "temperature") ∧
            mapIndex fields (gs "weatherCondition") =
              mapIndex sampleCurrent (gs "weatherCondition") :=
  ⟨rfl, rfl,
    (synthetic_forecast_has_24_hours_and_5_days sampleLib sampleWeatherClock 0
      sampleCurrent).2.2.2 none none rfl rfl⟩

/-! # The CORS middleware -/

/-- C26: `enableCORS` sets `Access-Control-Allow-Origin` to the `Origin` header of the request
where that header is not empty and to `*` otherwise; to an `OPTIONS` request it answers with
the status 200 and does not call the wrapped handler, and for every other method it calls the
wrapped handler exactly once, with the request, and writes no status itself. -/
theorem cors_origin_and_preflight (header : List (GoString × GoString)) (r : Request) :
    (headerGet r.Header (gs "Origin") ≠ [] →
        headerGet (enableCORS header r).1 (gs "Access-Control-Allow-Origin") =
          headerGet r.Header (gs "Origin")) ∧
      (headerGet r.Header (gs "Origin") = [] →
        headerGet (enableCORS header r).1 (gs "Access-Control-Allow-Origin") = gs "*") ∧
      (r.Method = gs "OPTIONS" →
        (enableCORS header r).2 = [CorsEffect.writeHeader 200] ∧
          nextCalls (enableCORS header r).2 = 0) ∧
      (r.Method ≠ gs "OPTIONS" →
        (enableCORS header r).2 = [CorsEffect.next r] ∧
          nextCalls (enableCORS header r).2 = 1) := by
  have k1 : gs "Access-Control-Allow-Origin" ≠ gs "Access-Control-Allow-Methods" := by decide
  have k2 : gs "Access-Control-Allow-Origin" ≠ gs "Access-Control-Allow-Headers" := by decide
  have k3 : gs "Access-Control-Allow-Origin" ≠ gs "Access-Control-Max-Age" := by decide
  have hheader : headerGet (enableCORS header r).1 (gs "Access-Control-Allow-Origin") =
      if headerGet r.Header (gs "Origin") ≠ [] then headerGet r.Header (gs "Origin")
      else gs "*" := by
    have : (enableCORS header r).1 =
        headerSet (headerSet (headerSet
          (if headerGet r.Header (gs "Origin") ≠ [] then
            headerSet header (gs "Access-Control-Allow-Origin") (headerGet r.Header (gs "Origin"))
          else headerSet header (gs "Access-Control-Allow-Origin") (gs "*"))
          (gs "Access-Control-Allow-Methods") (gs "GET, POST, OPTIONS"))
          (gs "Access-Control-Allow-Headers")
          (gs ("Content-Type, Authorization, X-Extension-Token, X-Extension-ID, " ++
            "X-Extension-Version, X-Extension-Fingerprint, X-Request-ID")))
          (gs "Access-Control-Max-Age") (gs "86400") := by
      unfold enableCORS
      split <;> rfl
    rw [this, headerGet_headerSet_of_ne _ _ _ _ k3, headerGet_headerSet_of_ne _ _ _ _ k2,
      headerGet_headerSet_of_ne _ _ _ _ k1]
    split
    · exact headerGet_headerSet_self _ _ _
    · exact headerGet_headerSet_self _ _ _
  refine ⟨fun h => ?_, fun h => ?_, fun h => ?_, fun h => ?_⟩
  · rw [hheader, if_pos h]
  · rw [hheader, if_neg (not_not.2 h)]
  · have : (enableCORS header r).2 = [CorsEffect.writeHeader 200] := by
      unfold enableCORS
      simp only [h, if_true]
      rfl
    rw [this]
    exact ⟨rfl, rfl⟩
  · have : (enableCORS header r).2 = [CorsEffect.next r] := by
      unfold enableCORS
      simp only [h, if_false]
    rw [this]
    exact ⟨rfl, rfl⟩

/-- Witness of C26: the two requests of the CORS test, a GET with an origin and an OPTIONS
without one. -/
theorem cors_origin_and_preflight_witness :
    headerGet corsRequest.Header (gs "Origin") ≠ [] ∧ corsRequest.Method ≠ gs "OPTIONS" ∧
      headerGet (enableCORS [] corsRequest).1 (gs "Access-Control-Allow-Origin") =
        gs "chrome-extension://test" ∧
      ((enableCORS [] corsRequest).2 = [CorsEffect.next corsRequest] ∧
        nextCalls (enableCORS [] corsRequest).2 = 1) ∧
      headerGet (enableCORS [] preflightRequest).1 (gs "Access-Control-Allow-Origin") = gs "*" ∧
      ((enableCORS [] preflightRequest).2 = [CorsEffect.writeHeader 200] ∧
        nextCalls (enableCORS [] preflightRequest).2 = 0) :=
  ⟨by decide, by decide,
    (cors_origin_and_preflight [] corsRequest).1 (by decide),
    (cors_origin_and_preflight [] corsRequest).2.2.2 (by decide),
    (cors_origin_and_preflight [] preflightRequest).2.1 (by decide),
    (cors_origin_and_preflight [] preflightRequest).2.2.1 (by decide)⟩

/-! # The rejection of unregistered identities -/

theorem authMiddleware_unregistered (J : JsonCodec) (clock : Clock) (s : Server) (r : Request)
    (hpath : ¬ isOpenPath r.Path)
    (hactive : ∀ session,
      getExtensionSession s (headerGet r.Header (gs "X-Extension-ID")) = some session →
        session.IsActive = true) :
    (Effect.httpError (gs "Extension not registered or inactive") StatusUnauthorized ∈
        (authMiddleware J clock s r).2 ↔
      headerGet r.Header (gs "X-Extension-Token") ≠ [] ∧
        headerGet r.Header (gs "X-Extension-ID") ≠ [] ∧
        validateTokenFormat J clock.validateUnix (headerGet r.Header (gs "X-Extension-Token"))
          (headerGet r.Header (gs "X-Extension-ID"))
          (headerGet r.Header (gs "X-Extension-Fingerprint")) = true ∧
        getExtensionSession s (headerGet r.Header (gs "X-Extension-ID")) = none) ∧
      ∀ data, Effect.securityEvent (gs "UNREGISTERED_EXTENSION") data ∈
          (authMiddleware J clock s r).2 →
        getExtensionSession s (headerGet r.Header (gs "X-Extension-ID")) = none ∧
          data = [(gs "extensionId", LogValue.str (headerGet r.Header (gs "X-Extension-ID"))),
            (gs "registered", LogValue.bool false), (gs "active", LogValue.bool false)] := by
  have e1 : ¬ gs "Extension not registered or inactive" = gs "Missing authentication headers" := by
    decide
  have e2 : ¬ gs "Extension not registered or inactive" = gs "Invalid token" := by decide
  have e3 : ¬ gs "Extension not registered or inactive" = gs "Rate limit exceeded" := by decide
  have e4 : ¬ gs "UNREGISTERED_EXTENSION" = gs "AUTH_ATTEMPT" := by decide
  have e5 : ¬ gs "UNREGISTERED_EXTENSION" = gs "INVALID_TOKEN" := by decide
  have e6 : ¬ gs "UNREGISTERED_EXTENSION" = gs "RATE_LIMIT_EXCEEDED" := by decide
  unfold isOpenPath at hpath
  unfold authMiddleware
  simp only [hpath, if_false]
  by_cases h1 : headerGet r.Header (gs "X-Extension-Token") = [] ∨
      headerGet r.Header (gs "X-Extension-ID") = []
  · simp only [h1, if_true]
    have h1b : ¬ (headerGet r.Header (gs "X-Extension-Token") ≠ [] ∧
        headerGet r.Header (gs "X-Extension-ID") ≠ [] ∧
        validateTokenFormat J clock.validateUnix (headerGet r.Header (gs "X-Extension-Token"))
          (headerGet r.Header (gs "X-Extension-ID"))
          (headerGet r.Header (gs "X-Extension-Fingerprint")) = true ∧
        getExtensionSession s (headerGet r.Header (gs "X-Extension-ID")) = none) := by
      rintro ⟨a, b, _⟩
      rcases h1 with h | h
      · exact a h
      · exact b h
    simp [e1, e4, h1b]
  · simp only [h1, if_false]
    have h1c := not_or.1 h1
    by_cases h2 : validateTokenFormat J clock.validateUnix
        (headerGet r.Header (gs "X-Extension-Token")) (headerGet r.Header (gs "X-Extension-ID"))
        (headerGet r.Header (gs "X-Extension-Fingerprint")) = true
    · simp only [h2, not_true_eq_false, if_false]
      cases hs : getExtensionSession s (headerGet r.Header (gs "X-Extension-ID")) with
      | none => simp [e4, h1c.1, h1c.2]
      | some session =>
        have ha := hactive session hs
        simp only [ha, Option.map_some', not_true_eq_false, or_false, reduceCtorEq, if_false]
        by_cases h4 : (checkRateLimit clock.rateLimit s.requests
            (headerGet r.Header (gs "X-Extension-ID"))).1 = true
        · simp [h4, e4]
        · simp [h4, e3, e4, e6]
    · simp [h2, e2, e4, e5]

/-- C27: in every state reached from the empty registry by registrations, requests through
the middleware, activity touches and cleanup sweeps, every stored session has
`IsActive = true`. So on a checked path the answer `Extension not registered or inactive` is
given exactly when the headers are present, the token is valid and no session is stored for
the identity, and every `UNREGISTERED_EXTENSION` event reports an identity without a session
(`registered` false): the rejection of a registered but inactive identity does not occur. -/
theorem reachable_sessions_are_active (requests : GoMap (List Int)) (ops : List ServerOp) :
    (∀ e ∈ (runOps ⟨[], requests⟩ ops).sessions, e.2.IsActive = true) ∧
      (∀ extensionID session,
        getExtensionSession (runOps ⟨[], requests⟩ ops) extensionID = some session →
          session.IsActive = true) ∧
      ∀ (J : JsonCodec) (clock : Clock) (r : Request), ¬ isOpenPath r.Path →
        (Effect.httpError (gs "Extension not registered or inactive") StatusUnauthorized ∈
            (authMiddleware J clock (runOps ⟨[], requests⟩ ops) r).2 ↔
          headerGet r.Header (gs "X-Extension-Token") ≠ [] ∧
            headerGet r.Header (gs "X-Extension-ID") ≠ [] ∧
            validateTokenFormat J clock.validateUnix (headerGet r.Header (gs "X-Extension-Token"))
              (headerGet r.Header (gs "X-Extension-ID"))
              (headerGet r.Header (gs "X-Extension-Fingerprint")) = true ∧
            getExtensionSession (runOps ⟨[], requests⟩ ops)
              (headerGet r.Header (gs "X-Extension-ID")) = none) ∧
          ∀ data, Effect.securityEvent (gs "UNREGISTERED_EXTENSION") data ∈
              (authMiddleware J clock (runOps ⟨[], requests⟩ ops) r).2 →
            getExtensionSession (runOps ⟨[], requests⟩ ops)
                (headerGet r.Header (gs "X-Extension-ID")) = none ∧
              data = [(gs "extensionId", LogValue.str (headerGet r.Header (gs "X-Extension-ID"))),
                (gs "registered", LogValue.bool false), (gs "active", LogValue.bool false)] := by
  have h := runOps_active_inv ops ⟨[], requests⟩ (fun e he => absurd he (List.not_mem_nil e))
  have h2 : ∀ extensionID session,
      getExtensionSession (runOps ⟨[], requests⟩ ops) extensionID = some session →
        session.IsActive = true :=
    fun extensionID session hg => h _ (GoMap.mem_of_get_eq_some _ _ _ hg)
  exact ⟨h, h2, fun J clock r hpath =>
    authMiddleware_unregistered J clock _ r hpath (h2 _)⟩

set_option maxRecDepth 100000 in
/-- Witness of C27: after the sample run `ext-A` is stored and active, and on the empty
registry the sample request, whose token is valid, is rejected as unregistered. -/
theorem reachable_sessions_are_active_witness :
    (getExtensionSession (runOps ⟨[], []⟩ sampleRun) (gs "ext-A")).map
        (fun session => session.IsActive) = some true ∧
      (∀ e ∈ (runOps ⟨[], []⟩ sampleRun).sessions, e.2.IsActive = true) ∧
      ¬ isOpenPath sampleRequest.Path ∧
      Effect.httpError (gs "Extension not registered or inactive") StatusUnauthorized ∈
        (authMiddleware flatJson sampleClock (runOps ⟨[], []⟩ []) sampleRequest).2 :=
  ⟨by decide!, (reachable_sessions_are_active [] sampleRun).1, by decide,
    (((reachable_sessions_are_active [] []).2.2 flatJson sampleClock sampleRequest
      (by decide)).1).2 ⟨by decide, by decide, by decide!, by decide⟩⟩

/-! # The stored token -/

theorem GoMap.get_map_value {α β : Type} (f : α → β) (m : GoMap α) (k : GoString) :
    GoMap.get (m.map (fun e => (e.1, f e.2))) k = (GoMap.get m k).map f := by
  induction m with
  | nil => rfl
  | cons e rest ih =>
    obtain ⟨k2, v2⟩ := e
    by_cases h : k2 = k
    · simp [GoMap.get, h]
    · simp only [List.map_cons, GoMap.get, h, if_false]
      exact ih

theorem GoMap.set_map_value {α β : Type} (f : α → β) (m : GoMap α) (k : GoString) (v : α) :
    (GoMap.set m k v).map (fun e => (e.1, f e.2)) =
      GoMap.set (m.map (fun e => (e.1, f e.2))) k (f v) := by
  induction m with
  | nil => rfl
  | cons e rest ih =>
    obtain ⟨k2, v2⟩ := e
    by_cases h : k2 = k
    · simp [GoMap.set, h]
    · simp only [List.map_cons, GoMap.set, h, if_false, List.cons.injEq, true_and]
      exact ih

theorem sameButToken_get {m1 m2 : GoMap ExtensionSession} (h : sameButToken m1 m2)
    (k : GoString) : (GoMap.get m1 k).map eraseToken = (GoMap.get m2 k).map eraseToken := by
  unfold sameButToken at h
  rw [← GoMap.get_map_value, ← GoMap.get_map_value, h]

theorem sameButToken_updateSessionActivity {m1 m2 : GoMap ExtensionSession}
    (h : sameButToken m1 m2) (now : Int) (q1 q2 : GoMap (List Int)) (k : GoString) :
    sameButToken (updateSessionActivity now ⟨m1, q1⟩ k).sessions
      (updateSessionActivity now ⟨m2, q2⟩ k).sessions := by
  have hg := sameButToken_get h k
  unfold updateSessionActivity
  cases h1 : GoMap.get m1 k with
  | none =>
    cases h2 : GoMap.get m2 k with
    | none => exact h
    | some b => rw [h1, h2] at hg; simp at hg
  | some a =>
    cases h2 : GoMap.get m2 k with
    | none => rw [h1, h2] at hg; simp at hg
    | some b =>
      rw [h1, h2] at hg
      simp only [Option.map_some', Option.some.injEq] at hg
      unfold sameButToken at h ⊢
      simp only [GoMap.set_map_value, h]
      congr 1
      simp only [eraseToken] at hg ⊢
      cases a; cases b
      simp only [ExtensionSession.mk.injEq] at hg ⊢
      simp [hg]

theorem authMiddleware_of_same_active (J : JsonCodec) (clock : Clock) (s1 s2 : Server)
    (r : Request) (hq : s1.requests = s2.requests)
    (ha : (getExtensionSession s1 (headerGet r.Header (gs "X-Extension-ID"))).map
        (fun x => x.IsActive) =
      (getExtensionSession s2 (headerGet r.Header (gs "X-Extension-ID"))).map
        (fun x => x.IsActive)) :
    (authMiddleware J clock s1 r).2 = (authMiddleware J clock s2 r).2 ∧
      (authMiddleware J clock s1 r).1.requests = (authMiddleware J clock s2 r).1.requests ∧
      (((authMiddleware J clock s1 r).1.sessions = s1.sessions ∧
          (authMiddleware J clock s2 r).1.sessions = s2.sessions) ∨
        ((authMiddleware J clock s1 r).1.sessions =
            (updateSessionActivity clock.activity s1
              (headerGet r.Header (gs "X-Extension-ID"))).sessions ∧
          (authMiddleware J clock s2 r).1.sessions =
            (updateSessionActivity clock.activity s2
              (headerGet r.Header (gs "X-Extension-ID"))).sessions)) := by
  have hn : getExtensionSession s1 (headerGet r.Header (gs "X-Extension-ID")) = none ↔
      getExtensionSession s2 (headerGet r.Header (gs "X-Extension-ID")) = none := by
    rw [← Option.map_eq_none', ha, Option.map_eq_none']
  unfold authMiddleware
  by_cases hpath : r.Path = gs "/health" ∨ r.Path = gs "/" ∨ r.Path = gs "/api/auth/register"
  · simp only [hpath, if_true, hq, true_and, and_self, true_or]
  · simp only [hpath, if_false]
    by_cases h1 : headerGet r.Header (gs "X-Extension-Token") = [] ∨
        headerGet r.Header (gs "X-Extension-ID") = []
    · simp only [h1, if_true, hq, true_and, and_self, true_or]
    · simp only [h1, if_false]
      by_cases h2 : validateTokenFormat J clock.validateUnix
          (headerGet r.Header (gs "X-Extension-Token")) (headerGet r.Header (gs "X-Extension-ID"))
          (headerGet r.Header (gs "X-Extension-Fingerprint")) = true
      · simp only [h2, not_true_eq_false, if_false]
        by_cases h3 : getExtensionSession s2 (headerGet r.Header (gs "X-Extension-ID")) = none ∨
            ¬ ((getExtensionSession s2 (headerGet r.Header (gs "X-Extension-ID"))).map
              (fun x => x.IsActive) = some true)
        · have h3b : getExtensionSession s1 (headerGet r.Header (gs "X-Extension-ID")) = none ∨
              ¬ ((getExtensionSession s1 (headerGet r.Header (gs "X-Extension-ID"))).map
                (fun x => x.IsActive) = some true) := by
            rw [hn, ha]; exact h3
          simp only [h3, h3b, if_true, hq, true_and, and_self, true_or, ha, ne_eq, hn]
        · have h3b : ¬ (getExtensionSession s1 (headerGet r.Header (gs "X-Extension-ID")) = none ∨
              ¬ ((getExtensionSession s1 (headerGet r.Header (gs "X-Extension-ID"))).map
                (fun x => x.IsActive) = some true)) := by
            rw [hn, ha]; exact h3
          simp only [h3, h3b, if_false, hq]
          by_cases h4 : (checkRateLimit clock.rateLimit s2.requests
              (headerGet r.Header (gs "X-Extension-ID"))).1 = true
          · simp only [h4, not_true_eq_false, if_false, true_and]
            refine ⟨?_, Or.inr ⟨?_, ?_⟩⟩
            · simp only [updateSessionActivity]
              split <;> split <;> rfl
            · simp only [updateSessionActivity]
              split <;> rfl
            · simp only [updateSessionActivity]
              split <;> rfl
          · have h4f := Bool.eq_false_iff.2 h4
            simp only [h4f, Bool.false_eq_true, if_true, true_and, and_self, true_or,
              not_false_eq_true]
      · have h2f := Bool.eq_false_iff.2 h2
        simp only [h2f, Bool.false_eq_true, if_true, hq, true_and, and_self, true_or,
          not_false_eq_true]

/-- C28: the decision of `authMiddleware` does not depend on the `Token` stored in a session.
For two registries that differ at most in the `Token` fields of their sessions, and the same
rate-limiter map and clock readings, every request has the same effects (the same answer and
the same security events), the same limiter map afterwards, and registries afterwards that
again differ at most in the `Token` fields. So a request whose token passes
`validateTokenFormat` for an identity with an active session within its quota is admitted
whatever token the session stores. -/
theorem decision_independent_of_stored_token (J : JsonCodec) (clock : Clock)
    (m1 m2 : GoMap ExtensionSession) (requests : GoMap (List Int)) (r : Request)
    (hsame : sameButToken m1 m2) :
    (authMiddleware J clock ⟨m1, requests⟩ r).2 = (authMiddleware J clock ⟨m2, requests⟩ r).2 ∧
      (authMiddleware J clock ⟨m1, requests⟩ r).1.requests =
        (authMiddleware J clock ⟨m2, requests⟩ r).1.requests ∧
      sameButToken (authMiddleware J clock ⟨m1, requests⟩ r).1.sessions
        (authMiddleware J clock ⟨m2, requests⟩ r).1.sessions ∧
      (¬ isOpenPath r.Path →
        validateTokenFormat J clock.validateUnix (headerGet r.Header (gs "X-Extension-Token"))
          (headerGet r.Header (gs "X-Extension-ID"))
          (headerGet r.Header (gs "X-Extension-Fingerprint")) = true →
        headerGet r.Header (gs "X-Extension-ID") ≠ [] →
        (∃ session, GoMap.get m1 (headerGet r.Header (gs "X-Extension-ID")) = some session ∧
          session.IsActive = true) →
        (checkRateLimit clock.rateLimit requests (headerGet r.Header (gs "X-Extension-ID"))).1 =
          true →
        responses (authMiddleware J clock ⟨m1, requests⟩ r).2 = [Outcome.admitted]) := by
  have hg := sameButToken_get hsame (headerGet r.Header (gs "X-Extension-ID"))
  have ha : (getExtensionSession ⟨m1, requests⟩ (headerGet r.Header (gs "X-Extension-ID"))).map
        (fun x => x.IsActive) =
      (getExtensionSession ⟨m2, requests⟩ (headerGet r.Header (gs "X-Extension-ID"))).map
        (fun x => x.IsActive) := by
    have := congrArg (Option.map (fun x : ExtensionSession => x.IsActive)) hg
    simpa [Option.map_map, Function.comp, eraseToken, getExtensionSession] using this
  obtain ⟨h1, h2, h3⟩ := authMiddleware_of_same_active J clock ⟨m1, requests⟩ ⟨m2, requests⟩ r
    rfl ha
  refine ⟨h1, h2, ?_, ?_⟩
  · rcases h3 with ⟨e1, e2⟩ | ⟨e1, e2⟩
    · rw [e1, e2]; exact hsame
    · rw [e1, e2]; exact sameButToken_updateSessionActivity hsame _ _ _ _
  · intro hpath hvalid hid ⟨session, hs, hact⟩ hrate
    rw [(authMiddleware_cases J clock ⟨m1, requests⟩ r hpath).1]
    have htoken : headerGet r.Header (gs "X-Extension-Token") ≠ [] := by
      intro he
      rw [he] at hvalid
      simp [validateTokenFormat, splitDot] at hvalid
    simp [expectedOutcome, htoken, hid, hvalid, getExtensionSession, hs, hact, hrate]

set_option maxRecDepth 100000 in
/-- Witness of C28: the sample request is admitted for a session that stores the token `t`,
which is not the token of the request, with the same effects as for a session that stores the
token `other`. -/
theorem decision_independent_of_stored_token_witness :
    sameButToken [(gs "ext-A", sampleSession)] [(gs "ext-A", sessionWithToken (gs "other"))] ∧
      sampleSession.Token ≠ headerGet sampleRequest.Header (gs "X-Extension-Token") ∧
      responses (authMiddleware flatJson sampleClock ⟨[(gs "ext-A", sampleSession)], []⟩
        sampleRequest).2 = [Outcome.admitted] ∧
      (authMiddleware flatJson sampleClock ⟨[(gs "ext-A", sampleSession)], []⟩ sampleRequest).2 =
        (authMiddleware flatJson sampleClock ⟨[(gs "ext-A", sessionWithToken (gs "other"))], []⟩
          sampleRequest).2 :=
  ⟨by decide, by decide!,
    (decision_independent_of_stored_token flatJson sampleClock [(gs "ext-A", sampleSession)]
      [(gs "ext-A", sessionWithToken (gs "other"))] [] sampleRequest (by decide)).2.2.2
      (by decide) (by decide!) (by decide) ⟨sampleSession, by decide, rfl⟩ (by decide),
    (decision_independent_of_stored_token flatJson sampleClock [(gs "ext-A", sampleSession)]
      [(gs "ext-A", sessionWithToken (gs "other"))] [] sampleRequest (by decide)).1⟩

/-! # Tokens issued in the future -/

/-- C29: `validateTokenFormat` puts no lower bound on the age of a token. A token that is
correctly formed and signed (two parts, the first of which decodes to a payload with the
presented identity and a fingerprint that the check lets through, the second the first 32
characters of the signature) and whose issuance time `ts` is later than `now >= 0`, by any
amount, is accepted at `now`, and it is accepted at every clock reading `t >= 0` up to
`ts + 86400`. -/
theorem future_token_accepted (J : JsonCodec) (now : Int)
    (token extensionID fingerprint part0 part1 payloadBytes : GoString) (payload : TokenPayload)
    (hsplit : splitDot token = [part0, part1])
    (hdecode : base64Decode part0 = some payloadBytes)
    (hjson : J.Unmarshal payloadBytes = some payload)
    (hid : payload.ExtensionID = extensionID)
    (hfp : fingerprint = [] ∨ payload.Fingerprint = fingerprint)
    (hsig : part1 = (generateTokenSignature part0 fingerprint).take 32)
    (hts : isInt64 payload.Timestamp) (hnow : 0 ≤ now) (hfuture : now < payload.Timestamp) :
    validateTokenFormat J now token extensionID fingerprint = true ∧
      ∀ t : Int, 0 ≤ t → t ≤ payload.Timestamp + 86400 →
        validateTokenFormat J t token extensionID fingerprint = true := by
  have key : ∀ t : Int, 0 ≤ t → t ≤ payload.Timestamp + 86400 →
      validateTokenFormat J t token extensionID fingerprint = true := by
    intro t h0 h1
    rw [validateTokenFormat_eq_true_iff]
    refine ⟨part0, part1, payloadBytes, payload, hsplit, hdecode, hjson, hid, ?_, hfp, hsig⟩
    unfold isInt64 at hts
    have hw : wrap64 (t - payload.Timestamp) = t - payload.Timestamp :=
      wrap64_of_isInt64 ⟨by omega, by omega⟩
    rw [hw]
    simp only [TOKEN_EXPIRY_HOURS]
    omega
  exact ⟨key now hnow (by omega), key⟩

set_option maxRecDepth 100000 in
/-- Witness of C29: at second 1700000000 a token issued for second `2^63 - 1`. -/
theorem future_token_accepted_witness :
    isInt64 (samplePayload 9223372036854775807).Timestamp ∧ (0 : Int) ≤ 1700000000 ∧
      (1700000000 : Int) < (samplePayload 9223372036854775807).Timestamp ∧
      validateTokenFormat flatJson 1700000000
        (generateToken flatJson (samplePayload 9223372036854775807) (gs "fp1"))
        (gs "ext-A") (gs "fp1") = true ∧
      ∀ t : Int, 0 ≤ t → t ≤ (samplePayload 9223372036854775807).Timestamp + 86400 →
        validateTokenFormat flatJson t
          (generateToken flatJson (samplePayload 9223372036854775807) (gs "fp1"))
          (gs "ext-A") (gs "fp1") = true :=
  ⟨by decide, by decide, by decide,
    future_token_accepted flatJson 1700000000
      (generateToken flatJson (samplePayload 9223372036854775807) (gs "fp1"))
      (gs "ext-A") (gs "fp1") _ _ _ (samplePayload 9223372036854775807)
      (splitDot_generateToken flatJson _ _) (base64Decode_base64Encode _) (by decide!) rfl
      (Or.inr rfl) rfl (by decide) (by decide) (by decide)⟩

/-! # The file names of the image pipeline -/

theorem splitOn_ne_nil (sep : Byte) (s : GoString) : splitOn sep s ≠ [] := by
  cases s with
  | nil => simp [splitOn]
  | cons c cs =>
    unfold splitOn
    split
    · simp
    · split <;> simp

theorem splitOn_of_not_mem (sep : Byte) (s : GoString) (h : sep ∉ s) : splitOn sep s = [s] := by
  induction s with
  | nil => rfl
  | cons c cs ih =>
    have hc : c ≠ sep := fun e => h (by rw [e]; exact List.mem_cons_self _ _)
    have hcs : sep ∉ cs := fun e => h (List.mem_cons_of_mem _ e)
    unfold splitOn
    rw [if_neg hc, ih hcs]

theorem splitOn_append_sep (sep : Byte) (a b : GoString) :
    splitOn sep (a ++ sep :: b) = splitOn sep a ++ splitOn sep b := by
  induction a with
  | nil => simp [splitOn]
  | cons c cs ih =>
    by_cases hc : c = sep
    · simp only [List.cons_append, splitOn, hc, if_true, List.append_eq, ih]
    · simp only [List.cons_append, splitOn, hc, if_false, List.append_eq, ih]
      cases hs : splitOn sep cs with
      | nil => exact absurd hs (splitOn_ne_nil sep cs)
      | cons p ps => rfl

theorem joinWith_splitOn (sep : Byte) (s : GoString) : joinWith [sep] (splitOn sep s) = s := by
  induction s with
  | nil => rfl
  | cons c cs ih =>
    by_cases hc : c = sep
    · simp only [splitOn, hc, if_true]
      cases hs : splitOn sep cs with
      | nil => exact absurd hs (splitOn_ne_nil sep cs)
      | cons p ps =>
        rw [hs] at ih
        simp only [joinWith, List.nil_append, List.singleton_append, ih]
    · simp only [splitOn, hc, if_false]
      cases hs : splitOn sep cs with
      | nil => exact absurd hs (splitOn_ne_nil sep cs)
      | cons p ps =>
        rw [hs] at ih
        cases ps with
        | nil =>
          simp only [joinWith] at ih ⊢
          rw [ih]
        | cons q qs =>
          simp only [joinWith, List.cons_append] at ih ⊢
          rw [ih]

theorem extLoop_append_dot (x y acc : GoString) (hdot : dot ∉ x) (hslash : slash ∉ x) :
    extLoop (x ++ dot :: y) acc = dot :: (x.reverse ++ acc) := by
  induction x generalizing acc with
  | nil => simp [extLoop, dot, slash]
  | cons c cs ih =>
    have h1 : c ≠ slash := fun e => hslash (by rw [e]; exact List.mem_cons_self _ _)
    have h2 : c ≠ dot := fun e => hdot (by rw [e]; exact List.mem_cons_self _ _)
    simp only [List.cons_append, extLoop, h1, h2, if_false, List.append_eq]
    rw [ih _ (fun e => hdot (List.mem_cons_of_mem _ e))
      (fun e => hslash (List.mem_cons_of_mem _ e))]
    simp

theorem pathExt_append_dot (a f : GoString) (hdot : dot ∉ f) (hslash : slash ∉ f) :
    pathExt (a ++ dot :: f) = dot :: f := by
  unfold pathExt
  rw [List.reverse_append, List.reverse_cons, List.append_assoc, List.singleton_append,
    extLoop_append_dot _ _ _ (by simpa using hdot) (by simpa using hslash)]
  simp

theorem trimSuffixOf_append (a b : GoString) : trimSuffixOf (a ++ b) b = a := by
  unfold trimSuffixOf
  have h : b.isSuffixOf (a ++ b) = true := by
    rw [List.isSuffixOf_iff_suffix]
    exact List.suffix_append a b
  rw [if_pos h]
  simp

theorem pathBase_of_no_slash (s : GoString) (hne : s ≠ []) (hslash : slash ∉ s) :
    pathBase s = s := by
  unfold pathBase
  rw [if_neg hne]
  have hall : ∀ c ∈ s.reverse, c ≠ slash := fun c hc e => hslash (by
    rw [← e]; exact List.mem_reverse.1 hc)
  have h1 : s.reverse.dropWhile (fun c => decide (c = slash)) = s.reverse := by
    cases hr : s.reverse with
    | nil => rfl
    | cons c cs =>
      have : c ≠ slash := hall c (by rw [hr]; exact List.mem_cons_self _ _)
      simp [List.dropWhile, this]
  have h2 : s.reverse.takeWhile (fun c => decide (c ≠ slash)) = s.reverse := by
    rw [List.takeWhile_eq_self_iff]
    intro c hc
    simpa using hall c hc
  simp only [h1, h2, List.reverse_reverse, hne, if_false]

theorem outputName_eq (baseName sizeName format : GoString) :
    outputName baseName sizeName format =
      (baseName ++ underscore :: sizeName) ++ dot :: format := by
  have h1 : gs "_" = [underscore] := by decide
  have h2 : gs "." = [dot] := by decide
  unfold outputName
  rw [h1, h2]
  simp

/-- C30: the manifest generator inverts the naming of the optimizer. For every base name, size
name and format of which none contains a path separator, with no underscore in the size name
and no dot in the format, the name `baseName_sizeName.format` that `optimizeImage` gives an
output file is taken apart again by `extractBaseNameFromPath`, which returns `baseName`, and
by `parseSizeAndFormat`, which returns `(sizeName, format)`. (A dot in the size name does no
harm: the extension is cut at the last dot.) -/
theorem manifest_inverts_output_name (baseName sizeName format : GoString)
    (hsize : underscore ∉ sizeName) (hformat : dot ∉ format)
    (hb : slash ∉ baseName) (hs : slash ∉ sizeName) (hf : slash ∉ format) :
    extractBaseNameFromPath (outputName baseName sizeName format) = baseName ∧
      parseSizeAndFormat (outputName baseName sizeName format) = (sizeName, format) := by
  have hname := outputName_eq baseName sizeName format
  have hext : pathExt (outputName baseName sizeName format) = dot :: format := by
    rw [hname]; exact pathExt_append_dot _ _ hformat hf
  have htrim : trimSuffixOf (outputName baseName sizeName format) (dot :: format) =
      baseName ++ underscore :: sizeName := by
    rw [hname]; exact trimSuffixOf_append _ _
  have hparts : splitOn underscore (baseName ++ underscore :: sizeName) =
      splitOn underscore baseName ++ [sizeName] := by
    rw [splitOn_append_sep, splitOn_of_not_mem underscore sizeName hsize]
  have hlen : 0 < (splitOn underscore baseName).length :=
    List.length_pos.2 (splitOn_ne_nil underscore baseName)
  have hbase : pathBase (outputName baseName sizeName format) =
      outputName baseName sizeName format := by
    apply pathBase_of_no_slash
    · rw [hname]; simp
    · rw [hname]
      have e1 : slash ≠ underscore := by decide
      have e2 : slash ≠ dot := by decide
      simp [hb, hs, hf, e1, e2]
  have hjoin : gs "_" = [underscore] := by decide
  constructor
  · unfold extractBaseNameFromPath
    simp only [hbase, hext, htrim, hparts, List.length_append, List.length_singleton]
    rw [if_pos (by omega)]
    rw [Nat.add_sub_cancel, List.take_left', hjoin, joinWith_splitOn]
    rfl
  · unfold parseSizeAndFormat
    simp only [hext, htrim, hparts, List.length_append, List.length_singleton]
    rw [if_pos (by omega)]
    have hfmt : trimLeading (dot :: format) (gs ".") = format := by
      have h2 : gs "." = [dot] := by decide
      rw [h2]
      simp [trimLeading, List.isPrefixOf]
    rw [hfmt, Nat.add_sub_cancel]
    simp [List.getD_eq_getElem?_getD]

/-- Witness of C30: the base name `54565613170_7e8bef5479_o`, which holds underscores, with the
size `preview` and the format `jpg`. -/
theorem manifest_inverts_output_name_witness :
    underscore ∉ gs "preview" ∧ dot ∉ gs "jpg" ∧
      outputName (gs "54565613170_7e8bef5479_o") (gs "preview") (gs "jpg") =
        gs "54565613170_7e8bef5479_o_preview.jpg" ∧
      extractBaseNameFromPath
          (outputName (gs "54565613170_7e8bef5479_o") (gs "preview") (gs "jpg")) =
        gs "54565613170_7e8bef5479_o" ∧
      parseSizeAndFormat (outputName (gs "54565613170_7e8bef5479_o") (gs "preview") (gs "jpg")) =
        (gs "preview", gs "jpg") :=
  ⟨by decide, by decide, by decide,
    manifest_inverts_output_name (gs "54565613170_7e8bef5479_o") (gs "preview") (gs "jpg")
      (by decide) (by decide) (by decide) (by decide) (by decide)⟩
